import Mathlib

/-!
# HDDM remote stream buffers

A shallow embedding of the prefetching stream buffers of the HDDM toolkit,
`httpStreambuf` (httpstream/httpstream.cpp) and `xrootdStreambuf`
(xrootdstream/xrootdstream.cpp), with theorems about their window of blocks,
and of the function `_istream_init` that hddm-py (src/hddm-py.cpp) writes
into the Python module it generates, which picks the stream for a file name;
of the XDR streams of xstream (xstream/src/xdr.cpp) for `uint32_t` and
strings; and of `XtString::plural` of hddm-py.

Conventions of the embedding.

* The deque `buffer_` is a `List`, oldest block first.
* `int` fields (`readahead_`, `lookback_`, `buffer_index_`) are `Int`; where
  the source mixes them with the `size_t` of `buffer_.size()` the conversion
  to a 64-bit unsigned value is explicit (`toSizeT`, `subSizeT`).
  `std::streamoff` offsets are `Int`, taken without overflow.
* A `char` is an `Int`; `(unsigned char)c` is `c % 256`.
* The remote side is a function from a request to its answer.  A block that
  is handed to a `std::thread` receives its answer when the thread is
  created; nothing reads it before the thread is joined.  The way the thread
  function ends is kept in the thread handle and is met at the join.  An
  exception that leaves a thread function calls `std::terminate` in the
  program when it is thrown, which is no later than that join: a run that
  ends in `Failure.terminate` for it is a run that the program does not
  survive, and what the embedding returns before that join is what the
  program does only as long as the thread has not thrown yet.
* Failures of the C++ abstract machine are values of `Failure`.  A
  constructor that throws gives the error together with the object as it was
  at the throw.
* `requests_` is a ghost field: the byte ranges asked of the remote side so
  far, oldest first.
* The diagnostic output under `verbose_ > 0` is not modelled.
* Loops run on fuel that their own exit test never lets run out: `advance`
  on the `size_t` value of `readahead_`, the eviction loop on
  `buffer_index_ - lookback_`.

The definitions come first: the two classes, then the runs of a stream
buffer, the remote sides used as examples, the closed forms of the window
that the proofs work with, the states a stream buffer goes through, the
destructor of `httpStreambuf`, the Python input stream, the XDR streams and
`XtString`.  The theorems follow.
-/

namespace HDDM

deriving instance DecidableEq for Except

/-- The value of `traits_type::eof()`, returned by `std::streambuf::underflow()`. -/
def eof : Int := -1

/-- Conversion of an `int` to `size_t`: reduction modulo `2^64`. -/
def toSizeT (i : Int) : Nat := (i % 18446744073709551616).toNat

/-- Subtraction `a - b` of two `size_t` values, modulo `2^64`. -/
def subSizeT (a b : Nat) : Nat :=
  (a % 18446744073709551616 + (18446744073709551616 - b % 18446744073709551616))
    % 18446744073709551616

/-- The ways an operation can fail to return. -/
inductive Failure where
  /-- A `std::runtime_error` thrown on the calling thread. -/
  | runtime_error (what : String)
  /-- A call of `std::terminate`: an exception left a thread function, or a
  joinable `std::thread` was destroyed. -/
  | terminate (what : String)
  /-- Undefined behaviour: a null or dangling pointer dereferenced, a deque
  indexed outside its bounds or read while empty. -/
  | undefined (what : String)
deriving DecidableEq, Repr

/-- The fields of `cpr::Response` the stream buffer reads. -/
structure cpr.Response where
  status_code : Int
  status_line : String
  reason : String
  text : List Int
deriving DecidableEq, Repr

/-- A default-constructed `cpr::Response`. -/
def cpr.Response.empty : cpr.Response := ⟨0, "", "", []⟩

/-- The answer of `cpr::Get` for a url and `cpr::Range{lo, hi}`. -/
abbrev cpr.Get := String → Int → Int → cpr.Response

/-- A `std::thread` that runs `background_fill`; `outcome` is how the thread
function ends: normally, or by throwing the `what()` given. -/
structure thread where
  outcome : Except String Unit
deriving DecidableEq, Repr

/-- The class `httpStreambuf::stream_block`; `reader_` is `none` for the null
pointer. -/
structure httpStreambuf.stream_block where
  offset_ : Int
  size_ : Int
  resp_ : cpr.Response
  reader_ : Option thread
deriving DecidableEq, Repr

/-- The constructor `stream_block(offset, size)`. -/
def httpStreambuf.stream_block.new (offset size : Int) : httpStreambuf.stream_block :=
  { offset_ := offset, size_ := size, resp_ := cpr.Response.empty, reader_ := none }

/-- The message of the error thrown by `background_fill`. -/
def httpStreambuf.stream_block.fill_errmsg (url : String) (resp : cpr.Response) : String :=
  "httpStreambuf::background_fill - get request for " ++ url
    ++ " returned error with HTTP response code " ++ resp.status_line ++ " : " ++ resp.reason

/-- The static function `stream_block::background_fill(block, url)`: the block
as it leaves it, and whether it returned (`ok`) or threw (`error`). -/
def httpStreambuf.stream_block.background_fill (get : cpr.Get)
    (block : httpStreambuf.stream_block) (url : String) :
    httpStreambuf.stream_block × Except String Unit :=
  let block := { block with
    resp_ := get url block.offset_ (block.offset_ + block.size_ - 1) }
  if block.resp_.status_code ≠ 206 ∧ block.resp_.status_code ≠ 416 then
    (block, .error (httpStreambuf.stream_block.fill_errmsg url block.resp_))
  else
    (block, .ok ())

/-- The class `httpStreambuf`.  `garea_` holds the chars of the get area, from
`eback()` to `egptr()`, and `gpos_` is `gptr() - eback()`. -/
structure httpStreambuf where
  url_ : String
  buffersize_ : Int
  readahead_ : Int
  lookback_ : Int
  buffer_index_ : Int
  verbose_ : Int
  buffer_ : List httpStreambuf.stream_block
  garea_ : List Int
  gpos_ : Nat
  requests_ : List (Int × Int)
deriving DecidableEq, Repr

namespace httpStreambuf

/-- The member `setg(gbeg, gcurr, gend)` for pointers into one array: `buf`
is the array from `gbeg` on, `gcurr` and `gend` are offsets from `gbeg`. -/
def setg (s : httpStreambuf) (buf : List Int) (gcurr gend : Nat) : httpStreambuf :=
  { s with garea_ := buf.take gend, gpos_ := gcurr }

/-- The loop condition of `advance`:
`buffer_.size() - buffer_index_ < readahead_`, compared as `size_t`. -/
def advance_cond (s : httpStreambuf) : Bool :=
  subSizeT s.buffer_.length (toSizeT s.buffer_index_) < toSizeT s.readahead_

/-- The body of the loop of `advance`: one block appended behind
`buffer_.back()` and its thread started. -/
def advance_body (get : cpr.Get) (s : httpStreambuf) : Except Failure httpStreambuf :=
  match s.buffer_.getLast? with
  | none => .error (.undefined "buffer_.back() on an empty deque")
  | some back =>
    let offset := back.offset_
    let size := back.size_
    let block := stream_block.new (offset + size) s.buffersize_
    let filled := stream_block.background_fill get block s.url_
    .ok { s with
      buffer_ := s.buffer_ ++ [{ filled.1 with reader_ := some ⟨filled.2⟩ }]
      requests_ := s.requests_ ++ [(block.offset_, block.offset_ + block.size_ - 1)] }

/-- The loop of `advance`, for at most `fuel` iterations; `nblocks` counts the
iterations made. -/
def advance_loop (get : cpr.Get) : Nat → httpStreambuf → Int → Except Failure (Int × httpStreambuf)
  | 0, s, nblocks => .ok (nblocks, s)
  | fuel + 1, s, nblocks =>
    if advance_cond s then
      match advance_body get s with
      | .error e => .error e
      | .ok s1 => advance_loop get fuel s1 (nblocks + 1)
    else
      .ok (nblocks, s)

/-- The member `advance()`.  The loop makes fewer iterations than the
`size_t` value of `readahead_`, which is the fuel given. -/
def advance (get : cpr.Get) (s : httpStreambuf) : Except Failure (Int × httpStreambuf) :=
  advance_loop get (toSizeT s.readahead_) s 0

/-- The constructor's error message. -/
def ctor_errmsg (url : String) (resp : cpr.Response) : String :=
  "httpStreambuf constructor - get request for " ++ url
    ++ " returned error with HTTP response code " ++ resp.status_line ++ " : " ++ resp.reason

/-- The constructor `httpStreambuf(url, buffersize)`; the `size_t` argument
is below `2^63`, where its conversion to `std::streamoff` keeps the value.
When it throws, the error comes with the object as it was at the throw. -/
def httpStreambuf (get : cpr.Get) (url : String) (buffersize : Nat) :
    Except (Failure × HDDM.httpStreambuf) HDDM.httpStreambuf :=
  let s : HDDM.httpStreambuf :=
    { url_ := url, lookback_ := 3, readahead_ := 3, buffer_index_ := -1,
      buffersize_ := buffersize, verbose_ := 0,
      buffer_ := [], garea_ := [], gpos_ := 0, requests_ := [] }
  let block : stream_block := stream_block.new 0 s.buffersize_
  let block : stream_block := { block with resp_ := get url 0 (s.buffersize_ - 1) }
  let s : HDDM.httpStreambuf :=
    { s with buffer_ := s.buffer_ ++ [block],
             requests_ := s.requests_ ++ [(0, s.buffersize_ - 1)] }
  if block.resp_.status_code ≠ (206 : Int) then
    .error (.runtime_error (ctor_errmsg url block.resp_), s)
  else
    let buf := block.resp_.text
    let len := block.resp_.text.length
    let s := s.setg buf 0 len
    let s := { s with buffer_index_ := 0 }
    match advance get s with
    | .error e => .error (e, s)
    | .ok r => .ok r.2

/-- The eviction loop of `underflow`,
`while (buffer_index_ > lookback_) ...`, for at most `fuel`
iterations.  Deleting the front block runs `~stream_block`, which deletes a
non-null `reader_`: a thread that was never joined. -/
def evict_loop : Nat → HDDM.httpStreambuf → Except Failure HDDM.httpStreambuf
  | 0, s => .ok s
  | fuel + 1, s =>
    if s.buffer_index_ > s.lookback_ then
      match s.buffer_ with
      | [] => .error (.undefined "buffer_.front() on an empty deque")
      | front :: rest =>
        match front.reader_ with
        | some _ => .error (.terminate "joinable std::thread destroyed")
        | none =>
          evict_loop fuel { s with buffer_ := rest, buffer_index_ := s.buffer_index_ - 1 }
    else
      .ok s

/-- The member `underflow()`: the value returned and the state left. -/
def underflow (get : cpr.Get) (s : HDDM.httpStreambuf) :
    Except Failure (Int × HDDM.httpStreambuf) :=
  let s := { s with buffer_index_ := s.buffer_index_ + 1 }
  if toSizeT s.buffer_index_ = s.buffer_.length then
    .ok (eof, s)
  else
    let i := toSizeT s.buffer_index_
    match s.buffer_[i]? with
    | none => .error (.undefined "buffer_[buffer_index_] outside the deque")
    | some block =>
      match block.reader_ with
      | none => .error (.undefined "reader_->join() on a null reader_")
      | some t =>
        match t.outcome with
        | .error what => .error (.terminate what)
        | .ok _ =>
          let block := { block with reader_ := none }
          let s := { s with buffer_ := s.buffer_.set i block }
          let buf := block.resp_.text
          let len := block.resp_.text.length
          if len = 0 then
            .ok (eof, s)
          else
            let s := s.setg buf 0 len
            match evict_loop (s.buffer_index_ - s.lookback_).toNat s with
            | .error e => .error e
            | .ok s =>
              match advance get s with
              | .error e => .error e
              | .ok r =>
                if r.2.buffer_index_ < 0 then
                  .error (.undefined "*buf read after its block was deleted")
                else
                  .ok (buf.headD 0 % 256, r.2)

end httpStreambuf

/-- The block `advance` appends at offset `off` for block size `B`: created,
handed to its thread and filled by it. -/
def httpStreambuf.fresh (get : cpr.Get) (url : String) (B off : Int) :
    httpStreambuf.stream_block :=
  { (httpStreambuf.stream_block.background_fill get
        (httpStreambuf.stream_block.new off B) url).1 with
    reader_ := some ⟨(httpStreambuf.stream_block.background_fill get
        (httpStreambuf.stream_block.new off B) url).2⟩ }

/-- The `m` blocks that successive iterations of `advance` append from offset
`off` on. -/
def httpStreambuf.pushed (get : cpr.Get) (url : String) (B : Int) :
    Nat → Int → List httpStreambuf.stream_block
  | 0, _ => []
  | m + 1, off =>
    httpStreambuf.fresh get url B off :: httpStreambuf.pushed get url B m (off + B)

/-- The ranges requested for the blocks of `pushed`. -/
def httpStreambuf.pushed_requests (B : Int) : Nat → Int → List (Int × Int)
  | 0, _ => []
  | m + 1, off => (off, off + B - 1) :: httpStreambuf.pushed_requests B m (off + B)

/-- The answer to the request for block number `j` of a stream of block size
`B`: the range `[j*B, j*B + B - 1]`. -/
def httpStreambuf.answer (get : cpr.Get) (url : String) (B j : Nat) : cpr.Response :=
  get url ((j : Int) * B) ((j : Int) * B + B - 1)

/-- Block number `j` as `advance` appends it, its thread not yet joined. -/
def httpStreambuf.block_ahead (get : cpr.Get) (url : String) (B j : Nat) :
    httpStreambuf.stream_block :=
  httpStreambuf.fresh get url B ((j : Int) * B)

/-- Block number `j` once `underflow` has joined its thread, and block 0 as
the constructor fills it. -/
def httpStreambuf.block_joined (get : cpr.Get) (url : String) (B j : Nat) :
    httpStreambuf.stream_block :=
  { httpStreambuf.block_ahead get url B j with reader_ := none }

/-- The window that holds the blocks `lo .. lo+h` joined and the `a` blocks
after them ahead. -/
def httpStreambuf.window (get : cpr.Get) (url : String) (B lo h a : Nat) :
    List httpStreambuf.stream_block :=
  (List.range' lo (h + 1)).map (httpStreambuf.block_joined get url B)
    ++ (List.range' (lo + h + 1) a).map (httpStreambuf.block_ahead get url B)

/-- The state of a stream buffer whose current block is number `lo + h`, with
`h` blocks kept behind it and `a` blocks ahead of it, every block up to
`lo + h + a` requested once. -/
def httpStreambuf.steady (get : cpr.Get) (url : String) (B : Nat) (r l : Int)
    (lo h a : Nat) : HDDM.httpStreambuf :=
  { url_ := url, buffersize_ := B, readahead_ := r, lookback_ := l,
    buffer_index_ := h, verbose_ := 0,
    buffer_ := httpStreambuf.window get url B lo h a,
    garea_ := (httpStreambuf.answer get url B (lo + h)).text, gpos_ := 0,
    requests_ := (List.range (lo + h + 1 + a)).map
      (fun j : Nat => ((j : Int) * B, (j : Int) * B + B - 1)) }

/-- The public fields `readahead_` and `lookback_` as the caller sets them. -/
def httpStreambuf.tune (s : HDDM.httpStreambuf) (readahead lookback : Int) : HDDM.httpStreambuf :=
  { s with readahead_ := readahead, lookback_ := lookback }

/-- The result of `n` successive calls of `underflow`: for each call the value
it returned and the get area it left, then the final state. -/
def httpStreambuf.calls (get : cpr.Get) :
    Nat → HDDM.httpStreambuf → Except Failure (List (Int × List Int) × HDDM.httpStreambuf)
  | 0, s => .ok ([], s)
  | n + 1, s =>
    match httpStreambuf.underflow get s with
    | .error e => .error e
    | .ok r =>
      match httpStreambuf.calls get n r.2 with
      | .error e => .error e
      | .ok t => .ok ((r.1, r.2.garea_.drop r.2.gpos_) :: t.1, t.2)

/-- The life of a stream buffer: the constructor, the caller's values for
`readahead_` and `lookback_`, then `n` calls of `underflow`. -/
def httpStreambuf.run (get : cpr.Get) (url : String) (buffersize : Nat)
    (readahead lookback : Int) (n : Nat) :
    Except Failure (List (Int × List Int) × HDDM.httpStreambuf) :=
  match httpStreambuf.httpStreambuf get url buffersize with
  | .error e => .error e.1
  | .ok s => httpStreambuf.calls get n (s.tune readahead lookback)

/-- What a reader takes from the get areas that successive calls of
`underflow` expose, up to the first call that returns end-of-file; `none`
when `fuel` calls do not reach it or a call fails. -/
def httpStreambuf.read_all (get : cpr.Get) : Nat → HDDM.httpStreambuf → Option (List Int)
  | 0, _ => none
  | fuel + 1, s =>
    match httpStreambuf.underflow get s with
    | .error _ => none
    | .ok r =>
      if r.1 = eof then some []
      else
        match httpStreambuf.read_all get fuel r.2 with
        | none => none
        | some rest => some (r.2.garea_.drop r.2.gpos_ ++ rest)

/-- The bytes a reader gets from a stream buffer built on `url`: the get area
the constructor exposes, then those of the calls of `underflow` up to the
first end-of-file. -/
def httpStreambuf.stream_content (get : cpr.Get) (url : String) (buffersize : Nat)
    (readahead lookback : Int) (fuel : Nat) : Option (List Int) :=
  match httpStreambuf.httpStreambuf get url buffersize with
  | .error _ => none
  | .ok s =>
    match httpStreambuf.read_all get fuel (s.tune readahead lookback) with
    | none => none
    | some rest => some (s.garea_.drop s.gpos_ ++ rest)

/-- The class `XrdCl::XRootDStatus`, reduced to what `IsOK()` returns. -/
structure XrdCl.XRootDStatus where
  IsOK : Bool
deriving DecidableEq, Repr

/-- The effect of `XrdCl::File::Read(offset, size, buffer, bytesRead)`: the
status returned and the chars the buffer holds in `[0, bytesRead)`. -/
structure XrdCl.ReadResult where
  status : XrdCl.XRootDStatus
  data : List Int
deriving DecidableEq, Repr

/-- The class `XrdCl::File` as the stream buffer uses it: the status of
`Open(url, OpenFlags::Read)` and the effect of `Read(offset, size, ..)`. -/
structure XrdCl.File where
  Open : String → XrdCl.XRootDStatus
  Read : Int → Int → XrdCl.ReadResult

/-- The class `xrootdStreambuf::stream_block`.  The array `buf_` and the
count `bytes_read_` are one list: `buf_` holds the chars that `Read` stored,
the array in `[0, bytes_read_)`, and `bytes_read_` is its length. -/
structure xrootdStreambuf.stream_block where
  offset_ : Int
  buf_ : List Int
  resp_ : XrdCl.XRootDStatus
  size_ : Int
  reader_ : Option thread
deriving DecidableEq, Repr

/-- The field `bytes_read_` of a block. -/
def xrootdStreambuf.stream_block.bytes_read_ (block : xrootdStreambuf.stream_block) : Nat :=
  block.buf_.length

/-- The constructor `stream_block(offset, size)`: nothing read yet; a
default-constructed `XRootDStatus` is a success. -/
def xrootdStreambuf.stream_block.new (offset size : Int) : xrootdStreambuf.stream_block :=
  { offset_ := offset, buf_ := [], resp_ := ⟨true⟩, size_ := size, reader_ := none }

/-- The message of the error thrown by `background_fill`. -/
def xrootdStreambuf.stream_block.fill_errmsg (url : String) : String :=
  "xrootdStreambuf::background_fill - read request for " ++ url ++ " returned error."

/-- The static function `stream_block::background_fill(block, xrdfile, url)`:
the block as it leaves it, and whether it returned or threw. -/
def xrootdStreambuf.stream_block.background_fill (block : xrootdStreambuf.stream_block)
    (xrdfile : XrdCl.File) (url : String) :
    xrootdStreambuf.stream_block × Except String Unit :=
  let r := xrdfile.Read block.offset_ block.size_
  let block := { block with resp_ := r.status, buf_ := r.data }
  if ! block.resp_.IsOK then
    (block, .error (xrootdStreambuf.stream_block.fill_errmsg url))
  else
    (block, .ok ())

/-- The class `xrootdStreambuf`.  The pointer `xrdfile_` is the `XrdCl.File`
handed to the operations; `xrdfs_` is never set or read.  `requests_` is the
ghost trace of the `Read` calls made, as offset and size. -/
structure xrootdStreambuf where
  url_ : String
  buffersize_ : Int
  readahead_ : Int
  lookback_ : Int
  buffer_index_ : Int
  verbose_ : Int
  buffer_ : List xrootdStreambuf.stream_block
  garea_ : List Int
  gpos_ : Nat
  requests_ : List (Int × Int)
deriving DecidableEq, Repr

namespace xrootdStreambuf

/-- The member `setg(gbeg, gcurr, gend)`, as for `httpStreambuf`. -/
def setg (s : xrootdStreambuf) (buf : List Int) (gcurr gend : Nat) : xrootdStreambuf :=
  { s with garea_ := buf.take gend, gpos_ := gcurr }

/-- The loop condition of `advance`, compared as `size_t`. -/
def advance_cond (s : xrootdStreambuf) : Bool :=
  subSizeT s.buffer_.length (toSizeT s.buffer_index_) < toSizeT s.readahead_

/-- The body of the loop of `advance`. -/
def advance_body (xrdfile : XrdCl.File) (s : xrootdStreambuf) :
    Except Failure xrootdStreambuf :=
  match s.buffer_.getLast? with
  | none => .error (.undefined "buffer_.back() on an empty deque")
  | some back =>
    let offset := back.offset_
    let size := back.size_
    let block := stream_block.new (offset + size) s.buffersize_
    let filled := stream_block.background_fill block xrdfile s.url_
    .ok { s with
      buffer_ := s.buffer_ ++ [{ filled.1 with reader_ := some ⟨filled.2⟩ }]
      requests_ := s.requests_ ++ [(block.offset_, block.size_)] }

/-- The loop of `advance`, for at most `fuel` iterations. -/
def advance_loop (xrdfile : XrdCl.File) :
    Nat → xrootdStreambuf → Int → Except Failure (Int × xrootdStreambuf)
  | 0, s, nblocks => .ok (nblocks, s)
  | fuel + 1, s, nblocks =>
    if advance_cond s then
      match advance_body xrdfile s with
      | .error e => .error e
      | .ok s1 => advance_loop xrdfile fuel s1 (nblocks + 1)
    else
      .ok (nblocks, s)

/-- The member `advance()`. -/
def advance (xrdfile : XrdCl.File) (s : xrootdStreambuf) :
    Except Failure (Int × xrootdStreambuf) :=
  advance_loop xrdfile (toSizeT s.readahead_) s 0

/-- The constructor's error message. -/
def ctor_errmsg (url : String) : String :=
  "xrootdStreambuf constructor - open request failed" ++ " for " ++ url

/-- The constructor `xrootdStreambuf(url, buffersize)`.  When it throws, the
error comes with the object as it was at the throw. -/
def xrootdStreambuf (xrdfile : XrdCl.File) (url : String) (buffersize : Nat) :
    Except (Failure × HDDM.xrootdStreambuf) HDDM.xrootdStreambuf :=
  let s : HDDM.xrootdStreambuf :=
    { url_ := url, lookback_ := 3, readahead_ := 3, buffer_index_ := -1,
      buffersize_ := buffersize, verbose_ := 0,
      buffer_ := [], garea_ := [], gpos_ := 0, requests_ := [] }
  let block : stream_block := stream_block.new 0 s.buffersize_
  let s : HDDM.xrootdStreambuf := { s with buffer_ := s.buffer_ ++ [block] }
  let block : stream_block := { block with resp_ := xrdfile.Open url }
  if ! block.resp_.IsOK then
    .error (.runtime_error (ctor_errmsg url), { s with buffer_ := [block] })
  else
    let r := xrdfile.Read block.offset_ block.size_
    let block : stream_block := { block with resp_ := r.status, buf_ := r.data }
    let s : HDDM.xrootdStreambuf :=
      { s with buffer_ := [block], requests_ := s.requests_ ++ [(block.offset_, block.size_)] }
    let buf := block.buf_
    let len := block.bytes_read_
    let s := s.setg buf 0 len
    let s := { s with buffer_index_ := 0 }
    match advance xrdfile s with
    | .error e => .error (e, s)
    | .ok r => .ok r.2

/-- The eviction loop of `underflow`, for at most `fuel` iterations.
`~stream_block` frees `buf_` and leaves `reader_` alone: a block deleted with
a thread never joined is freed under a thread that may still write to it. -/
def evict_loop : Nat → HDDM.xrootdStreambuf → Except Failure HDDM.xrootdStreambuf
  | 0, s => .ok s
  | fuel + 1, s =>
    if s.buffer_index_ > s.lookback_ then
      match s.buffer_ with
      | [] => .error (.undefined "buffer_.front() on an empty deque")
      | front :: rest =>
        match front.reader_ with
        | some _ => .error (.undefined "buf_ freed under a thread never joined")
        | none =>
          evict_loop fuel { s with buffer_ := rest, buffer_index_ := s.buffer_index_ - 1 }
    else
      .ok s

/-- The member `underflow()`: the value returned and the state left. -/
def underflow (xrdfile : XrdCl.File) (s : HDDM.xrootdStreambuf) :
    Except Failure (Int × HDDM.xrootdStreambuf) :=
  let s := { s with buffer_index_ := s.buffer_index_ + 1 }
  if toSizeT s.buffer_index_ = s.buffer_.length then
    .ok (eof, s)
  else
    let i := toSizeT s.buffer_index_
    match s.buffer_[i]? with
    | none => .error (.undefined "buffer_[buffer_index_] outside the deque")
    | some block =>
      match block.reader_ with
      | none => .error (.undefined "reader_->join() on a null reader_")
      | some t =>
        match t.outcome with
        | .error what => .error (.terminate what)
        | .ok _ =>
          let block := { block with reader_ := none }
          let s := { s with buffer_ := s.buffer_.set i block }
          let buf := block.buf_
          let len := block.bytes_read_
          if len = 0 then
            .ok (eof, s)
          else
            let s := s.setg buf 0 len
            match evict_loop (s.buffer_index_ - s.lookback_).toNat s with
            | .error e => .error e
            | .ok s =>
              match advance xrdfile s with
              | .error e => .error e
              | .ok r =>
                if r.2.buffer_index_ < 0 then
                  .error (.undefined "*buf read after its block was deleted")
                else
                  .ok (buf.headD 0 % 256, r.2)

end xrootdStreambuf

/-- The public fields `readahead_` and `lookback_` as the caller sets them. -/
def xrootdStreambuf.tune (s : HDDM.xrootdStreambuf) (readahead lookback : Int) :
    HDDM.xrootdStreambuf :=
  { s with readahead_ := readahead, lookback_ := lookback }

/-- The result of `n` successive calls of `underflow`: for each call the value
it returned and the get area it left, then the final state. -/
def xrootdStreambuf.calls (xrdfile : XrdCl.File) :
    Nat → HDDM.xrootdStreambuf → Except Failure (List (Int × List Int) × HDDM.xrootdStreambuf)
  | 0, s => .ok ([], s)
  | n + 1, s =>
    match xrootdStreambuf.underflow xrdfile s with
    | .error e => .error e
    | .ok r =>
      match xrootdStreambuf.calls xrdfile n r.2 with
      | .error e => .error e
      | .ok t => .ok ((r.1, r.2.garea_.drop r.2.gpos_) :: t.1, t.2)

/-- The life of a stream buffer: the constructor, the caller's values for
`readahead_` and `lookback_`, then `n` calls of `underflow`. -/
def xrootdStreambuf.run (xrdfile : XrdCl.File) (url : String) (buffersize : Nat)
    (readahead lookback : Int) (n : Nat) :
    Except Failure (List (Int × List Int) × HDDM.xrootdStreambuf) :=
  match xrootdStreambuf.xrootdStreambuf xrdfile url buffersize with
  | .error e => .error e.1
  | .ok s => xrootdStreambuf.calls xrdfile n (s.tune readahead lookback)

/-- An XRootD file seen as an HTTP server: the range `[lo, hi]` is read with
`Read(lo, hi - lo + 1)`; a read that is OK is a 206 answer with the chars
read, any other a 500 answer. -/
def xrootdStreambuf.asGet (xrdfile : XrdCl.File) : cpr.Get := fun _ lo hi =>
  ⟨if (xrdfile.Read lo (hi - lo + 1)).status.IsOK then 206 else 500, "", "",
    (xrdfile.Read lo (hi - lo + 1)).data⟩

/-- The `httpStreambuf` block that matches an `xrootdStreambuf` block: same
offset, size and payload, a thread that ends the same way. -/
def xrootdStreambuf.stream_block.toHttp (url : String) (b : xrootdStreambuf.stream_block) :
    httpStreambuf.stream_block :=
  { offset_ := b.offset_, size_ := b.size_,
    resp_ := ⟨if b.resp_.IsOK then 206 else 500, "", "", b.buf_⟩,
    reader_ :=
      match b.reader_ with
      | none => none
      | some t =>
        match t.outcome with
        | .ok u => some ⟨.ok u⟩
        | .error _ => some ⟨.error (httpStreambuf.stream_block.fill_errmsg url
            ⟨if b.resp_.IsOK then 206 else 500, "", "", b.buf_⟩)⟩ }

/-- The `httpStreambuf` state that matches an `xrootdStreambuf` state: the
same fields, the matching blocks, and each `Read(offset, size)` of the trace
as the range `[offset, offset + size - 1]`. -/
def xrootdStreambuf.toHttp (s : HDDM.xrootdStreambuf) : HDDM.httpStreambuf :=
  { url_ := s.url_, buffersize_ := s.buffersize_, readahead_ := s.readahead_,
    lookback_ := s.lookback_, buffer_index_ := s.buffer_index_, verbose_ := s.verbose_,
    buffer_ := s.buffer_.map (xrootdStreambuf.stream_block.toHttp s.url_),
    garea_ := s.garea_, gpos_ := s.gpos_,
    requests_ := s.requests_.map (fun q => (q.1, q.1 + q.2 - 1)) }

/-- Two results match: both are failures, or both are values and the
`httpStreambuf` one is the image of the `xrootdStreambuf` one. -/
def Matches {α β : Type} (f : α → β) (x : Except Failure α) (h : Except Failure β) : Prop :=
  match x, h with
  | .ok a, .ok b => b = f a
  | .error _, .error _ => True
  | _, _ => False

/-- An HTTP server holding the resource `res`: a range that starts inside the
resource is answered 206 with the bytes it covers, any other 416 with no
body. -/
def rangeServer (res : List Int) : cpr.Get := fun _ lo hi =>
  if 0 ≤ lo ∧ lo < res.length then
    ⟨206, "HTTP/1.1 206 Partial Content", "Partial Content",
      (res.drop lo.toNat).take (hi + 1 - lo).toNat⟩
  else
    ⟨416, "HTTP/1.1 416 Range Not Satisfiable", "Range Not Satisfiable", []⟩

/-- An HTTP server like `rangeServer res`, except that every request that
starts at offset `bad` is answered with status 500 and no body. -/
def faultyServer (res : List Int) (bad : Int) : cpr.Get := fun url lo hi =>
  if lo = bad then
    ⟨500, "HTTP/1.1 500 Internal Server Error", "Internal Server Error", []⟩
  else
    rangeServer res url lo hi

/-- An XRootD file holding the resource `res`: it opens, and `Read(offset,
size)` is OK with the bytes of the resource in `[offset, offset + size)`, none
when the offset is at or past the end. -/
def resourceFile (res : List Int) : XrdCl.File :=
  { Open := fun _ => ⟨true⟩,
    Read := fun offset size => ⟨⟨true⟩, (res.drop offset.toNat).take size.toNat⟩ }

/-- An XRootD file that opens, and whose every `Read` reports a failure and
leaves the buffer and `bytesRead` alone. -/
def unreadableFile : XrdCl.File :=
  { Open := fun _ => ⟨true⟩, Read := fun _ _ => ⟨⟨false⟩, []⟩ }

/-- An XRootD file that does not open. -/
def absentFile : XrdCl.File :=
  { Open := fun _ => ⟨false⟩, Read := fun _ _ => ⟨⟨false⟩, []⟩ }

/-- A backend that serves the resource `res` to requests of `B` bytes: the
request at offset `a` is answered with the bytes `[a, min(a+B, L))` of the
resource and status 206 when `a < L`, and with an empty payload and status
206 or 416 when `a ≥ L`. -/
def Serves (get : cpr.Get) (url : String) (res : List Int) (B : Nat) : Prop :=
  ∀ a : Nat,
    (get url a (a + B - 1)).text = (res.drop a).take B ∧
    ((get url a (a + B - 1)).status_code = 206 ∨
      (res.length ≤ a ∧ (get url a (a + B - 1)).status_code = 416))


/-! ## The window over the life of a stream buffer -/

/-- The offset and the size of each block of the window, oldest first. -/
def httpStreambuf.extents (s : HDDM.httpStreambuf) : List (Int × Int) :=
  s.buffer_.map (fun b => (b.offset_, b.size_))

/-- What the operations keep of a stream buffer of block size `B`, wherever
`buffer_index_` stands: `buffersize_` is `B`, every block has that size, each
block starts where the block before it ends, and the ranges requested so far
are those of the blocks `0 .. n-1`, the newest block of the window ending
where block `n` starts, and the range of every block of the window, from its
first to its last byte, is among them. -/
structure httpStreambuf.WellFormed (B : Nat) (s : HDDM.httpStreambuf) : Prop where
  buffersize : s.buffersize_ = B
  sizes : ∀ b ∈ s.buffer_, b.size_ = B
  chain : List.Chain' (fun a b : Int × Int => b.1 = a.1 + a.2) s.extents
  requests : ∃ n : Nat,
    s.requests_ = (List.range n).map (fun j : Nat => ((j : Int) * B, (j : Int) * B + B - 1)) ∧
    ∀ back, s.buffer_.getLast? = some back → back.offset_ + back.size_ = (n : Int) * B
  asked : ∀ b ∈ s.buffer_, (b.offset_, b.offset_ + b.size_ - 1) ∈ s.requests_

/-- The states of an `httpStreambuf` on `url` with block size `B`: the state
the constructor returns, and every state that a returning call of `advance`
or of `underflow`, or the caller's setting of `readahead_` and `lookback_`,
leads to from one of them. -/
inductive httpStreambuf.Reachable (get : cpr.Get) (url : String) (B : Nat) :
    HDDM.httpStreambuf → Prop where
  | ctor (s : HDDM.httpStreambuf) :
      httpStreambuf.httpStreambuf get url B = .ok s → Reachable get url B s
  | tune (s : HDDM.httpStreambuf) (readahead lookback : Int) :
      Reachable get url B s → Reachable get url B (s.tune readahead lookback)
  | advance (s : HDDM.httpStreambuf) (r : Int × HDDM.httpStreambuf) :
      Reachable get url B s → httpStreambuf.advance get s = .ok r → Reachable get url B r.2
  | underflow (s : HDDM.httpStreambuf) (c : Int) (s1 : HDDM.httpStreambuf) :
      Reachable get url B s → httpStreambuf.underflow get s = .ok (c, s1) →
      Reachable get url B s1

/-- The states of an `xrootdStreambuf` on `url` with block size `B`, as for
`httpStreambuf`. -/
inductive xrootdStreambuf.Reachable (xrdfile : XrdCl.File) (url : String) (B : Nat) :
    HDDM.xrootdStreambuf → Prop where
  | ctor (s : HDDM.xrootdStreambuf) :
      xrootdStreambuf.xrootdStreambuf xrdfile url B = .ok s → Reachable xrdfile url B s
  | tune (s : HDDM.xrootdStreambuf) (readahead lookback : Int) :
      Reachable xrdfile url B s → Reachable xrdfile url B (s.tune readahead lookback)
  | advance (s : HDDM.xrootdStreambuf) (r : Int × HDDM.xrootdStreambuf) :
      Reachable xrdfile url B s → xrootdStreambuf.advance xrdfile s = .ok r →
      Reachable xrdfile url B r.2
  | underflow (s : HDDM.xrootdStreambuf) (c : Int) (s1 : HDDM.xrootdStreambuf) :
      Reachable xrdfile url B s → xrootdStreambuf.underflow xrdfile s = .ok (c, s1) →
      Reachable xrdfile url B s1

/-- The block that `buffer_index_` designates, when it is inside the window. -/
def httpStreambuf.current (s : HDDM.httpStreambuf) : Option httpStreambuf.stream_block :=
  if 0 ≤ s.buffer_index_ then s.buffer_[s.buffer_index_.toNat]? else none

/-- The block that `buffer_index_` designates, when it is inside the window. -/
def xrootdStreambuf.current (s : HDDM.xrootdStreambuf) : Option xrootdStreambuf.stream_block :=
  if 0 ≤ s.buffer_index_ then s.buffer_[s.buffer_index_.toNat]? else none

/-- The number of blocks of the window after the one `buffer_index_`
designates. -/
def httpStreambuf.blocks_ahead (s : HDDM.httpStreambuf) : Int :=
  (s.buffer_.length : Int) - 1 - s.buffer_index_

/-- An HTTP server like `rangeServer res` whose 416 answer has a body, the
chars `page` of an error page. -/
def chattyServer (res page : List Int) : cpr.Get := fun _ lo hi =>
  if 0 ≤ lo ∧ lo < res.length then
    ⟨206, "HTTP/1.1 206 Partial Content", "Partial Content",
      (res.drop lo.toNat).take (hi + 1 - lo).toNat⟩
  else
    ⟨416, "HTTP/1.1 416 Range Not Satisfiable", "Range Not Satisfiable", page⟩

/-- The default value of the constructor argument `buffersize`, in
httpstream.hpp and in xrootdstream.hpp. -/
def default_buffersize : Nat := 10000000

/-- The constructor call `httpStreambuf(url)`, the second argument left to
its default. -/
def httpStreambuf.httpStreambuf_url (get : cpr.Get) (url : String) :
    Except (Failure × HDDM.httpStreambuf) HDDM.httpStreambuf :=
  httpStreambuf.httpStreambuf get url default_buffersize

/-- The constructor call `xrootdStreambuf(url)`, the second argument left to
its default. -/
def xrootdStreambuf.xrootdStreambuf_url (xrdfile : XrdCl.File) (url : String) :
    Except (Failure × HDDM.xrootdStreambuf) HDDM.xrootdStreambuf :=
  xrootdStreambuf.xrootdStreambuf xrdfile url default_buffersize

/-! ## The destructor of `httpStreambuf` -/

/-- A step the destructor `~httpStreambuf` takes on the block at an
offset. -/
inductive httpStreambuf.Teardown where
  /-- The call `reader_->join()`. -/
  | join (offset : Int)
  /-- The statement `delete (*iter)->reader_`. -/
  | delete_reader (offset : Int)
  /-- The statement `delete *iter`, once `~stream_block` has returned. -/
  | delete_block (offset : Int)
deriving DecidableEq, Repr

/-- The destructor `~stream_block()`: `if (reader_ != 0) delete reader_;`.
`deleted` tells that the `std::thread` that `reader_` points to was deleted
before; otherwise a non-null `reader_` points to a thread never joined. -/
def httpStreambuf.stream_block.destroy (block : httpStreambuf.stream_block) (deleted : Bool) :
    Except Failure Unit :=
  match block.reader_ with
  | none => .ok ()
  | some _ =>
    if deleted then .error (.undefined "delete of a reader_ that was deleted before")
    else .error (.terminate "joinable std::thread destroyed")

/-- The loop of the destructor `~httpStreambuf()` over the blocks left: the
steps taken so far, and how the loop ends.  The destructor deletes a non-null
`reader_` and leaves the pointer as it is. -/
def httpStreambuf.dtor_loop :
    List httpStreambuf.stream_block → List httpStreambuf.Teardown →
      List httpStreambuf.Teardown × Except Failure Unit
  | [], log => (log, .ok ())
  | block :: rest, log =>
    match block.reader_ with
    | some t =>
      match t.outcome with
      | .error what => (log ++ [.join block.offset_], .error (.terminate what))
      | .ok _ =>
        match block.destroy true with
        | .error e => (log ++ [.join block.offset_, .delete_reader block.offset_], .error e)
        | .ok _ =>
          httpStreambuf.dtor_loop rest
            (log ++ [.join block.offset_, .delete_reader block.offset_,
              .delete_block block.offset_])
    | none =>
      match block.destroy false with
      | .error e => (log, .error e)
      | .ok _ => httpStreambuf.dtor_loop rest (log ++ [.delete_block block.offset_])

/-- The destructor `~httpStreambuf()`. -/
def httpStreambuf.dtor (s : HDDM.httpStreambuf) :
    List httpStreambuf.Teardown × Except Failure Unit :=
  httpStreambuf.dtor_loop s.buffer_ []

/-! ## The input stream of the generated Python module -/

namespace hddm_py

/-- The Python exception that `PyErr_Format` or `PyErr_SetString` sets. -/
inductive PyErr where
  | PyExc_IOError (message : String)
  | PyExc_RuntimeError (message : String)
deriving DecidableEq, Repr

/-- The stream that `self->istr` reads from. -/
inductive Source where
  | fstr
  | tstr
  | rstr
deriving DecidableEq, Repr

/-- The build options of the generated module and what it calls:
`httpIstream` and `xrootdIstream` give the `what()` of the exception that the
constructor of that name throws on a file name, or the `good()` of the stream
built; `ifstream` gives the `good()` of `std::ifstream(filename)`; `istream`
gives how the constructor of the HDDM `istream` over the stream opened for a
file name ends. -/
structure World where
  ISTREAM_OVER_HTTP : Bool
  ISTREAM_OVER_XROOTD : Bool
  httpIstream : String → Except String Bool
  xrootdIstream : String → Except String Bool
  ifstream : String → Bool
  istream : String → Except String Unit

/-- The Python object `_istream`: a pointer is `none` when null; a stream
that was built is kept with its `good()`. -/
structure _istream where
  fname : Option String
  fstr : Option Bool
  tstr : Option Bool
  rstr : Option Bool
  istr : Option Source
deriving DecidableEq, Repr

/-- The object as `_istream_new` returns it. -/
def _istream_new : _istream :=
  { fname := none, fstr := none, tstr := none, rstr := none, istr := none }

/-- The test `strncmp(s, lit, n) == 0` for a literal `lit` of `n` chars. -/
def strncmp_eq (s lit : String) : Bool :=
  lit.toList.isPrefixOf s.toList

/-- The last block of `_istream_init`, which builds the HDDM `istream` on the
stream that was opened. -/
def _istream_init_istr (w : World) (self : _istream) (filename : String) :
    Int × _istream × Option PyErr :=
  if self.fstr.isSome then
    match w.istream filename with
    | .error what => (-1, self, some (.PyExc_RuntimeError what))
    | .ok _ => (0, { self with istr := some .fstr }, none)
  else if w.ISTREAM_OVER_HTTP && self.tstr.isSome then
    match w.istream filename with
    | .error what => (-1, self, some (.PyExc_RuntimeError what))
    | .ok _ => (0, { self with istr := some .tstr }, none)
  else if w.ISTREAM_OVER_XROOTD && self.rstr.isSome then
    match w.istream filename with
    | .error what => (-1, self, some (.PyExc_RuntimeError what))
    | .ok _ => (0, { self with istr := some .rstr }, none)
  else
    (0, self, some (.PyExc_IOError ("Cannot access input file " ++ filename)))

/-- The function `_istream_init` that hddm-py writes into the module, called
on the object as `_istream_new` returns it, where the deletes at its head do
nothing: the value returned, the object, and the Python exception set.
`filename` is `none` when `PyArg_ParseTupleAndKeywords` fails. -/
def _istream_init (w : World) (filename : Option String) : Int × _istream × Option PyErr :=
  let self := _istream_new
  match filename with
  | none => (-1, self, none)
  | some filename =>
    let self := { self with fname := some filename }
    if strncmp_eq filename "http://" || strncmp_eq filename "https://" then
      if w.ISTREAM_OVER_HTTP then
        match w.httpIstream filename with
        | .error what => (-1, self, some (.PyExc_IOError what))
        | .ok good =>
          let self := { self with tstr := some good }
          if ! good then
            (-1, self, some (.PyExc_IOError ("Cannot open input url " ++ filename)))
          else
            _istream_init_istr w self filename
      else
        (-1, self, some (.PyExc_IOError
          "Input streaming over http[s] disabled, see build options"))
    else if strncmp_eq filename "root://" || strncmp_eq filename "xrootd://" then
      if w.ISTREAM_OVER_XROOTD then
        match w.xrootdIstream filename with
        | .error what => (-1, self, some (.PyExc_IOError what))
        | .ok good =>
          let self := { self with rstr := some good }
          if ! good then
            (-1, self, some (.PyExc_IOError ("Cannot open input url " ++ filename)))
          else
            _istream_init_istr w self filename
      else
        (-1, self, some (.PyExc_IOError
          "Input streaming over xrootd disabled, see build options"))
    else
      let self := { self with fstr := some (w.ifstream filename) }
      if ! w.ifstream filename then
        (-1, self, some (.PyExc_IOError ("Cannot open input file " ++ filename)))
      else
        _istream_init_istr w self filename

/-- A world where both backends are built in, no remote stream opens, and the
local files listed in `files` open. -/
def localWorld (files : List String) : World :=
  { ISTREAM_OVER_HTTP := true, ISTREAM_OVER_XROOTD := true,
    httpIstream := fun _ => .error "no network",
    xrootdIstream := fun _ => .error "no network",
    ifstream := fun name => decide (name ∈ files),
    istream := fun _ => .ok () }

end hddm_py

/-! ## The states up to the first end-of-file -/

/-- The threads of the window are where `underflow` expects them: every block
at a position up to `buffer_index_` has a null `reader_`, every block after
it a non-null one. -/
def httpStreambuf.Joined (s : HDDM.httpStreambuf) : Prop :=
  (∀ (i : Nat) (b : httpStreambuf.stream_block),
    s.buffer_[i]? = some b → (i : Int) ≤ s.buffer_index_ → b.reader_ = none) ∧
  (∀ (i : Nat) (b : httpStreambuf.stream_block),
    s.buffer_[i]? = some b → s.buffer_index_ < (i : Int) → b.reader_ ≠ none)

/-- The states of an `httpStreambuf` on `url` with block size `B` before the
first end-of-file: the state the constructor returns, with `readahead_` and
`lookback_` set to `r` and `l`, and every state that a call of `underflow`
that returns a byte leads to from one of them. -/
inductive httpStreambuf.Consuming (get : cpr.Get) (url : String) (B : Nat) (r l : Int) :
    HDDM.httpStreambuf → Prop where
  | ctor (s : HDDM.httpStreambuf) :
      httpStreambuf.httpStreambuf get url B = .ok s → Consuming get url B r l (s.tune r l)
  | underflow (s : HDDM.httpStreambuf) (c : Int) (s1 : HDDM.httpStreambuf) :
      Consuming get url B r l s → httpStreambuf.underflow get s = .ok (c, s1) → c ≠ eof →
      Consuming get url B r l s1

/-- What the claims compare of the window of an `httpStreambuf`:
`buffer_index_`, the offset, size and payload of each block and whether it
has a thread, the ranges requested, the get area and the read position. -/
def httpStreambuf.view (s : HDDM.httpStreambuf) :
    Int × List (Int × Int × List Int × Bool) × List (Int × Int) × List Int × Nat :=
  (s.buffer_index_,
    s.buffer_.map (fun b => (b.offset_, b.size_, b.resp_.text, b.reader_.isSome)),
    s.requests_, s.garea_, s.gpos_)

/-- The same of the window of an `xrootdStreambuf`, each `Read(offset, size)`
as the range `[offset, offset + size - 1]`. -/
def xrootdStreambuf.view (s : HDDM.xrootdStreambuf) :
    Int × List (Int × Int × List Int × Bool) × List (Int × Int) × List Int × Nat :=
  (s.buffer_index_,
    s.buffer_.map (fun b => (b.offset_, b.size_, b.buf_, b.reader_.isSome)),
    s.requests_.map (fun q => (q.1, q.1 + q.2 - 1)), s.garea_, s.gpos_)

/-- A call of `advance` with the result `res` does not return with fewer than
`n` blocks in the window. -/
@[irreducible]
def httpStreambuf.leaves_at_least (res : Except Failure (Int × HDDM.httpStreambuf)) (n : Nat) :
    Prop :=
  match res with
  | .ok r => n ≤ r.2.buffer_.length
  | .error _ => True

/-- The number of blocks of `B` bytes that hold a resource of `L` bytes,
`ceil(L / B)`. -/
def blocks_of (L B : Nat) : Nat := (L + B - 1) / B

/-! ## The XDR streams of xstream -/

namespace xstream.xdr

/-- A `std::streambuf` as the XDR streams use it: the chars written to it, or
the chars left to read, each as its `unsigned char` value. -/
abbrev streambuf := List Nat

/-- The member `sbumpc()`: the char read as `unsigned char`, or
`traits_type::eof()` when none is left. -/
def sbumpc (sb : streambuf) : Int × streambuf :=
  match sb with
  | [] => (-1, [])
  | c :: rest => (c, rest)

/-- The first loop of `ostream::operator<<(uint32_t)`:
`c[i] = static_cast<unsigned char>(v & 0xff)` with `v >>= 8`, for `n`
iterations; the array `c` from index `i` on. -/
def ostream.split : Nat → Nat → List Nat
  | 0, _ => []
  | n + 1, v => (v &&& 0xff) % 256 :: ostream.split n (v >>> 8)

/-- The operator `ostream::operator<<(uint32_t _v)`: the second loop puts
`c[3 - i]` for `i = 0 .. 3`. -/
def ostream.put_uint32 (sb : streambuf) (_v : Nat) : streambuf :=
  let c := ostream.split 4 _v
  sb ++ (List.range 4).map (fun i => c.getD (3 - i) 0)

/-- The array `pad` of `ostream::operator<<(const string&)`. -/
def ostream.pad : List Nat := [0, 0, 0, 0]

/-- The value `(-len) & 3` for a `size_t` `len`. -/
def ostream.padlen (len : Nat) : Nat :=
  ((18446744073709551616 - len % 18446744073709551616) % 18446744073709551616) &&& 3

/-- The operator `ostream::operator<<(const string &s)`.  The statement
`throw;` with no exception being handled calls `std::terminate`. -/
def ostream.put_string (sb : streambuf) (s : List Nat) : Except Failure streambuf :=
  let len := s.length
  if len > 4294967295 then
    .error (.terminate "throw with no exception being handled")
  else
    let sb := ostream.put_uint32 sb (len % 4294967296)
    let sb := sb ++ s.take len
    let padlen := ostream.padlen len
    if padlen > 0 then
      .ok (sb ++ ostream.pad.take padlen)
    else
      .ok sb

/-- The loop of `istream::operator>>(uint32_t &v)`, for `n` iterations:
`c = static_cast<uint32_t>(_sb->sbumpc()); v <<= 8; v |= c;`. -/
def istream.get_uint32_loop : Nat → Nat → streambuf → Nat × streambuf
  | 0, v, sb => (v, sb)
  | n + 1, v, sb =>
    let c := ((sbumpc sb).1 % 4294967296).toNat
    let v := (v <<< 8) % 4294967296
    let v := v ||| c
    istream.get_uint32_loop n v (sbumpc sb).2

/-- The operator `istream::operator>>(uint32_t &v)`: the value stored in `v`
and the chars left. -/
def istream.get_uint32 (sb : streambuf) : Nat × streambuf :=
  istream.get_uint32_loop 4 0 sb

/-- The conversion `static_cast<int32_t>(len)` of a `uint32_t`. -/
def to_int32 (len : Nat) : Int :=
  if len % 4294967296 < 2147483648 then (len % 4294967296 : Nat)
  else ((len % 4294967296 : Nat) : Int) - 4294967296

/-- The value `(-static_cast<int32_t>(len)) & 3` as a `size_t`, the negation
taken with 32-bit wrap-around: the `&` acts on the two's-complement bits. -/
def istream.padlen (len : Nat) : Nat :=
  ((- to_int32 len) % 4294967296).toNat &&& 3

/-- The operator `istream::operator>>(string &s)`: the chars left and the
destination string.  `sgetn` stores the chars there are, at most `len`; when
there are fewer the string is built from chars of the `malloc` block that
were never written. -/
def istream.get_string (sb : streambuf) (s : List Nat) : Except Failure (streambuf × List Nat) :=
  let len := (istream.get_uint32 sb).1
  let sb := (istream.get_uint32 sb).2
  if len > 0 then
    if sb.length < len then
      .error (.undefined "string built from chars of line never written")
    else
      let line := sb.take len
      let sb := sb.drop len
      let s := line
      let pad := istream.padlen len
      if pad ≠ 0 then .ok (sb.drop pad, s) else .ok (sb, s)
  else
    .ok (sb, s)

end xstream.xdr

/-! ## The class `XtString` of hddm-py -/

namespace XtString

/-- The exception `std::out_of_range` that the members of `std::string`
throw. -/
inductive Exception where
  | out_of_range (what : String)
deriving DecidableEq, Repr

/-- The member `substr(pos, n)`: it throws when `pos > size()`. -/
def substr (p : List Char) (pos n : Nat) : Except Exception (List Char) :=
  if pos > p.length then .error (.out_of_range "basic_string::substr")
  else .ok ((p.drop pos).take n)

/-- The member `replace(pos, n, str)`: it throws when `pos > size()`. -/
def replace (p : List Char) (pos n : Nat) (str : List Char) : Except Exception (List Char) :=
  if pos > p.length then .error (.out_of_range "basic_string::replace")
  else .ok (p.take pos ++ str ++ p.drop (pos + n))

/-- A test `cond && p.substr(pos, n) == lit` of `plural`: the right operand
is evaluated only when `cond` holds. -/
def ends_in (p : List Char) (cond : Bool) (pos n : Nat) (lit : List Char) :
    Except Exception Bool :=
  if cond then
    match substr p pos n with
    | .error e => .error e
    | .ok t => .ok (t == lit)
  else
    .ok false

/-- The member `XtString::plural()`; `len - 3`, `len - 2` and `len - 1` are
subtractions of `size_type`. -/
def plural (self : List Char) : Except Exception (List Char) :=
  let p := self
  let len := p.length
  match ends_in p (len > 3) (subSizeT len 3) 3 "tum".toList with
  | .error e => .error e
  | .ok true => replace p (subSizeT len 3) 3 "ta".toList
  | .ok false =>
    match ends_in p (len > 1) (subSizeT len 3) 3 "ies".toList with
    | .error e => .error e
    | .ok true => replace p (subSizeT len 3) 3 "iesList".toList
    | .ok false =>
      match ends_in p (len > 2) (subSizeT len 2) 2 "ex".toList with
      | .error e => .error e
      | .ok true => replace p (subSizeT len 2) 2 "ices".toList
      | .ok false =>
        match ends_in p (len > 2) (subSizeT len 2) 2 "sh".toList with
        | .error e => .error e
        | .ok true => replace p (subSizeT len 2) 2 "shes".toList
        | .ok false =>
          match ends_in p (len > 1) (subSizeT len 1) 1 "s".toList with
          | .error e => .error e
          | .ok true => replace p (subSizeT len 1) 1 "ses".toList
          | .ok false =>
            if len > 1 then .ok (p ++ "s".toList) else .ok p

end XtString


/-! ## Conversions between `int` and `size_t` -/

theorem toSizeT_of_nonneg (i : Int) (h0 : 0 ≤ i) (h1 : i < 18446744073709551616) :
    (toSizeT i : Int) = i := by
  unfold toSizeT
  omega

theorem subSizeT_toSizeT (n : Nat) (i : Int) (h1 : -9223372036854775808 ≤ i) (h2 : i ≤ n)
    (h3 : n < 9223372036854775808) : (subSizeT n (toSizeT i) : Int) = n - i := by
  unfold subSizeT toSizeT
  omega

/-! ## The loop of `advance` -/

theorem advance_cond_iff (s : httpStreambuf) (h1 : -9223372036854775808 ≤ s.buffer_index_)
    (h2 : s.buffer_index_ ≤ s.buffer_.length) (h3 : s.buffer_.length < 9223372036854775808)
    (h4 : 0 ≤ s.readahead_) (h5 : s.readahead_ < 18446744073709551616) :
    httpStreambuf.advance_cond s = true ↔
      (s.buffer_.length : Int) - s.buffer_index_ < s.readahead_ := by
  have ha := subSizeT_toSizeT s.buffer_.length s.buffer_index_ h1 h2 h3
  have hb := toSizeT_of_nonneg s.readahead_ h4 h5
  simp only [httpStreambuf.advance_cond, decide_eq_true_eq]
  omega

theorem advance_body_eq (get : cpr.Get) (s : httpStreambuf) (back : httpStreambuf.stream_block)
    (hback : s.buffer_.getLast? = some back) :
    httpStreambuf.advance_body get s = .ok { s with
      buffer_ := s.buffer_ ++
        [httpStreambuf.fresh get s.url_ s.buffersize_ (back.offset_ + back.size_)]
      requests_ := s.requests_ ++
        [(back.offset_ + back.size_, back.offset_ + back.size_ + s.buffersize_ - 1)] } := by
  simp only [httpStreambuf.advance_body, hback, httpStreambuf.fresh,
    httpStreambuf.stream_block.new]

theorem fresh_offset (get : cpr.Get) (url : String) (B off : Int) :
    (httpStreambuf.fresh get url B off).offset_ = off := by
  simp only [httpStreambuf.fresh, httpStreambuf.stream_block.background_fill,
    httpStreambuf.stream_block.new]
  split_ifs <;> rfl

theorem fresh_size (get : cpr.Get) (url : String) (B off : Int) :
    (httpStreambuf.fresh get url B off).size_ = B := by
  simp only [httpStreambuf.fresh, httpStreambuf.stream_block.background_fill,
    httpStreambuf.stream_block.new]
  split_ifs <;> rfl

theorem advance_loop_eq (get : cpr.Get) :
    ∀ (fuel m : Nat) (s : httpStreambuf) (n : Int) (back : httpStreambuf.stream_block),
      m ≤ fuel → s.buffer_.getLast? = some back →
      -9223372036854775808 ≤ s.buffer_index_ → s.buffer_index_ ≤ s.buffer_.length →
      s.buffer_.length + m < 9223372036854775808 →
      0 ≤ s.readahead_ → s.readahead_ < 9223372036854775808 →
      m = (s.readahead_ - ((s.buffer_.length : Int) - s.buffer_index_)).toNat →
      httpStreambuf.advance_loop get fuel s n = .ok (n + m, { s with
        buffer_ := s.buffer_ ++
          httpStreambuf.pushed get s.url_ s.buffersize_ m (back.offset_ + back.size_)
        requests_ := s.requests_ ++
          httpStreambuf.pushed_requests s.buffersize_ m (back.offset_ + back.size_) }) := by
  intro fuel
  induction fuel with
  | zero =>
    intro m s n back hm _ _ _ _ _ _ _
    have : m = 0 := by omega
    subst this
    simp [httpStreambuf.advance_loop, httpStreambuf.pushed, httpStreambuf.pushed_requests]
  | succ fuel ih =>
    intro m s n back hm hback h1 h2 h3 h4 h5 hmeq
    have hc := advance_cond_iff s h1 h2 (by omega) h4 (by omega)
    by_cases hlt : (s.buffer_.length : Int) - s.buffer_index_ < s.readahead_
    · obtain ⟨m', rfl⟩ : ∃ m', m = m' + 1 := ⟨m - 1, by omega⟩
      have hbody := advance_body_eq get s back hback
      rw [httpStreambuf.advance_loop, if_pos (hc.mpr hlt), hbody]
      simp only []
      rw [ih m' _ (n + 1) (httpStreambuf.fresh get s.url_ s.buffersize_ (back.offset_ + back.size_))
        (by omega) (by simp) (by simpa using h1) (by simp; omega) (by simp; omega)
        (by simpa using h4) (by simpa using h5) (by simp; omega)]
      simp [httpStreambuf.pushed, httpStreambuf.pushed_requests, fresh_offset, fresh_size,
        add_assoc]
      omega
    · have : m = 0 := by omega
      subst this
      have hcf : ¬ (httpStreambuf.advance_cond s = true) := fun h => hlt (hc.mp h)
      rw [httpStreambuf.advance_loop, if_neg hcf]
      simp [httpStreambuf.pushed, httpStreambuf.pushed_requests]


theorem advance_loop_frame (get : cpr.Get) :
    ∀ (fuel : Nat) (s : httpStreambuf) (n : Int) (r : Int × httpStreambuf),
      httpStreambuf.advance_loop get fuel s n = .ok r →
      ∃ ext reqs, r.2 = { s with buffer_ := s.buffer_ ++ ext, requests_ := s.requests_ ++ reqs } := by
  intro fuel
  induction fuel with
  | zero =>
    intro s n r h
    simp only [httpStreambuf.advance_loop, Except.ok.injEq] at h
    subst h
    exact ⟨[], [], by simp⟩
  | succ fuel ih =>
    intro s n r h
    rw [httpStreambuf.advance_loop] at h
    split_ifs at h with hc
    · cases hb : s.buffer_.getLast? with
      | none => simp [httpStreambuf.advance_body, hb] at h
      | some back =>
        rw [advance_body_eq get s back hb] at h
        obtain ⟨ext, reqs, he⟩ := ih _ _ _ h
        exact ⟨httpStreambuf.fresh get s.url_ s.buffersize_ (back.offset_ + back.size_) :: ext,
          (back.offset_ + back.size_, back.offset_ + back.size_ + s.buffersize_ - 1) :: reqs,
          by rw [he]; simp⟩
    · simp only [Except.ok.injEq] at h
      subst h
      exact ⟨[], [], by simp⟩

theorem advance_loop_bound (get : cpr.Get) :
    ∀ (fuel : Nat) (s : httpStreambuf) (n : Int) (r : Int × httpStreambuf),
      httpStreambuf.advance_loop get fuel s n = .ok r →
      -9223372036854775808 ≤ s.buffer_index_ → s.buffer_index_ ≤ s.buffer_.length →
      s.buffer_.length < 9223372036854775808 →
      0 ≤ s.readahead_ → s.buffer_index_ + s.readahead_ < 9223372036854775808 →
      s.buffer_.length ≤ r.2.buffer_.length ∧
      (r.2.buffer_.length : Int) - s.buffer_index_
        ≤ max ((s.buffer_.length : Int) - s.buffer_index_) s.readahead_ := by
  intro fuel
  induction fuel with
  | zero =>
    intro s n r h _ _ _ _ _
    simp only [httpStreambuf.advance_loop, Except.ok.injEq] at h
    subst h
    simp
  | succ fuel ih =>
    intro s n r h h1 h2 h3 h4 h5
    rw [httpStreambuf.advance_loop] at h
    split_ifs at h with hc
    · have hlt := (advance_cond_iff s h1 h2 h3 h4 (by omega)).mp hc
      cases hb : s.buffer_.getLast? with
      | none => simp [httpStreambuf.advance_body, hb] at h
      | some back =>
        rw [advance_body_eq get s back hb] at h
        have := ih _ _ _ h (by simpa using h1) (by simp; omega) (by simp; omega)
          (by simpa using h4) (by simpa using h5)
        simp only [List.length_append, List.length_singleton, Nat.cast_add, Nat.cast_one] at this
        constructor
        · omega
        · have h6 := this.2
          rcases le_max_iff.mp h6 with h7 | h7
          · exact le_max_of_le_right (by omega)
          · exact le_max_of_le_right h7
    · simp only [Except.ok.injEq] at h
      subst h
      simp

/-! ## The eviction loop of `underflow` -/

theorem evict_loop_eq :
    ∀ (p : Nat) (s : httpStreambuf) (front rest : List httpStreambuf.stream_block),
      s.buffer_ = front ++ rest → front.length = p →
      (∀ b ∈ front, b.reader_ = none) → p = (s.buffer_index_ - s.lookback_).toNat →
      httpStreambuf.evict_loop p s =
        .ok { s with buffer_ := rest, buffer_index_ := s.buffer_index_ - p } := by
  intro p
  induction p with
  | zero =>
    intro s front rest hb hlen _ _
    have : front = [] := List.length_eq_zero.mp hlen
    subst this
    simp only [List.nil_append] at hb
    simp [httpStreambuf.evict_loop, ← hb]
  | succ p ih =>
    intro s front rest hb hlen hnone hp
    match front, hlen with
    | b :: front', hlen =>
      have hgt : s.buffer_index_ > s.lookback_ := by omega
      have hbn : b.reader_ = none := hnone b (List.mem_cons_self _ _)
      rw [httpStreambuf.evict_loop, if_pos hgt]
      simp only [hb, List.cons_append, hbn]
      rw [ih _ front' rest rfl (by simpa using hlen)
        (fun b hb' => hnone b (List.mem_cons_of_mem _ hb')) (by simp; omega)]
      simp only [Nat.cast_add, Nat.cast_one, Except.ok.injEq, httpStreambuf.mk.injEq, true_and,
        and_true]
      omega

theorem evict_loop_ok :
    ∀ (fuel : Nat) (s s1 : httpStreambuf), httpStreambuf.evict_loop fuel s = .ok s1 →
      ∃ p : Nat, p ≤ s.buffer_.length ∧
        s1 = { s with buffer_ := s.buffer_.drop p, buffer_index_ := s.buffer_index_ - p } ∧
        ((s.buffer_index_ - s.lookback_).toNat ≤ fuel → s1.buffer_index_ ≤ s1.lookback_) := by
  intro fuel
  induction fuel with
  | zero =>
    intro s s1 h
    simp only [httpStreambuf.evict_loop, Except.ok.injEq] at h
    subst h
    exact ⟨0, by simp, by simp, by intro h; simp at h; omega⟩
  | succ fuel ih =>
    intro s s1 h
    rw [httpStreambuf.evict_loop] at h
    split_ifs at h with hc
    · cases hb : s.buffer_ with
      | nil => simp [hb] at h
      | cons front rest =>
        simp only [hb] at h
        cases hr : front.reader_ with
        | some t => simp [hr] at h
        | none =>
          simp only [hr] at h
          obtain ⟨p, hp, he, hle⟩ := ih _ _ h
          refine ⟨p + 1, by simpa using hp, ?_, ?_⟩
          · rw [he]
            simp only [List.drop_succ_cons, Nat.cast_add, Nat.cast_one, httpStreambuf.mk.injEq,
              true_and, and_true]
            omega
          · intro hf
            exact hle (by simp; omega)
    · simp only [Except.ok.injEq] at h
      subst h
      exact ⟨0, by simp, by simp, fun _ => by omega⟩


/-! ## The window of a stream read block after block -/

theorem toSizeT_natCast (n : Nat) (hn : n < 18446744073709551616) : toSizeT (n : Int) = n := by
  have := toSizeT_of_nonneg (n : Int) (by omega) (by omega)
  omega

theorem block_ahead_eq (get : cpr.Get) (url : String) (B j : Nat) :
    httpStreambuf.block_ahead get url B j =
      { offset_ := (j : Int) * B, size_ := B, resp_ := httpStreambuf.answer get url B j,
        reader_ := some ⟨(httpStreambuf.stream_block.background_fill get
          (httpStreambuf.stream_block.new ((j : Int) * B) B) url).2⟩ } := by
  simp only [httpStreambuf.block_ahead, httpStreambuf.fresh, httpStreambuf.answer,
    httpStreambuf.stream_block.background_fill, httpStreambuf.stream_block.new]
  split_ifs <;> rfl

theorem fill_outcome_ok (get : cpr.Get) (url : String) (B j : Nat)
    (hok : (httpStreambuf.answer get url B j).status_code = 206 ∨
      (httpStreambuf.answer get url B j).status_code = 416) :
    (httpStreambuf.stream_block.background_fill get
      (httpStreambuf.stream_block.new ((j : Int) * B) B) url).2 = .ok () := by
  simp only [httpStreambuf.answer] at hok
  simp only [httpStreambuf.stream_block.background_fill, httpStreambuf.stream_block.new]
  split_ifs with h
  · omega
  · rfl

theorem fill_outcome_error (get : cpr.Get) (url : String) (B j : Nat)
    (h206 : (httpStreambuf.answer get url B j).status_code ≠ 206)
    (h416 : (httpStreambuf.answer get url B j).status_code ≠ 416) :
    (httpStreambuf.stream_block.background_fill get
      (httpStreambuf.stream_block.new ((j : Int) * B) B) url).2 =
      .error (httpStreambuf.stream_block.fill_errmsg url (httpStreambuf.answer get url B j)) := by
  simp only [httpStreambuf.answer] at h206 h416
  simp only [httpStreambuf.stream_block.background_fill, httpStreambuf.stream_block.new,
    httpStreambuf.answer]
  rw [if_pos ⟨h206, h416⟩]

theorem pushed_eq_map (get : cpr.Get) (url : String) (B : Nat) :
    ∀ (m j : Nat), httpStreambuf.pushed get url B m ((j : Int) * B) =
      (List.range' j m).map (httpStreambuf.block_ahead get url B) := by
  intro m
  induction m with
  | zero => intro j; rfl
  | succ m ih =>
    intro j
    have hj : (j : Int) * B + B = ((j + 1 : Nat) : Int) * B := by push_cast; ring
    simp only [httpStreambuf.pushed, List.range'_succ, List.map_cons, hj, ih]
    rfl

theorem pushed_requests_eq_map (B : Nat) :
    ∀ (m j : Nat), httpStreambuf.pushed_requests B m ((j : Int) * B) =
      (List.range' j m).map (fun j : Nat => ((j : Int) * B, (j : Int) * B + B - 1)) := by
  intro m
  induction m with
  | zero => intro j; rfl
  | succ m ih =>
    intro j
    have hj : (j : Int) * B + B = ((j + 1 : Nat) : Int) * B := by push_cast; ring
    simp only [httpStreambuf.pushed_requests, List.range'_succ, List.map_cons, hj, ih]

theorem window_length (get : cpr.Get) (url : String) (B lo h a : Nat) :
    (httpStreambuf.window get url B lo h a).length = h + 1 + a := by
  simp [httpStreambuf.window]

theorem window_getLast (get : cpr.Get) (url : String) (B lo h a : Nat) :
    ∃ back, (httpStreambuf.window get url B lo h a).getLast? = some back ∧
      back.offset_ + back.size_ = ((lo + h + 1 + a : Nat) : Int) * B := by
  rcases Nat.eq_zero_or_pos a with ha | ha
  · subst ha
    refine ⟨httpStreambuf.block_joined get url B (lo + h), ?_, ?_⟩
    · simp only [httpStreambuf.window, List.range'_zero, List.map_nil, List.append_nil]
      rw [List.range'_concat lo h, List.map_append, List.map_cons, List.map_nil,
        List.getLast?_concat, Nat.one_mul]
    · simp only [httpStreambuf.block_joined, block_ahead_eq]
      push_cast; ring
  · obtain ⟨a', rfl⟩ : ∃ a', a = a' + 1 := ⟨a - 1, by omega⟩
    refine ⟨httpStreambuf.block_ahead get url B (lo + h + 1 + a'), ?_, ?_⟩
    · simp only [httpStreambuf.window]
      rw [List.range'_concat (lo + h + 1) a', List.map_append, List.map_cons, List.map_nil,
        ← List.append_assoc, List.getLast?_concat, Nat.one_mul]
    · simp only [block_ahead_eq]
      push_cast; ring

/-- The window with the first block ahead joined. -/
theorem window_join (get : cpr.Get) (url : String) (B lo h a : Nat) :
    (httpStreambuf.window get url B lo h (a + 1)).set (h + 1)
        (httpStreambuf.block_joined get url B (lo + h + 1)) =
      httpStreambuf.window get url B lo (h + 1) a := by
  simp only [httpStreambuf.window]
  rw [List.range'_succ (lo + h + 1) a, List.map_cons, List.set_append_right _ _ (by simp)]
  simp only [List.length_map, List.length_range', Nat.sub_self, List.set_cons_zero]
  rw [List.range'_concat lo (h + 1), List.map_append, List.map_cons, List.map_nil,
    List.append_assoc, Nat.one_mul]
  have h1 : lo + (h + 1) = lo + h + 1 := by omega
  rw [h1]
  rfl

theorem window_getElem (get : cpr.Get) (url : String) (B lo h a : Nat) :
    (httpStreambuf.window get url B lo h (a + 1))[h + 1]? =
      some (httpStreambuf.block_ahead get url B (lo + h + 1)) := by
  simp only [httpStreambuf.window]
  rw [List.getElem?_append_right (by simp)]
  simp [List.range'_succ]

theorem window_pop (get : cpr.Get) (url : String) (B lo h a : Nat) :
    httpStreambuf.window get url B lo (h + 1) a =
      httpStreambuf.block_joined get url B lo :: httpStreambuf.window get url B (lo + 1) h a := by
  simp only [httpStreambuf.window]
  rw [List.range'_succ lo (h + 1), List.map_cons, List.cons_append]
  have h1 : lo + (h + 1) + 1 = lo + 1 + h + 1 := by omega
  rw [h1]

theorem window_push (get : cpr.Get) (url : String) (B lo h a m : Nat) :
    httpStreambuf.window get url B lo h a ++
        (List.range' (lo + h + 1 + a) m).map (httpStreambuf.block_ahead get url B) =
      httpStreambuf.window get url B lo h (a + m) := by
  simp only [httpStreambuf.window, List.append_assoc, ← List.map_append]
  rw [List.range'_append_1, Nat.add_comm m a]


theorem underflow_steady_eof (get : cpr.Get) (url : String) (B : Nat) (r l : Int)
    (lo h a : Nat) (hh : h < 4294967296) (ha : a < 4294967296)
    (hok : (httpStreambuf.answer get url B (lo + h + 1)).status_code = 206 ∨
      (httpStreambuf.answer get url B (lo + h + 1)).status_code = 416)
    (hempty : (httpStreambuf.answer get url B (lo + h + 1)).text = []) :
    httpStreambuf.underflow get (httpStreambuf.steady get url B r l lo h (a + 1)) =
      .ok (eof, { httpStreambuf.steady get url B r l lo h (a + 1) with
        buffer_index_ := (h : Int) + 1
        buffer_ := httpStreambuf.window get url B lo (h + 1) a }) := by
  have hidx : toSizeT ((h : Int) + 1) = h + 1 := by
    have := toSizeT_natCast (h + 1) (by omega)
    push_cast at this
    exact this
  have hout := fill_outcome_ok get url B (lo + h + 1) hok
  have hne : ¬ (h + 1 = h + 1 + (a + 1)) := by omega
  unfold httpStreambuf.underflow
  simp only [httpStreambuf.steady, hidx, window_length, window_getElem, if_neg hne]
  simp only [block_ahead_eq, hout, hempty, List.length_nil, if_true]
  rw [← window_join]
  simp only [httpStreambuf.block_joined, block_ahead_eq]


theorem advance_window (get : cpr.Get) (s : httpStreambuf) (url : String) (B lo h a : Nat)
    (hb : s.buffer_ = httpStreambuf.window get url B lo h a) (hi : s.buffer_index_ = h)
    (hu : s.url_ = url) (hB : s.buffersize_ = B)
    (hh : h < 4294967296) (ha : a < 4294967296)
    (hr0 : 0 ≤ s.readahead_) (hr : s.readahead_ < 4294967296) :
    httpStreambuf.advance get s =
      .ok (((s.readahead_ - ((a : Int) + 1)).toNat : Int), { s with
        buffer_ := httpStreambuf.window get url B lo h
          (a + (s.readahead_ - ((a : Int) + 1)).toNat)
        requests_ := s.requests_ ++
          (List.range' (lo + h + 1 + a) (s.readahead_ - ((a : Int) + 1)).toNat).map
            (fun j : Nat => ((j : Int) * B, (j : Int) * B + B - 1)) }) := by
  obtain ⟨back, hback, hoff⟩ := window_getLast get url B lo h a
  have hlen : s.buffer_.length = h + 1 + a := by rw [hb, window_length]
  have hfuel : (toSizeT s.readahead_ : Int) = s.readahead_ :=
    toSizeT_of_nonneg _ hr0 (by omega)
  unfold httpStreambuf.advance
  rw [advance_loop_eq get (toSizeT s.readahead_) (s.readahead_ - ((a : Int) + 1)).toNat s 0 back
    (by omega) (by rw [hb]; exact hback) (by omega) (by omega) (by omega) hr0 (by omega)
    (by rw [hlen, hi]; congr 1; push_cast; ring)]
  rw [hoff, hu, hB, pushed_eq_map, pushed_requests_eq_map, hb, window_push]
  simp

theorem evict_window_keep (s : httpStreambuf) (fuel h : Nat)
    (hf : fuel = (s.buffer_index_ - s.lookback_).toNat)
    (hi : s.buffer_index_ = (h : Int) + 1) (hl : (h : Int) < s.lookback_) :
    httpStreambuf.evict_loop fuel s = .ok s := by
  have : fuel = 0 := by omega
  rw [this]
  rfl

theorem evict_window_pop (get : cpr.Get) (s : httpStreambuf) (url : String)
    (fuel B lo h a : Nat) (hf : fuel = (s.buffer_index_ - s.lookback_).toNat)
    (hb : s.buffer_ = httpStreambuf.window get url B lo (h + 1) a)
    (hi : s.buffer_index_ = (h : Int) + 1) (hl : s.lookback_ = h) :
    httpStreambuf.evict_loop fuel s =
      .ok { s with buffer_ := httpStreambuf.window get url B (lo + 1) h a,
                   buffer_index_ := h } := by
  have h1 : fuel = 1 := by omega
  rw [h1, evict_loop_eq 1 s [httpStreambuf.block_joined get url B lo]
    (httpStreambuf.window get url B (lo + 1) h a) (by rw [hb, window_pop]; rfl) rfl
    (by intro b hb'; simp only [List.mem_singleton] at hb'; subst hb'; rfl) (by omega)]
  simp only [hi, Except.ok.injEq, httpStreambuf.mk.injEq, true_and, and_true]
  omega


theorem range_map_append (f : Nat → Int × Int) (n m : Nat) :
    (List.range n).map f ++ (List.range' n m).map f = (List.range (n + m)).map f := by
  rw [← List.map_append, List.range_eq_range', List.range_eq_range']
  have := List.range'_append_1 0 n m
  rw [Nat.zero_add] at this
  rw [this, Nat.add_comm]

theorem underflow_steady_byte (get : cpr.Get) (url : String) (B : Nat) (r l : Int)
    (lo h a : Nat) (hh : h < 2147483648) (ha : a < 2147483648)
    (hr0 : 0 ≤ r) (hr : r < 4294967296) (hl : (h : Int) ≤ l)
    (hok : (httpStreambuf.answer get url B (lo + h + 1)).status_code = 206 ∨
      (httpStreambuf.answer get url B (lo + h + 1)).status_code = 416)
    (hne : (httpStreambuf.answer get url B (lo + h + 1)).text ≠ []) :
    httpStreambuf.underflow get (httpStreambuf.steady get url B r l lo h (a + 1)) =
      .ok ((httpStreambuf.answer get url B (lo + h + 1)).text.headD 0 % 256,
        httpStreambuf.steady get url B r l
          (if (h : Int) < l then lo else lo + 1) (if (h : Int) < l then h + 1 else h)
          (a + (r - ((a : Int) + 1)).toNat)) := by
  have hidx : toSizeT ((h : Int) + 1) = h + 1 := by
    have := toSizeT_natCast (h + 1) (by omega)
    push_cast at this
    exact this
  have hout := fill_outcome_ok get url B (lo + h + 1) hok
  have hne1 : ¬ (h + 1 = h + 1 + (a + 1)) := by omega
  have hlen : ¬ ((httpStreambuf.answer get url B (lo + h + 1)).text.length = 0) := by
    rw [List.length_eq_zero]; exact hne
  have hj : (httpStreambuf.window get url B lo h (a + 1)).set (h + 1)
      { offset_ := ((lo + h + 1 : Nat) : Int) * B, size_ := B,
        resp_ := httpStreambuf.answer get url B (lo + h + 1), reader_ := none } =
      httpStreambuf.window get url B lo (h + 1) a := by
    rw [← window_join]
    simp only [httpStreambuf.block_joined, block_ahead_eq]
  unfold httpStreambuf.underflow
  simp only [httpStreambuf.steady, hidx, window_length, window_getElem, if_neg hne1]
  simp only [block_ahead_eq, hout, if_neg hlen, httpStreambuf.setg, hj, List.take_length]
  by_cases hlt : (h : Int) < l
  · rw [evict_window_keep _ _ h ?_ ?_ ?_]
    rotate_left
    · rfl
    · rfl
    · exact hlt
    simp only []
    rw [advance_window get _ url B lo (h + 1) a ?_ ?_ ?_ ?_ (by omega) (by omega) ?_ ?_]
    rotate_left
    · rfl
    · simp
    · rfl
    · rfl
    · exact hr0
    · exact hr
    simp only [if_pos hlt]
    rw [if_neg (by simp; omega)]
    simp only [Nat.cast_add, Nat.cast_one, Except.ok.injEq, Prod.mk.injEq, httpStreambuf.mk.injEq,
      true_and, and_true]
    have e1 : lo + (h + 1) + 1 + a = lo + h + 1 + (a + 1) := by omega
    rw [e1, range_map_append]
    refine ⟨?_, ?_⟩
    · congr 2
    · congr 2; omega
  · have hleq : l = h := by omega
    subst hleq
    rw [evict_window_pop get _ url _ B lo h a ?_ ?_ ?_ ?_]
    rotate_left
    · rfl
    · rfl
    · rfl
    · rfl
    simp only []
    rw [advance_window get _ url B (lo + 1) h a ?_ ?_ ?_ ?_ (by omega) (by omega) ?_ ?_]
    rotate_left
    · rfl
    · rfl
    · rfl
    · rfl
    · exact hr0
    · exact hr
    simp only [if_neg hlt]
    rw [if_neg (by simp)]
    simp only [Except.ok.injEq, Prod.mk.injEq, httpStreambuf.mk.injEq,
      true_and, and_true]
    have e1 : lo + 1 + h + 1 + a = lo + h + 1 + (a + 1) := by omega
    rw [e1, range_map_append]
    refine ⟨?_, ?_⟩
    · congr 2; omega
    · congr 2; omega


/-! ## The constructor -/

theorem ctor_ok (get : cpr.Get) (url : String) (B : Nat)
    (h206 : (get url 0 ((B : Int) - 1)).status_code = 206) :
    httpStreambuf.httpStreambuf get url B = .ok (httpStreambuf.steady get url B 3 3 0 0 2) := by
  have hw : [] ++ [({ httpStreambuf.stream_block.new 0 (B : Int) with
      resp_ := get url 0 ((B : Int) - 1) } : httpStreambuf.stream_block)] =
      httpStreambuf.window get url B 0 0 0 := by
    simp [httpStreambuf.window, httpStreambuf.block_joined, block_ahead_eq,
      httpStreambuf.answer, httpStreambuf.stream_block.new]
  unfold httpStreambuf.httpStreambuf
  conv => lhs; zeta
  rw [if_neg (by rw [h206]; simp)]
  rw [advance_window get _ url B 0 0 0 ?_ ?_ ?_ ?_ (by omega) (by omega) ?_ ?_]
  rotate_left
  · exact hw
  · rfl
  · rfl
  · rfl
  · show (0 : Int) ≤ 3
    omega
  · show (3 : Int) < 4294967296
    omega
  have e1 : ((3 : Int) - (((0 : Nat) : Int) + 1)).toNat = 2 := by decide
  simp only [e1, httpStreambuf.steady, httpStreambuf.setg, httpStreambuf.answer,
    List.take_length, Except.ok.injEq, httpStreambuf.mk.injEq, List.nil_append]
  simp [List.range_succ, List.range'_succ]

theorem ctor_error (get : cpr.Get) (url : String) (B : Nat)
    (h206 : (get url 0 ((B : Int) - 1)).status_code ≠ 206) :
    httpStreambuf.httpStreambuf get url B =
      .error (.runtime_error (httpStreambuf.ctor_errmsg url (get url 0 ((B : Int) - 1))),
        { url_ := url, buffersize_ := B, readahead_ := 3, lookback_ := 3, buffer_index_ := -1,
          verbose_ := 0,
          buffer_ := [{ offset_ := 0, size_ := B, resp_ := get url 0 ((B : Int) - 1),
                        reader_ := none }],
          garea_ := [], gpos_ := 0, requests_ := [(0, (B : Int) - 1)] }) := by
  unfold httpStreambuf.httpStreambuf
  conv => lhs; zeta
  rw [if_pos h206]
  rfl


/-! ## Successive calls of `underflow` -/

theorem steady_step_index (l : Int) (h : Nat) (hl : (h : Int) ≤ l) :
    (((if (h : Int) < l then h + 1 else h : Nat) : Int) = min ((h : Int) + 1) l) ∧
    ((if (h : Int) < l then h + 1 else h : Nat) : Int) ≤ l := by
  split_ifs with hlt
  · push_cast
    constructor
    · rw [min_eq_left (by omega)]
    · omega
  · constructor
    · rw [min_eq_right (by omega)]; omega
    · omega

theorem steady_step_block (l : Int) (lo h : Nat) :
    (if (h : Int) < l then lo else lo + 1) + (if (h : Int) < l then h + 1 else h) = lo + h + 1 := by
  split_ifs <;> omega

theorem calls_steady (get : cpr.Get) (url : String) (B : Nat) (r l : Int)
    (hr : 2 ≤ r) (hr1 : r < 2147483648) (hl1 : l < 2147483648) :
    ∀ (n lo h a : Nat), (h : Int) ≤ l → 1 ≤ a → a < 2147483648 →
      (∀ j, lo + h < j → j ≤ lo + h + n →
        ((httpStreambuf.answer get url B j).status_code = 206 ∨
          (httpStreambuf.answer get url B j).status_code = 416) ∧
        (httpStreambuf.answer get url B j).text ≠ []) →
      ∃ lo1 h1 a1 : Nat, lo1 + h1 = lo + h + n ∧ (h1 : Int) = min ((h : Int) + n) l ∧
        1 ≤ a1 ∧ a1 < 2147483648 ∧
        httpStreambuf.calls get n (httpStreambuf.steady get url B r l lo h a) =
          .ok ((List.range' (lo + h + 1) n).map (fun j =>
                ((httpStreambuf.answer get url B j).text.headD 0 % 256,
                  (httpStreambuf.answer get url B j).text)),
            httpStreambuf.steady get url B r l lo1 h1 a1) := by
  intro n
  induction n with
  | zero =>
    intro lo h a hl ha ha1 _
    exact ⟨lo, h, a, rfl, by simp; omega, ha, ha1, rfl⟩
  | succ n ih =>
    intro lo h a hl ha ha1 hgood
    obtain ⟨a0, rfl⟩ : ∃ a0, a = a0 + 1 := ⟨a - 1, by omega⟩
    obtain ⟨hok, hne⟩ := hgood (lo + h + 1) (by omega) (by omega)
    have hstep := underflow_steady_byte get url B r l lo h a0 (by omega) (by omega) (by omega)
      (by omega) hl hok hne
    obtain ⟨hidx, hidx1⟩ := steady_step_index l h hl
    have hblk := steady_step_block l lo h
    obtain ⟨lo1, h1, a1, hsum, hh1, ha1', ha1u, hcalls⟩ :=
      ih (if (h : Int) < l then lo else lo + 1) (if (h : Int) < l then h + 1 else h)
        (a0 + (r - ((a0 : Int) + 1)).toNat) hidx1 (by omega) (by omega)
        (fun j hj1 hj2 => hgood j (by omega) (by omega))
    refine ⟨lo1, h1, a1, by omega, ?_, ha1', ha1u, ?_⟩
    · rw [hh1, hidx]
      push_cast
      omega
    · rw [httpStreambuf.calls, hstep]
      simp only []
      rw [hcalls]
      simp only [hblk, httpStreambuf.steady, List.drop_zero, List.range'_succ, List.map_cons]

theorem byte_ne_eof (c : Int) : c % 256 ≠ eof := by
  unfold eof
  omega


/-! ## Reading a served resource to the end -/

theorem serves_answer (get : cpr.Get) (url : String) (res : List Int) (B : Nat)
    (hs : Serves get url res B) (j : Nat) :
    (httpStreambuf.answer get url B j).text = (res.drop (j * B)).take B ∧
    ((httpStreambuf.answer get url B j).status_code = 206 ∨
      (httpStreambuf.answer get url B j).status_code = 416) ∧
    (j * B < res.length → (httpStreambuf.answer get url B j).status_code = 206) := by
  have h := hs (j * B)
  simp only [httpStreambuf.answer]
  push_cast at h
  refine ⟨h.1, ?_, ?_⟩
  · rcases h.2 with h2 | h2
    · exact Or.inl h2
    · exact Or.inr h2.2
  · intro hlt
    rcases h.2 with h2 | h2
    · exact h2
    · omega

theorem read_all_steady (get : cpr.Get) (url : String) (res : List Int) (B : Nat) (r l : Int)
    (hB : 1 ≤ B) (hs : Serves get url res B)
    (hr : 2 ≤ r) (hr1 : r < 2147483648) (hl1 : l < 2147483648) :
    ∀ (fuel lo h a : Nat), (h : Int) ≤ l → 1 ≤ a → a < 2147483648 →
      res.length ≤ (lo + h + 1 + fuel) * B →
      httpStreambuf.read_all get (fuel + 1) (httpStreambuf.steady get url B r l lo h a) =
        some (res.drop ((lo + h + 1) * B)) := by
  intro fuel
  induction fuel with
  | zero =>
    intro lo h a hl ha ha1 hlen
    obtain ⟨a0, rfl⟩ : ∃ a0, a = a0 + 1 := ⟨a - 1, by omega⟩
    obtain ⟨htext, hok, _⟩ := serves_answer get url res B hs (lo + h + 1)
    have hdrop : res.drop ((lo + h + 1) * B) = [] :=
      List.drop_eq_nil_of_le (by simpa using hlen)
    have hempty : (httpStreambuf.answer get url B (lo + h + 1)).text = [] := by
      rw [htext, hdrop, List.take_nil]
    rw [httpStreambuf.read_all,
      underflow_steady_eof get url B r l lo h a0 (by omega) (by omega) hok hempty]
    simp [hdrop]
  | succ fuel ih =>
    intro lo h a hl ha ha1 hlen
    obtain ⟨a0, rfl⟩ : ∃ a0, a = a0 + 1 := ⟨a - 1, by omega⟩
    obtain ⟨htext, hok, _⟩ := serves_answer get url res B hs (lo + h + 1)
    by_cases hempty : (httpStreambuf.answer get url B (lo + h + 1)).text = []
    · have hdrop : res.drop ((lo + h + 1) * B) = [] := by
        rw [htext, List.take_eq_nil_iff] at hempty
        rcases hempty with h0 | h0
        · omega
        · exact h0
      rw [httpStreambuf.read_all,
        underflow_steady_eof get url B r l lo h a0 (by omega) (by omega) hok hempty]
      simp [hdrop]
    · have hstep := underflow_steady_byte get url B r l lo h a0 (by omega) (by omega) (by omega)
        (by omega) hl hok hempty
      obtain ⟨_, hidx1⟩ := steady_step_index l h hl
      have hblk := steady_step_block l lo h
      have hrec := ih (if (h : Int) < l then lo else lo + 1) (if (h : Int) < l then h + 1 else h)
        (a0 + (r - ((a0 : Int) + 1)).toNat) hidx1 (by omega) (by omega)
        (by rw [hblk]; have e : lo + h + 1 + 1 + fuel = lo + h + 1 + (fuel + 1) := by omega
            rw [e]; exact hlen)
      rw [httpStreambuf.read_all, hstep]
      simp only [byte_ne_eof, if_false]
      rw [hrec]
      simp only [hblk, httpStreambuf.steady, List.drop_zero, htext, Option.some.injEq]
      have e2 : (lo + h + 1 + 1) * B = (lo + h + 1) * B + B := by ring
      rw [e2, ← List.drop_drop, List.take_append_drop]


theorem rangeServer_serves (res : List Int) (url : String) (B : Nat) :
    Serves (rangeServer res) url res B := by
  intro a
  unfold rangeServer
  by_cases ha : a < res.length
  · have hc : (0 : Int) ≤ (a : Int) ∧ (a : Int) < (res.length : Int) := ⟨by omega, by omega⟩
    rw [if_pos hc]
    refine ⟨?_, Or.inl rfl⟩
    have e1 : ((a : Int) + (B : Int) - 1 + 1 - (a : Int)).toNat = B := by omega
    simp only [e1, Int.toNat_ofNat]
  · have hc : ¬ ((0 : Int) ≤ (a : Int) ∧ (a : Int) < (res.length : Int)) := by omega
    rw [if_neg hc]
    refine ⟨?_, Or.inr ⟨by omega, rfl⟩⟩
    rw [List.drop_eq_nil_of_le (by omega), List.take_nil]

theorem stream_content_serves (get : cpr.Get) (url : String) (res : List Int) (B : Nat)
    (r l : Int) (fuel : Nat) (hs : Serves get url res B) (hL : 1 ≤ res.length) (hB : 1 ≤ B)
    (hr : 2 ≤ r) (hr1 : r < 2147483648) (hl : 0 ≤ l) (hl1 : l < 2147483648)
    (hfuel : res.length ≤ fuel) :
    httpStreambuf.stream_content get url B r l fuel = some res := by
  obtain ⟨htext, _, h206⟩ := serves_answer get url res B hs 0
  have h206' : (get url 0 ((B : Int) - 1)).status_code = 206 := by
    have := h206 (by omega)
    simpa [httpStreambuf.answer] using this
  obtain ⟨f, rfl⟩ : ∃ f, fuel = f + 1 := ⟨fuel - 1, by omega⟩
  have hread := read_all_steady get url res B r l hB hs hr hr1 hl1 f 0 0 2 (by simpa using hl)
    (by omega) (by omega)
    (by
      have : f + 1 ≤ (0 + 0 + 1 + f) * B := by
        have e : 0 + 0 + 1 + f = f + 1 := by omega
        rw [e]
        exact Nat.le_mul_of_pos_right _ hB
      omega)
  have htune : (httpStreambuf.steady get url B 3 3 0 0 2).tune r l =
      httpStreambuf.steady get url B r l 0 0 2 := rfl
  rw [httpStreambuf.stream_content, ctor_ok get url B h206']
  simp only []
  rw [htune, hread]
  simp only [httpStreambuf.steady, List.drop_zero, Option.some.injEq]
  rw [htext]
  simp


/-! ## `xrootdStreambuf` against `httpStreambuf` -/

theorem matches_ok_left {α β : Type} (f : α → β) (a : α) (h : Except Failure β) :
    Matches f (.ok a) h ↔ h = .ok (f a) := by
  cases h with
  | error e => simp [Matches]
  | ok b => simp [Matches]

theorem matches_ok_right {α β : Type} (f : α → β) (x : Except Failure α) (b : β) :
    Matches f x (.ok b) ↔ ∃ a, x = .ok a ∧ b = f a := by
  cases x with
  | error e => simp [Matches]
  | ok a => simp [Matches]

theorem matches_error_left {α β : Type} (f : α → β) (e : Failure) (h : Except Failure β) :
    Matches f (.error e) h ↔ ∃ e1, h = .error e1 := by
  cases h with
  | error e => simp [Matches]
  | ok b => simp [Matches]

theorem toHttp_fresh (xrdfile : XrdCl.File) (url : String) (B off : Int) :
    xrootdStreambuf.stream_block.toHttp url
      { (xrootdStreambuf.stream_block.background_fill
            (xrootdStreambuf.stream_block.new off B) xrdfile url).1 with
        reader_ := some ⟨(xrootdStreambuf.stream_block.background_fill
            (xrootdStreambuf.stream_block.new off B) xrdfile url).2⟩ } =
      httpStreambuf.fresh (xrootdStreambuf.asGet xrdfile) url B off := by
  have e : off + B - 1 - off + 1 = B := by omega
  simp only [xrootdStreambuf.stream_block.background_fill, xrootdStreambuf.stream_block.new,
    httpStreambuf.fresh, httpStreambuf.stream_block.background_fill,
    httpStreambuf.stream_block.new, xrootdStreambuf.asGet, e,
    xrootdStreambuf.stream_block.toHttp]
  cases hok : (xrdfile.Read off B).status.IsOK <;> simp [hok]

theorem advance_cond_toHttp (s : xrootdStreambuf) :
    httpStreambuf.advance_cond s.toHttp = xrootdStreambuf.advance_cond s := by
  simp [httpStreambuf.advance_cond, xrootdStreambuf.advance_cond, xrootdStreambuf.toHttp]

theorem advance_body_toHttp (xrdfile : XrdCl.File) (s : xrootdStreambuf) :
    Matches xrootdStreambuf.toHttp (xrootdStreambuf.advance_body xrdfile s)
      (httpStreambuf.advance_body (xrootdStreambuf.asGet xrdfile) s.toHttp) := by
  cases hb : s.buffer_.getLast? with
  | none =>
    have hb2 : s.toHttp.buffer_.getLast? = none := by
      simp [xrootdStreambuf.toHttp, List.getLast?_map, hb]
    simp [xrootdStreambuf.advance_body, httpStreambuf.advance_body, hb, hb2, Matches]
  | some back =>
    have hb2 : s.toHttp.buffer_.getLast? =
        some (xrootdStreambuf.stream_block.toHttp s.url_ back) := by
      simp [xrootdStreambuf.toHttp, List.getLast?_map, hb]
    rw [advance_body_eq _ _ _ hb2]
    simp only [xrootdStreambuf.advance_body, hb, matches_ok_left]
    simp only [xrootdStreambuf.toHttp, List.map_append, List.map_cons, List.map_nil]
    rw [toHttp_fresh]
    simp [xrootdStreambuf.stream_block.toHttp, xrootdStreambuf.stream_block.new]


theorem advance_loop_toHttp (xrdfile : XrdCl.File) :
    ∀ (fuel : Nat) (s : xrootdStreambuf) (n : Int),
      Matches (Prod.map id xrootdStreambuf.toHttp)
        (xrootdStreambuf.advance_loop xrdfile fuel s n)
        (httpStreambuf.advance_loop (xrootdStreambuf.asGet xrdfile) fuel s.toHttp n) := by
  intro fuel
  induction fuel with
  | zero =>
    intro s n
    simp [xrootdStreambuf.advance_loop, httpStreambuf.advance_loop, Matches]
  | succ fuel ih =>
    intro s n
    rw [xrootdStreambuf.advance_loop, httpStreambuf.advance_loop, advance_cond_toHttp]
    by_cases hc : xrootdStreambuf.advance_cond s = true
    · rw [if_pos hc, if_pos hc]
      have hbody := advance_body_toHttp xrdfile s
      cases hx : xrootdStreambuf.advance_body xrdfile s with
      | error e =>
        rw [hx, matches_error_left] at hbody
        obtain ⟨e1, he1⟩ := hbody
        rw [he1]
        simp [Matches]
      | ok s1 =>
        rw [hx, matches_ok_left] at hbody
        rw [hbody]
        exact ih s1 (n + 1)
    · rw [if_neg hc, if_neg hc]
      simp [Matches]

theorem advance_toHttp (xrdfile : XrdCl.File) (s : xrootdStreambuf) :
    Matches (Prod.map id xrootdStreambuf.toHttp) (xrootdStreambuf.advance xrdfile s)
      (httpStreambuf.advance (xrootdStreambuf.asGet xrdfile) s.toHttp) :=
  advance_loop_toHttp xrdfile _ s 0

theorem evict_loop_toHttp :
    ∀ (fuel : Nat) (s : xrootdStreambuf),
      Matches xrootdStreambuf.toHttp (xrootdStreambuf.evict_loop fuel s)
        (httpStreambuf.evict_loop fuel s.toHttp) := by
  intro fuel
  induction fuel with
  | zero =>
    intro s
    simp [xrootdStreambuf.evict_loop, httpStreambuf.evict_loop, Matches]
  | succ fuel ih =>
    intro s
    rw [xrootdStreambuf.evict_loop, httpStreambuf.evict_loop]
    have hidx : s.toHttp.buffer_index_ = s.buffer_index_ := rfl
    have hlb : s.toHttp.lookback_ = s.lookback_ := rfl
    rw [hidx, hlb]
    by_cases hc : s.buffer_index_ > s.lookback_
    · rw [if_pos hc, if_pos hc]
      cases hb : s.buffer_ with
      | nil =>
        have : s.toHttp.buffer_ = [] := by simp [xrootdStreambuf.toHttp, hb]
        simp [this, Matches]
      | cons front rest =>
        have hb2 : s.toHttp.buffer_ = xrootdStreambuf.stream_block.toHttp s.url_ front ::
            rest.map (xrootdStreambuf.stream_block.toHttp s.url_) := by
          simp [xrootdStreambuf.toHttp, hb]
        cases hr : front.reader_ with
        | some t =>
          have hr2 : ∃ t2, (xrootdStreambuf.stream_block.toHttp s.url_ front).reader_ =
              some t2 := by
            simp only [xrootdStreambuf.stream_block.toHttp, hr]
            cases t.outcome <;> exact ⟨_, rfl⟩
          obtain ⟨t2, ht2⟩ := hr2
          simp only [hb2, ht2, hr, Matches]
        | none =>
          have hr2 : (xrootdStreambuf.stream_block.toHttp s.url_ front).reader_ = none := by
            simp [xrootdStreambuf.stream_block.toHttp, hr]
          simp only [hb2, hr2, hr]
          exact ih { s with buffer_ := rest, buffer_index_ := s.buffer_index_ - 1 }
    · rw [if_neg hc, if_neg hc]
      simp [Matches]


theorem toHttp_join (url : String) (block : xrootdStreambuf.stream_block) :
    ({ xrootdStreambuf.stream_block.toHttp url block with reader_ := none } :
        httpStreambuf.stream_block) =
      xrootdStreambuf.stream_block.toHttp url { block with reader_ := none } := by
  simp [xrootdStreambuf.stream_block.toHttp]

theorem toHttp_current (s : xrootdStreambuf) (i : Nat) (block : xrootdStreambuf.stream_block) :
    ({ s.toHttp with
        buffer_index_ := s.buffer_index_ + 1
        buffer_ := s.toHttp.buffer_.set i
          { xrootdStreambuf.stream_block.toHttp s.url_ block with reader_ := none } } :
      httpStreambuf).setg block.buf_ 0 block.buf_.length =
    (({ s with
        buffer_index_ := s.buffer_index_ + 1
        buffer_ := s.buffer_.set i { block with reader_ := none } } :
      xrootdStreambuf).setg block.buf_ 0 block.buf_.length).toHttp := by
  simp [xrootdStreambuf.toHttp, xrootdStreambuf.setg, httpStreambuf.setg, List.map_set,
    toHttp_join]

theorem underflow_toHttp (xrdfile : XrdCl.File) (s : xrootdStreambuf) :
    Matches (Prod.map id xrootdStreambuf.toHttp) (xrootdStreambuf.underflow xrdfile s)
      (httpStreambuf.underflow (xrootdStreambuf.asGet xrdfile) s.toHttp) := by
  unfold xrootdStreambuf.underflow httpStreambuf.underflow
  simp only []
  have hlen : s.toHttp.buffer_.length = s.buffer_.length := by simp [xrootdStreambuf.toHttp]
  have hidx : s.toHttp.buffer_index_ = s.buffer_index_ := rfl
  have hget : s.toHttp.buffer_[toSizeT (s.buffer_index_ + 1)]? =
      (s.buffer_[toSizeT (s.buffer_index_ + 1)]?).map
        (xrootdStreambuf.stream_block.toHttp s.url_) := by
    simp [xrootdStreambuf.toHttp]
  rw [hlen, hidx]
  by_cases h1 : toSizeT (s.buffer_index_ + 1) = s.buffer_.length
  · rw [if_pos h1, if_pos h1]
    simp [Matches, xrootdStreambuf.toHttp]
  · rw [if_neg h1, if_neg h1, hget]
    cases hb : s.buffer_[toSizeT (s.buffer_index_ + 1)]? with
    | none => simp [Matches]
    | some block =>
      simp only [Option.map_some']
      cases hr : block.reader_ with
      | none =>
        have hr2 : (xrootdStreambuf.stream_block.toHttp s.url_ block).reader_ = none := by
          simp [xrootdStreambuf.stream_block.toHttp, hr]
        simp only [hr2, Matches]
      | some t =>
        cases ho : t.outcome with
        | error what =>
          have hr2 : (xrootdStreambuf.stream_block.toHttp s.url_ block).reader_ =
              some ⟨.error (httpStreambuf.stream_block.fill_errmsg s.url_
                ⟨if block.resp_.IsOK then 206 else 500, "", "", block.buf_⟩)⟩ := by
            simp [xrootdStreambuf.stream_block.toHttp, hr, ho]
          simp only [hr2, ho, Matches]
        | ok u =>
          have hr2 : (xrootdStreambuf.stream_block.toHttp s.url_ block).reader_ =
              some ⟨.ok u⟩ := by
            simp [xrootdStreambuf.stream_block.toHttp, hr, ho]
          simp only [hr2, ho]
          have htext : (xrootdStreambuf.stream_block.toHttp s.url_ block).resp_.text =
              block.buf_ := rfl
          simp only [htext, xrootdStreambuf.stream_block.bytes_read_]
          by_cases h2 : block.buf_.length = 0
          · rw [if_pos h2, if_pos h2]
            simp [Matches, xrootdStreambuf.toHttp, toHttp_join, List.map_set]
          · rw [if_neg h2, if_neg h2]
            rw [toHttp_current]
            generalize ({ s with
                buffer_index_ := s.buffer_index_ + 1
                buffer_ := s.buffer_.set (toSizeT (s.buffer_index_ + 1))
                  { block with reader_ := none } } :
              xrootdStreambuf).setg block.buf_ 0 block.buf_.length = sx
            have hf : sx.toHttp.buffer_index_ - sx.toHttp.lookback_ =
                sx.buffer_index_ - sx.lookback_ := rfl
            rw [hf]
            have hev := evict_loop_toHttp (sx.buffer_index_ - sx.lookback_).toNat sx
            cases hx : xrootdStreambuf.evict_loop (sx.buffer_index_ - sx.lookback_).toNat sx with
            | error e =>
              rw [hx, matches_error_left] at hev
              obtain ⟨e1, he1⟩ := hev
              rw [he1]
              simp [Matches]
            | ok s2 =>
              rw [hx, matches_ok_left] at hev
              rw [hev]
              simp only []
              have hadv := advance_toHttp xrdfile s2
              cases hy : xrootdStreambuf.advance xrdfile s2 with
              | error e =>
                rw [hy, matches_error_left] at hadv
                obtain ⟨e1, he1⟩ := hadv
                rw [he1]
                simp [Matches]
              | ok r =>
                rw [hy, matches_ok_left] at hadv
                rw [hadv]
                simp only [Prod.map_snd, Prod.map_fst, id_eq]
                have hri : r.2.toHttp.buffer_index_ = r.2.buffer_index_ := rfl
                rw [hri]
                by_cases h3 : r.2.buffer_index_ < 0
                · rw [if_pos h3, if_pos h3]
                  simp [Matches]
                · rw [if_neg h3, if_neg h3]
                  simp [Matches]


theorem calls_toHttp (xrdfile : XrdCl.File) :
    ∀ (n : Nat) (s : xrootdStreambuf),
      Matches (Prod.map id xrootdStreambuf.toHttp) (xrootdStreambuf.calls xrdfile n s)
        (httpStreambuf.calls (xrootdStreambuf.asGet xrdfile) n s.toHttp) := by
  intro n
  induction n with
  | zero =>
    intro s
    simp [xrootdStreambuf.calls, httpStreambuf.calls, Matches]
  | succ n ih =>
    intro s
    rw [xrootdStreambuf.calls, httpStreambuf.calls]
    have hstep := underflow_toHttp xrdfile s
    cases hx : xrootdStreambuf.underflow xrdfile s with
    | error e =>
      rw [hx, matches_error_left] at hstep
      obtain ⟨e1, he1⟩ := hstep
      rw [he1]
      simp [Matches]
    | ok r =>
      rw [hx, matches_ok_left] at hstep
      rw [hstep]
      simp only [Prod.map_snd, Prod.map_fst, id_eq]
      have hrest := ih r.2
      cases hy : xrootdStreambuf.calls xrdfile n r.2 with
      | error e =>
        rw [hy, matches_error_left] at hrest
        obtain ⟨e1, he1⟩ := hrest
        rw [he1]
        simp [Matches]
      | ok t =>
        rw [hy, matches_ok_left] at hrest
        rw [hrest]
        simp [Matches, xrootdStreambuf.toHttp]

theorem xrootd_ctor_of_advance (xrdfile : XrdCl.File) (url : String) (B : Nat)
    (hopen : (xrdfile.Open url).IsOK = true) (r : Int × xrootdStreambuf)
    (hr : xrootdStreambuf.advance xrdfile
        { url_ := url, buffersize_ := B, readahead_ := 3, lookback_ := 3, buffer_index_ := 0,
          verbose_ := 0,
          buffer_ := [{ offset_ := 0, buf_ := (xrdfile.Read 0 B).data,
                        resp_ := (xrdfile.Read 0 B).status, size_ := B, reader_ := none }],
          garea_ := (xrdfile.Read 0 B).data.take (xrdfile.Read 0 B).data.length,
          gpos_ := 0, requests_ := [(0, (B : Int))] } = .ok r) :
    xrootdStreambuf.xrootdStreambuf xrdfile url B = .ok r.2 := by
  unfold xrootdStreambuf.xrootdStreambuf
  conv => lhs; zeta
  rw [if_neg (by simp [xrootdStreambuf.stream_block.new, hopen])]
  generalize hX : xrootdStreambuf.advance xrdfile _ = res
  simp only [xrootdStreambuf.setg, xrootdStreambuf.stream_block.new,
    xrootdStreambuf.stream_block.bytes_read_, List.nil_append] at hX
  rw [hr] at hX
  rw [← hX]

theorem xrootd_ctor_ok (xrdfile : XrdCl.File) (url : String) (B : Nat)
    (hopen : (xrdfile.Open url).IsOK = true)
    (hread : (xrdfile.Read 0 B).status.IsOK = true) :
    ∃ s, xrootdStreambuf.xrootdStreambuf xrdfile url B = .ok s ∧
      s.toHttp = httpStreambuf.steady (xrootdStreambuf.asGet xrdfile) url B 3 3 0 0 2 := by
  have e : (B : Int) - 1 - 0 + 1 = B := by omega
  obtain ⟨sx, hsx⟩ : ∃ sx : xrootdStreambuf, sx =
      { url_ := url, buffersize_ := B, readahead_ := 3, lookback_ := 3, buffer_index_ := 0,
        verbose_ := 0,
        buffer_ := [{ offset_ := 0, buf_ := (xrdfile.Read 0 B).data,
                      resp_ := (xrdfile.Read 0 B).status, size_ := B, reader_ := none }],
        garea_ := (xrdfile.Read 0 B).data.take (xrdfile.Read 0 B).data.length,
        gpos_ := 0, requests_ := [(0, (B : Int))] } := ⟨_, rfl⟩
  have hm := advance_toHttp xrdfile sx
  have hbuf : sx.toHttp.buffer_ =
      httpStreambuf.window (xrootdStreambuf.asGet xrdfile) url B 0 0 0 := by
    rw [hsx]
    simp [xrootdStreambuf.toHttp, xrootdStreambuf.stream_block.toHttp, httpStreambuf.window,
      httpStreambuf.block_joined, block_ahead_eq, httpStreambuf.answer, xrootdStreambuf.asGet,
      e, hread]
  have hidx : sx.toHttp.buffer_index_ = ((0 : Nat) : Int) := by rw [hsx]; rfl
  have hurl : sx.toHttp.url_ = url := by rw [hsx]; rfl
  have hB : sx.toHttp.buffersize_ = (B : Int) := by rw [hsx]; rfl
  have hr3 : sx.toHttp.readahead_ = 3 := by rw [hsx]; rfl
  rw [advance_window (xrootdStreambuf.asGet xrdfile) sx.toHttp url B 0 0 0 hbuf hidx hurl hB
    (by omega) (by omega) (by rw [hr3]; omega) (by rw [hr3]; omega)] at hm
  rw [matches_ok_right] at hm
  obtain ⟨r, hr, heq⟩ := hm
  rw [hsx] at hr
  refine ⟨r.2, xrootd_ctor_of_advance xrdfile url B hopen r hr, ?_⟩
  have h2 := congrArg Prod.snd heq
  simp only [Prod.map_snd] at h2
  rw [← h2, hr3]
  have e1 : ((3 : Int) - (((0 : Nat) : Int) + 1)).toNat = 2 := by decide
  rw [e1, hsx]
  simp only [xrootdStreambuf.toHttp, httpStreambuf.steady, httpStreambuf.answer,
    xrootdStreambuf.asGet, List.take_length, httpStreambuf.mk.injEq, List.map_cons,
    List.map_nil, List.nil_append]
  simp [List.range_succ, List.range'_succ, e]


theorem answer_asGet (xrdfile : XrdCl.File) (url : String) (B j : Nat) :
    httpStreambuf.answer (xrootdStreambuf.asGet xrdfile) url B j =
      ⟨if (xrdfile.Read ((j : Int) * B) B).status.IsOK then 206 else 500, "", "",
        (xrdfile.Read ((j : Int) * B) B).data⟩ := by
  have e : (j : Int) * B + B - 1 - (j : Int) * B + 1 = B := by omega
  simp only [httpStreambuf.answer, xrootdStreambuf.asGet, e]

theorem xrootd_run_toHttp (xrdfile : XrdCl.File) (url : String) (B : Nat) (r l : Int) (n : Nat)
    (hopen : (xrdfile.Open url).IsOK = true)
    (hread : (xrdfile.Read 0 B).status.IsOK = true) :
    Matches (Prod.map id xrootdStreambuf.toHttp) (xrootdStreambuf.run xrdfile url B r l n)
      (httpStreambuf.run (xrootdStreambuf.asGet xrdfile) url B r l n) := by
  have e : (B : Int) - 1 - 0 + 1 = B := by omega
  have h206 : (xrootdStreambuf.asGet xrdfile url 0 ((B : Int) - 1)).status_code = 206 := by
    simp [xrootdStreambuf.asGet, e, hread]
  obtain ⟨s, hs, hsh⟩ := xrootd_ctor_ok xrdfile url B hopen hread
  rw [xrootdStreambuf.run, httpStreambuf.run, hs, ctor_ok _ url B h206]
  simp only []
  have ht : (httpStreambuf.steady (xrootdStreambuf.asGet xrdfile) url B 3 3 0 0 2).tune r l =
      (s.tune r l).toHttp := by
    rw [← hsh]
    rfl
  rw [ht]
  exact calls_toHttp xrdfile n _

theorem requests_toHttp_injective :
    Function.Injective (fun q : Int × Int => (q.1, q.1 + q.2 - 1)) := by
  intro a b h
  simp only [Prod.mk.injEq] at h
  obtain ⟨h1, h2⟩ := h
  ext
  · exact h1
  · omega


/-! ## Content of the stream -/

/-- C1: for every resource of length `L ≥ 1` and every block size `B ≥ 1`,
with the constructor's `readahead_ = 3` and `lookback_ = 3` and a backend
that serves the resource, the get area exposed by the constructor followed by
those exposed by the calls of `underflow` up to the first end-of-file are the
bytes of the resource, in order, each once; `L` calls of `underflow` are
enough to reach that end-of-file. -/
theorem stream_delivers_resource (get : cpr.Get) (url : String) (res : List Int) (B fuel : Nat)
    (hs : Serves get url res B) (hL : 1 ≤ res.length) (hB : 1 ≤ B)
    (hfuel : res.length ≤ fuel) :
    httpStreambuf.stream_content get url B 3 3 fuel = some res :=
  stream_content_serves get url res B 3 3 fuel hs hL hB (by omega) (by omega) (by omega)
    (by omega) hfuel

theorem stream_delivers_resource_witness :
    Serves (rangeServer [10, 20, 30, 40, 50]) "http://host/file" [10, 20, 30, 40, 50] 2 ∧
    1 ≤ [(10 : Int), 20, 30, 40, 50].length ∧ 1 ≤ 2 ∧
    [(10 : Int), 20, 30, 40, 50].length ≤ 5 ∧
    httpStreambuf.stream_content (rangeServer [10, 20, 30, 40, 50]) "http://host/file" 2 3 3 5 =
      some [10, 20, 30, 40, 50] :=
  ⟨rangeServer_serves _ _ _, by decide, by decide, by decide,
    stream_delivers_resource (rangeServer [10, 20, 30, 40, 50]) "http://host/file"
      [10, 20, 30, 40, 50] 2 5 (rangeServer_serves _ _ _) (by decide) (by decide) (by decide)⟩

/-- C8, counterexample: with `readahead_` set to 1 after construction, a
resource of four blocks is cut after its third block: `underflow` returns
end-of-file at the end of the window, before block 3 was ever requested. -/
theorem content_depends_on_readahead :
    httpStreambuf.stream_content (rangeServer [10, 20, 30, 40]) "http://host/file" 1 1 3 10 =
      some [10, 20, 30] ∧
    httpStreambuf.stream_content (rangeServer [10, 20, 30, 40]) "http://host/file" 1 1 3 10 ≠
      some [10, 20, 30, 40] := by
  decide

/-- C8, amended: for every resource of length `L ≥ 1` and block size `B ≥ 1`
served by the backend, and for every pair of `int` values `readahead_ ≥ 2` and
`lookback_ ≥ 0` in force while the stream is read, the bytes delivered up to
the first end-of-file are the whole resource. -/
theorem content_independent_of_tuning (get : cpr.Get) (url : String) (res : List Int)
    (B fuel : Nat) (r l : Int) (hs : Serves get url res B) (hL : 1 ≤ res.length) (hB : 1 ≤ B)
    (hr : 2 ≤ r) (hr1 : r < 2147483648) (hl : 0 ≤ l) (hl1 : l < 2147483648)
    (hfuel : res.length ≤ fuel) :
    httpStreambuf.stream_content get url B r l fuel = some res :=
  stream_content_serves get url res B r l fuel hs hL hB hr hr1 hl hl1 hfuel

theorem content_independent_of_tuning_witness :
    Serves (rangeServer [10, 20, 30, 40]) "http://host/file" [10, 20, 30, 40] 1 ∧
    1 ≤ [(10 : Int), 20, 30, 40].length ∧ 1 ≤ 1 ∧
    (2 : Int) ≤ 2 ∧ (2 : Int) < 2147483648 ∧ (0 : Int) ≤ 0 ∧ (0 : Int) < 2147483648 ∧
    [(10 : Int), 20, 30, 40].length ≤ 4 ∧
    httpStreambuf.stream_content (rangeServer [10, 20, 30, 40]) "http://host/file" 1 2 0 4 =
      some [10, 20, 30, 40] :=
  ⟨rangeServer_serves _ _ _, by decide, by decide, by decide, by decide, by decide, by decide,
    by decide,
    content_independent_of_tuning (rangeServer [10, 20, 30, 40]) "http://host/file"
      [10, 20, 30, 40] 1 4 2 0 (rangeServer_serves _ _ _) (by decide) (by decide) (by decide)
      (by decide) (by decide) (by decide) (by decide)⟩


/-! ## End of file -/

theorem window_getElem_current (get : cpr.Get) (url : String) (B lo h a : Nat) :
    (httpStreambuf.window get url B lo h a)[h]? =
      some (httpStreambuf.block_joined get url B (lo + h)) := by
  simp only [httpStreambuf.window]
  rw [List.getElem?_append_left (by simp)]
  simp [List.getElem?_range']

theorem window_offsets (get : cpr.Get) (url : String) (B lo h a : Nat) :
    (httpStreambuf.window get url B lo h a).map (fun b => b.offset_) =
      (List.range' lo (h + 1 + a)).map (fun j : Nat => (j : Int) * B) := by
  have h1 : (fun b : httpStreambuf.stream_block => b.offset_) ∘
      httpStreambuf.block_joined get url B = fun j : Nat => (j : Int) * B := by
    funext j
    simp [httpStreambuf.block_joined, block_ahead_eq]
  have h2 : (fun b : httpStreambuf.stream_block => b.offset_) ∘
      httpStreambuf.block_ahead get url B = fun j : Nat => (j : Int) * B := by
    funext j
    simp [block_ahead_eq]
  have h3 : lo + h + 1 = lo + (h + 1) := by omega
  simp only [httpStreambuf.window, List.map_append, List.map_map, h1, h2]
  rw [← List.map_append, h3, List.range'_append_1, Nat.add_comm a]

theorem run_steady (get : cpr.Get) (url : String) (B : Nat) (r l : Int) (n : Nat)
    (hr : 2 ≤ r) (hr1 : r < 2147483648) (hl : 0 ≤ l) (hl1 : l < 2147483648)
    (h0 : (httpStreambuf.answer get url B 0).status_code = 206)
    (hgood : ∀ j, 1 ≤ j → j ≤ n →
      ((httpStreambuf.answer get url B j).status_code = 206 ∨
        (httpStreambuf.answer get url B j).status_code = 416) ∧
      (httpStreambuf.answer get url B j).text ≠ []) :
    ∃ lo1 h1 a1 : Nat, lo1 + h1 = n ∧ (h1 : Int) = min (n : Int) l ∧
      1 ≤ a1 ∧ a1 < 2147483648 ∧
      httpStreambuf.run get url B r l n =
        .ok ((List.range' 1 n).map (fun j =>
              ((httpStreambuf.answer get url B j).text.headD 0 % 256,
                (httpStreambuf.answer get url B j).text)),
          httpStreambuf.steady get url B r l lo1 h1 a1) := by
  have h206 : (get url 0 ((B : Int) - 1)).status_code = 206 := by
    simpa [httpStreambuf.answer] using h0
  have htune : (httpStreambuf.steady get url B 3 3 0 0 2).tune r l =
      httpStreambuf.steady get url B r l 0 0 2 := rfl
  obtain ⟨lo1, h1, a1, hsum, hh1, ha1, ha1', hcalls⟩ :=
    calls_steady get url B r l hr hr1 hl1 n 0 0 2 (by simpa using hl) (by omega) (by omega)
      (fun j hj1 hj2 => hgood j (by omega) (by omega))
  refine ⟨lo1, h1, a1, by omega, by simpa using hh1, ha1, ha1', ?_⟩
  rw [httpStreambuf.run, ctor_ok get url B h206]
  simp only []
  rw [htune, hcalls]

theorem eof_at_first_empty_block_http (get : cpr.Get) (url : String) (B : Nat) (r l : Int) (k : Nat)
    (hr : 2 ≤ r) (hr1 : r < 2147483648) (hl : 0 ≤ l) (hl1 : l < 2147483648) (hk : 1 ≤ k)
    (h0 : (httpStreambuf.answer get url B 0).status_code = 206)
    (hgood : ∀ j, 1 ≤ j → j < k →
      ((httpStreambuf.answer get url B j).status_code = 206 ∨
        (httpStreambuf.answer get url B j).status_code = 416) ∧
      (httpStreambuf.answer get url B j).text ≠ [])
    (hok : (httpStreambuf.answer get url B k).status_code = 206 ∨
      (httpStreambuf.answer get url B k).status_code = 416)
    (hempty : (httpStreambuf.answer get url B k).text = []) :
    ∃ (trace : List (Int × List Int)) (s s1 : httpStreambuf),
      httpStreambuf.run get url B r l (k - 1) = .ok (trace, s) ∧
      trace.length = k - 1 ∧
      (∀ p ∈ trace, p.1 ≠ eof ∧ 0 ≤ p.1 ∧ p.1 < 256 ∧ p.2 ≠ []) ∧
      httpStreambuf.underflow get s = .ok (eof, s1) ∧
      (s1.buffer_[s1.buffer_index_.toNat]?).map (fun b => (b.offset_, b.resp_.text)) =
        some ((k : Int) * B, []) ∧
      s1.buffer_.length = s.buffer_.length ∧
      s1.buffer_.map (fun b => b.offset_) = s.buffer_.map (fun b => b.offset_) ∧
      s1.requests_ = s.requests_ := by
  obtain ⟨lo1, h1, a1, hsum, _, ha1, ha1', hrun⟩ :=
    run_steady get url B r l (k - 1) hr hr1 hl hl1 h0
      (fun j hj1 hj2 => hgood j hj1 (by omega))
  obtain ⟨a0, rfl⟩ : ∃ a0, a1 = a0 + 1 := ⟨a1 - 1, by omega⟩
  have hk1 : lo1 + h1 + 1 = k := by omega
  have hstep := underflow_steady_eof get url B r l lo1 h1 a0 (by omega) (by omega)
    (by rw [hk1]; exact hok) (by rw [hk1]; exact hempty)
  refine ⟨_, _, _, hrun, by simp, ?_, hstep, ?_, ?_, ?_, rfl⟩
  · intro p hp
    simp only [List.mem_map, List.mem_range'_1] at hp
    obtain ⟨j, ⟨hj1, hj2⟩, rfl⟩ := hp
    refine ⟨byte_ne_eof _, ?_, ?_, (hgood j hj1 (by omega)).2⟩
    · exact Int.emod_nonneg _ (by decide)
    · exact Int.emod_lt_of_pos _ (by decide)
  · have e : ((h1 : Int) + 1).toNat = h1 + 1 := by omega
    have hk2 : lo1 + (h1 + 1) = k := by omega
    simp only [e, window_getElem_current, Option.map_some', httpStreambuf.block_joined,
      block_ahead_eq, hk2, hempty]
  · simp only [httpStreambuf.steady, window_length]
    omega
  · simp only [httpStreambuf.steady, window_offsets]
    congr 2
    omega

theorem eof_at_first_empty_block_xrootd (xrdfile : XrdCl.File) (url : String) (B : Nat)
    (r l : Int) (k : Nat)
    (hr : 2 ≤ r) (hr1 : r < 2147483648) (hl : 0 ≤ l) (hl1 : l < 2147483648) (hk : 1 ≤ k)
    (hopen : (xrdfile.Open url).IsOK = true)
    (h0 : (xrdfile.Read 0 B).status.IsOK = true)
    (hgood : ∀ j : Nat, 1 ≤ j → j < k →
      (xrdfile.Read ((j : Int) * B) B).status.IsOK = true ∧
      (xrdfile.Read ((j : Int) * B) B).data ≠ [])
    (hok : (xrdfile.Read ((k : Int) * B) B).status.IsOK = true)
    (hempty : (xrdfile.Read ((k : Int) * B) B).data = []) :
    ∃ (trace : List (Int × List Int)) (s s1 : xrootdStreambuf),
      xrootdStreambuf.run xrdfile url B r l (k - 1) = .ok (trace, s) ∧
      trace.length = k - 1 ∧
      (∀ p ∈ trace, p.1 ≠ eof ∧ 0 ≤ p.1 ∧ p.1 < 256 ∧ p.2 ≠ []) ∧
      xrootdStreambuf.underflow xrdfile s = .ok (eof, s1) ∧
      (s1.buffer_[s1.buffer_index_.toNat]?).map (fun b => (b.offset_, b.buf_)) =
        some ((k : Int) * B, []) ∧
      s1.buffer_.length = s.buffer_.length ∧
      s1.buffer_.map (fun b => b.offset_) = s.buffer_.map (fun b => b.offset_) ∧
      s1.requests_ = s.requests_ := by
  have hz : (xrdfile.Read (((0 : Nat) : Int) * B) B).status.IsOK = true := by simpa using h0
  obtain ⟨trace, hs, hs1, hrun, hlen, htrace, hunder, hcur, hblen, hoffs, hreqs⟩ :=
    eof_at_first_empty_block_http (xrootdStreambuf.asGet xrdfile) url B r l k hr hr1 hl hl1 hk
      (by rw [answer_asGet, hz]; rfl)
      (fun j hj1 hj2 => by
        rw [answer_asGet, (hgood j hj1 hj2).1]
        exact ⟨Or.inl rfl, (hgood j hj1 hj2).2⟩)
      (by rw [answer_asGet, hok]; exact Or.inl rfl)
      (by rw [answer_asGet]; exact hempty)
  have hm := xrootd_run_toHttp xrdfile url B r l (k - 1) hopen h0
  rw [hrun, matches_ok_right] at hm
  obtain ⟨⟨trace1, xs⟩, hxrun, hxeq⟩ := hm
  simp only [Prod.map_apply, id_eq, Prod.mk.injEq] at hxeq
  obtain ⟨rfl, rfl⟩ := hxeq
  have hm2 := underflow_toHttp xrdfile xs
  rw [hunder, matches_ok_right] at hm2
  obtain ⟨⟨c, xs1⟩, hxunder, hxeq2⟩ := hm2
  simp only [Prod.map_apply, id_eq, Prod.mk.injEq] at hxeq2
  obtain ⟨rfl, rfl⟩ := hxeq2
  refine ⟨trace, xs, xs1, hxrun, hlen, htrace, hxunder, ?_, ?_, ?_, ?_⟩
  · simpa [xrootdStreambuf.toHttp, xrootdStreambuf.stream_block.toHttp] using hcur
  · simpa [xrootdStreambuf.toHttp] using hblen
  · simpa [xrootdStreambuf.toHttp, xrootdStreambuf.stream_block.toHttp, Function.comp_def]
      using hoffs
  · exact List.map_injective_iff.mpr requests_toHttp_injective hreqs

/-- C2: with `readahead_ ≥ 2` (and `lookback_ ≥ 0`, as the constructor sets
it), for `httpStreambuf` and for `xrootdStreambuf`: when the blocks `1 .. k-1`
are fetched with a non-empty payload and block `k` is the first one fetched
with an empty payload, the first `k - 1` calls of `underflow` each expose a
non-empty payload and return a byte, and call number `k`, which makes block
`k` current, returns end-of-file; that call appends no block to the window
and dispatches no fetch. -/
theorem eof_at_first_empty_block (url : String) (B : Nat) (r l : Int) (k : Nat)
    (hr : 2 ≤ r) (hr1 : r < 2147483648) (hl : 0 ≤ l) (hl1 : l < 2147483648) (hk : 1 ≤ k) :
    (∀ get : cpr.Get,
      (httpStreambuf.answer get url B 0).status_code = 206 →
      (∀ j, 1 ≤ j → j < k →
        ((httpStreambuf.answer get url B j).status_code = 206 ∨
          (httpStreambuf.answer get url B j).status_code = 416) ∧
        (httpStreambuf.answer get url B j).text ≠ []) →
      ((httpStreambuf.answer get url B k).status_code = 206 ∨
        (httpStreambuf.answer get url B k).status_code = 416) →
      (httpStreambuf.answer get url B k).text = [] →
      ∃ (trace : List (Int × List Int)) (s s1 : httpStreambuf),
        httpStreambuf.run get url B r l (k - 1) = .ok (trace, s) ∧
        trace.length = k - 1 ∧
        (∀ p ∈ trace, p.1 ≠ eof ∧ 0 ≤ p.1 ∧ p.1 < 256 ∧ p.2 ≠ []) ∧
        httpStreambuf.underflow get s = .ok (eof, s1) ∧
        (s1.buffer_[s1.buffer_index_.toNat]?).map (fun b => (b.offset_, b.resp_.text)) =
          some ((k : Int) * B, []) ∧
        s1.buffer_.length = s.buffer_.length ∧
        s1.buffer_.map (fun b => b.offset_) = s.buffer_.map (fun b => b.offset_) ∧
        s1.requests_ = s.requests_) ∧
    (∀ xrdfile : XrdCl.File,
      (xrdfile.Open url).IsOK = true →
      (xrdfile.Read 0 B).status.IsOK = true →
      (∀ j : Nat, 1 ≤ j → j < k →
        (xrdfile.Read ((j : Int) * B) B).status.IsOK = true ∧
        (xrdfile.Read ((j : Int) * B) B).data ≠ []) →
      (xrdfile.Read ((k : Int) * B) B).status.IsOK = true →
      (xrdfile.Read ((k : Int) * B) B).data = [] →
      ∃ (trace : List (Int × List Int)) (s s1 : xrootdStreambuf),
        xrootdStreambuf.run xrdfile url B r l (k - 1) = .ok (trace, s) ∧
        trace.length = k - 1 ∧
        (∀ p ∈ trace, p.1 ≠ eof ∧ 0 ≤ p.1 ∧ p.1 < 256 ∧ p.2 ≠ []) ∧
        xrootdStreambuf.underflow xrdfile s = .ok (eof, s1) ∧
        (s1.buffer_[s1.buffer_index_.toNat]?).map (fun b => (b.offset_, b.buf_)) =
          some ((k : Int) * B, []) ∧
        s1.buffer_.length = s.buffer_.length ∧
        s1.buffer_.map (fun b => b.offset_) = s.buffer_.map (fun b => b.offset_) ∧
        s1.requests_ = s.requests_) :=
  ⟨fun get h0 hgood hok hempty =>
      eof_at_first_empty_block_http get url B r l k hr hr1 hl hl1 hk h0 hgood hok hempty,
    fun xrdfile hopen h0 hgood hok hempty =>
      eof_at_first_empty_block_xrootd xrdfile url B r l k hr hr1 hl hl1 hk hopen h0 hgood hok
        hempty⟩


/-! ## Failed fetches -/

theorem underflow_steady_fail (get : cpr.Get) (url : String) (B : Nat) (r l : Int)
    (lo h a : Nat) (hh : h < 4294967296) (ha : a < 4294967296)
    (h206 : (httpStreambuf.answer get url B (lo + h + 1)).status_code ≠ 206)
    (h416 : (httpStreambuf.answer get url B (lo + h + 1)).status_code ≠ 416) :
    httpStreambuf.underflow get (httpStreambuf.steady get url B r l lo h (a + 1)) =
      .error (.terminate (httpStreambuf.stream_block.fill_errmsg url
        (httpStreambuf.answer get url B (lo + h + 1)))) := by
  have hidx : toSizeT ((h : Int) + 1) = h + 1 := by
    have := toSizeT_natCast (h + 1) (by omega)
    push_cast at this
    exact this
  have hout := fill_outcome_error get url B (lo + h + 1) h206 h416
  have hne : ¬ (h + 1 = h + 1 + (a + 1)) := by omega
  unfold httpStreambuf.underflow
  simp only [httpStreambuf.steady, hidx, window_length, window_getElem, if_neg hne]
  simp only [block_ahead_eq, hout]

theorem advance_loop_error (get : cpr.Get) :
    ∀ (fuel : Nat) (s : httpStreambuf) (n : Int) (e : Failure),
      httpStreambuf.advance_loop get fuel s n = .error e → ∃ what, e = .undefined what := by
  intro fuel
  induction fuel with
  | zero => intro s n e h; simp [httpStreambuf.advance_loop] at h
  | succ fuel ih =>
    intro s n e h
    rw [httpStreambuf.advance_loop] at h
    split_ifs at h with hc
    · cases hb : s.buffer_.getLast? with
      | none =>
        simp only [httpStreambuf.advance_body, hb, Except.error.injEq] at h
        exact ⟨_, h.symm⟩
      | some back =>
        rw [advance_body_eq get s back hb] at h
        exact ih _ _ _ h

theorem evict_loop_error :
    ∀ (fuel : Nat) (s : httpStreambuf) (e : Failure),
      httpStreambuf.evict_loop fuel s = .error e → ∀ what, e ≠ .runtime_error what := by
  intro fuel
  induction fuel with
  | zero => intro s e h; simp [httpStreambuf.evict_loop] at h
  | succ fuel ih =>
    intro s e h
    rw [httpStreambuf.evict_loop] at h
    split_ifs at h with hc
    · cases hb : s.buffer_ with
      | nil =>
        simp only [hb, Except.error.injEq] at h
        subst h
        intro what hw
        cases hw
      | cons front rest =>
        simp only [hb] at h
        cases hr : front.reader_ with
        | some t =>
          simp only [hr, Except.error.injEq] at h
          subst h
          intro what hw
          cases hw
        | none =>
          simp only [hr] at h
          exact ih _ _ h

theorem underflow_no_runtime_error (get : cpr.Get) (s : httpStreambuf) (what : String) :
    httpStreambuf.underflow get s ≠ .error (.runtime_error what) := by
  intro h
  unfold httpStreambuf.underflow at h
  simp only [] at h
  split_ifs at h with h1
  split at h
  · cases h
  · split at h
    · cases h
    · split at h
      · cases h
      · split_ifs at h with h2
        split at h
        · rename_i e he
          simp only [Except.error.injEq] at h
          exact evict_loop_error _ _ _ he what h
        · split at h
          · rename_i e he
            simp only [Except.error.injEq] at h
            obtain ⟨w, hw⟩ := advance_loop_error get _ _ _ _ he
            rw [hw] at h
            cases h
          · split_ifs at h
            cases h


theorem eof_at_first_empty_block_witness :
    ((2 : Int) ≤ 3 ∧ (3 : Int) < 2147483648 ∧ (0 : Int) ≤ 3 ∧ 1 ≤ 3) ∧
    (∃ (trace : List (Int × List Int)) (s s1 : httpStreambuf),
      httpStreambuf.run (rangeServer [10, 20, 30]) "http://host/file" 1 3 3 (3 - 1) =
        .ok (trace, s) ∧
      trace.length = 3 - 1 ∧
      (∀ p ∈ trace, p.1 ≠ eof ∧ 0 ≤ p.1 ∧ p.1 < 256 ∧ p.2 ≠ []) ∧
      httpStreambuf.underflow (rangeServer [10, 20, 30]) s = .ok (eof, s1) ∧
      (s1.buffer_[s1.buffer_index_.toNat]?).map (fun b => (b.offset_, b.resp_.text)) =
        some (((3 : Nat) : Int) * ((1 : Nat) : Int), []) ∧
      s1.buffer_.length = s.buffer_.length ∧
      s1.buffer_.map (fun b => b.offset_) = s.buffer_.map (fun b => b.offset_) ∧
      s1.requests_ = s.requests_) ∧
    (∃ (trace : List (Int × List Int)) (s s1 : xrootdStreambuf),
      xrootdStreambuf.run (resourceFile [10, 20, 30]) "http://host/file" 1 3 3 (3 - 1) =
        .ok (trace, s) ∧
      trace.length = 3 - 1 ∧
      (∀ p ∈ trace, p.1 ≠ eof ∧ 0 ≤ p.1 ∧ p.1 < 256 ∧ p.2 ≠ []) ∧
      xrootdStreambuf.underflow (resourceFile [10, 20, 30]) s = .ok (eof, s1) ∧
      (s1.buffer_[s1.buffer_index_.toNat]?).map (fun b => (b.offset_, b.buf_)) =
        some (((3 : Nat) : Int) * ((1 : Nat) : Int), []) ∧
      s1.buffer_.length = s.buffer_.length ∧
      s1.buffer_.map (fun b => b.offset_) = s.buffer_.map (fun b => b.offset_) ∧
      s1.requests_ = s.requests_) :=
  ⟨⟨by decide, by decide, by decide, by decide⟩,
    (eof_at_first_empty_block "http://host/file" 1 3 3 3
      (by decide) (by decide) (by decide) (by decide) (by decide)).1 (rangeServer [10, 20, 30])
      (by decide)
      (by
        intro j hj1 hj2
        have hj : j = 1 ∨ j = 2 := by omega
        rcases hj with rfl | rfl <;> decide)
      (by decide) (by decide),
    (eof_at_first_empty_block "http://host/file" 1 3 3 3
      (by decide) (by decide) (by decide) (by decide) (by decide)).2 (resourceFile [10, 20, 30])
      (by decide) (by decide)
      (by
        intro j hj1 hj2
        have hj : j = 1 ∨ j = 2 := by omega
        rcases hj with rfl | rfl <;> decide)
      (by decide) (by decide)⟩

/-- C3, the code at the failing input: block 2 of a stream of one-byte blocks
is answered with HTTP status 500.  `background_fill`, the function of the
thread of block 2, itself throws, with the status line and the reason phrase
in its message, and so does `background_fill` of `xrootdStreambuf` for a
read that is not OK; nothing catches an exception in the thread, so the run
of the constructor and two calls of `underflow` ends in `std::terminate`
with that error, not in an error that `underflow` raises to its caller. -/
theorem background_fill_raises :
    (httpStreambuf.stream_block.background_fill (faultyServer [10, 20, 30, 40] 2)
        (httpStreambuf.stream_block.new 2 1) "http://host/file").2 =
      .error ("httpStreambuf::background_fill - get request for http://host/file"
        ++ " returned error with HTTP response code HTTP/1.1 500 Internal Server Error"
        ++ " : Internal Server Error") ∧
    (xrootdStreambuf.stream_block.background_fill (xrootdStreambuf.stream_block.new 2 1)
        unreadableFile "root://host/file").2 =
      .error ("xrootdStreambuf::background_fill - read request for root://host/file"
        ++ " returned error.") ∧
    httpStreambuf.run (faultyServer [10, 20, 30, 40] 2) "http://host/file" 1 3 3 2 =
      .error (.terminate ("httpStreambuf::background_fill - get request for http://host/file"
        ++ " returned error with HTTP response code HTTP/1.1 500 Internal Server Error"
        ++ " : Internal Server Error")) := by
  decide

/-! ## The constructors -/

/-- C4: the `httpStreambuf` constructor throws if and only if the answer to
the initial range request `[0, buffersize-1]` has a status code other than
206.  When it throws, `advance` has not run: the object holds block 0 alone,
with a null `reader_`, and the initial request is the only one made; the
message of the error holds the status line and the reason phrase of the
answer.  When the status is 206 the constructor returns the stream buffer. -/
theorem ctor_throws_iff_not_206 (get : cpr.Get) (url : String) (B : Nat) :
    ((∃ e, httpStreambuf.httpStreambuf get url B = .error e) ↔
      (get url 0 ((B : Int) - 1)).status_code ≠ 206) ∧
    httpStreambuf.httpStreambuf get url B =
      if (get url 0 ((B : Int) - 1)).status_code ≠ 206 then
        .error (.runtime_error ("httpStreambuf constructor - get request for " ++ url
            ++ " returned error with HTTP response code "
            ++ (get url 0 ((B : Int) - 1)).status_line ++ " : "
            ++ (get url 0 ((B : Int) - 1)).reason),
          { url_ := url, buffersize_ := B, readahead_ := 3, lookback_ := 3,
            buffer_index_ := -1, verbose_ := 0,
            buffer_ := [{ offset_ := 0, size_ := B, resp_ := get url 0 ((B : Int) - 1),
                          reader_ := none }],
            garea_ := [], gpos_ := 0, requests_ := [(0, (B : Int) - 1)] })
      else
        .ok (httpStreambuf.steady get url B 3 3 0 0 2) := by
  by_cases h : (get url 0 ((B : Int) - 1)).status_code = 206
  · have hok := ctor_ok get url B h
    refine ⟨?_, ?_⟩
    · rw [hok]
      constructor
      · rintro ⟨e, he⟩
        cases he
      · intro hne
        exact absurd h hne
    · rw [hok, if_neg (by simpa using h)]
  · have herr := ctor_error get url B h
    refine ⟨?_, ?_⟩
    · rw [herr]
      exact ⟨fun _ => h, fun _ => ⟨_, rfl⟩⟩
    · rw [herr, if_pos h]
      rfl

/-- C5, counterexample: on an empty resource the initial range request is
answered with status 416 and no data, and the constructor throws. -/
theorem ctor_throws_on_empty_resource :
    (rangeServer [] "http://host/empty" 0 ((4 : Int) - 1)).status_code = 416 ∧
    (rangeServer [] "http://host/empty" 0 ((4 : Int) - 1)).text = [] ∧
    httpStreambuf.httpStreambuf (rangeServer []) "http://host/empty" 4 =
      .error (.runtime_error ("httpStreambuf constructor - get request for http://host/empty"
          ++ " returned error with HTTP response code HTTP/1.1 416 Range Not Satisfiable"
          ++ " : Range Not Satisfiable"),
        { url_ := "http://host/empty", buffersize_ := 4, readahead_ := 3, lookback_ := 3,
          buffer_index_ := -1, verbose_ := 0,
          buffer_ := [{ offset_ := 0, size_ := 4,
                        resp_ := rangeServer [] "http://host/empty" 0 3, reader_ := none }],
          garea_ := [], gpos_ := 0, requests_ := [(0, 3)] }) := by
  decide

/-- C5, amended: constructing an `httpStreambuf` on an empty resource (the
initial range request is answered with HTTP status 416) throws the
constructor's error, with the status line and the reason phrase of the answer
in its message; no stream buffer is built and no fetch is dispatched. -/
theorem ctor_throws_on_416 (get : cpr.Get) (url : String) (B : Nat)
    (h416 : (get url 0 ((B : Int) - 1)).status_code = 416) :
    httpStreambuf.httpStreambuf get url B =
      .error (.runtime_error ("httpStreambuf constructor - get request for " ++ url
          ++ " returned error with HTTP response code "
          ++ (get url 0 ((B : Int) - 1)).status_line ++ " : "
          ++ (get url 0 ((B : Int) - 1)).reason),
        { url_ := url, buffersize_ := B, readahead_ := 3, lookback_ := 3,
          buffer_index_ := -1, verbose_ := 0,
          buffer_ := [{ offset_ := 0, size_ := B, resp_ := get url 0 ((B : Int) - 1),
                        reader_ := none }],
          garea_ := [], gpos_ := 0, requests_ := [(0, (B : Int) - 1)] }) := by
  rw [ctor_error get url B (by rw [h416]; decide)]
  rfl

theorem ctor_throws_on_416_witness :
    (rangeServer [] "http://host/empty" 0 (((4 : Nat) : Int) - 1)).status_code = 416 ∧
    httpStreambuf.httpStreambuf (rangeServer []) "http://host/empty" 4 =
      .error (.runtime_error ("httpStreambuf constructor - get request for "
          ++ "http://host/empty" ++ " returned error with HTTP response code "
          ++ (rangeServer [] "http://host/empty" 0 (((4 : Nat) : Int) - 1)).status_line ++ " : "
          ++ (rangeServer [] "http://host/empty" 0 (((4 : Nat) : Int) - 1)).reason),
        { url_ := "http://host/empty", buffersize_ := ((4 : Nat) : Int), readahead_ := 3,
          lookback_ := 3, buffer_index_ := -1, verbose_ := 0,
          buffer_ := [{ offset_ := 0, size_ := ((4 : Nat) : Int),
                        resp_ := rangeServer [] "http://host/empty" 0 (((4 : Nat) : Int) - 1),
                        reader_ := none }],
          garea_ := [], gpos_ := 0, requests_ := [(0, (((4 : Nat) : Int) - 1))] }) :=
  ⟨by decide, ctor_throws_on_416 (rangeServer []) "http://host/empty" 4 (by decide)⟩

/-- C6, the code at the failing input: the open succeeds and the initial
`Read` of block 0 reports a failure.  The constructor stores the status in
`resp_` and never tests it: it returns a stream buffer with an empty get area
and two fetches dispatched; it throws only when the open fails. -/
theorem xrootd_ctor_ignores_read_failure :
    (unreadableFile.Open "root://host/file").IsOK = true ∧
    (unreadableFile.Read 0 4).status.IsOK = false ∧
    (xrootdStreambuf.xrootdStreambuf unreadableFile "root://host/file" 4).toOption.map
        (fun s => (s.buffer_index_, s.garea_, s.buffer_.map (fun b => b.resp_.IsOK),
          s.requests_)) =
      some (0, [], [false, false, false], [(0, 4), (4, 4), (8, 4)]) ∧
    (xrootdStreambuf.xrootdStreambuf absentFile "root://host/file" 4).toOption = none := by
  decide

/-- C7, the code at the failing input: a resource of one block.  The first
call of `underflow` returns end-of-file, and so do the second and the third;
the third leaves `buffer_index_ == buffer_.size()`, and the fourth call
increments it past the size and indexes `buffer_` outside its bounds. -/
theorem underflow_after_eof_leaves_bounds :
    (httpStreambuf.run (rangeServer [10]) "http://host/file" 1 3 3 3).toOption.map
        (fun t => (t.1.map (fun p => p.1), t.2.buffer_index_, t.2.buffer_.length)) =
      some ([eof, eof, eof], 3, 3) ∧
    httpStreambuf.run (rangeServer [10]) "http://host/file" 1 3 3 4 =
      .error (.undefined "buffer_[buffer_index_] outside the deque") := by
  decide


/-! ## Bounds of the window -/

theorem underflow_cases (get : cpr.Get) (s : httpStreambuf) (c : Int) (s1 : httpStreambuf)
    (h : httpStreambuf.underflow get s = .ok (c, s1)) :
    (c = eof ∧ toSizeT (s.buffer_index_ + 1) ≤ s.buffer_.length ∧
      ∃ bs, bs.length = s.buffer_.length ∧
        s1 = { s with buffer_index_ := s.buffer_index_ + 1, buffer_ := bs }) ∨
    (c ≠ eof ∧ ∃ (block : httpStreambuf.stream_block) (s2 : httpStreambuf) (r : Int × httpStreambuf),
      s.buffer_[toSizeT (s.buffer_index_ + 1)]? = some block ∧
      block.resp_.text ≠ [] ∧ c = block.resp_.text.headD 0 % 256 ∧
      httpStreambuf.evict_loop (s.buffer_index_ + 1 - s.lookback_).toNat
        { s with buffer_index_ := s.buffer_index_ + 1,
                 buffer_ := s.buffer_.set (toSizeT (s.buffer_index_ + 1))
                   { block with reader_ := none },
                 garea_ := block.resp_.text, gpos_ := 0 } = .ok s2 ∧
      httpStreambuf.advance get s2 = .ok r ∧ 0 ≤ r.2.buffer_index_ ∧ s1 = r.2) := by
  unfold httpStreambuf.underflow at h
  simp only [] at h
  split_ifs at h with h1
  · simp only [Except.ok.injEq, Prod.mk.injEq] at h
    exact Or.inl ⟨h.1.symm, le_of_eq h1, s.buffer_, rfl, h.2.symm⟩
  · split at h
    · cases h
    · rename_i block hblock
      split at h
      · cases h
      · split at h
        · cases h
        · split_ifs at h with h2
          · simp only [Except.ok.injEq, Prod.mk.injEq] at h
            refine Or.inl ⟨h.1.symm, ?_, _, by simp, h.2.symm⟩
            by_contra hge
            rw [List.getElem?_eq_none (by omega)] at hblock
            cases hblock
          · split at h
            · cases h
            · rename_i s2 hs2
              split at h
              · cases h
              · rename_i r hr
                split_ifs at h with h3
                simp only [Except.ok.injEq, Prod.mk.injEq] at h
                refine Or.inr ⟨?_, block, s2, r, hblock, ?_, h.1.symm, ?_, hr, by omega, h.2.symm⟩
                · rw [← h.1]; exact byte_ne_eof _
                · intro hnil; exact h2 (by rw [hnil]; rfl)
                · simpa [httpStreambuf.setg] using hs2


theorem advance_fields (get : cpr.Get) (s : httpStreambuf) (r : Int × httpStreambuf)
    (h : httpStreambuf.advance get s = .ok r) :
    r.2.buffer_index_ = s.buffer_index_ ∧ r.2.lookback_ = s.lookback_ ∧
    r.2.readahead_ = s.readahead_ := by
  obtain ⟨ext, reqs, he⟩ := advance_loop_frame get _ _ _ _ h
  rw [he]
  exact ⟨rfl, rfl, rfl⟩

/-- C10, counterexample: a resource of four one-byte blocks, `lookback_ = 3`.
The fourth call of `underflow` makes the empty block 4 current and returns
end-of-file with `buffer_index_ == 4`, one more than `lookback_`: the return
at `len == 0` comes before the eviction loop. -/
theorem index_exceeds_lookback_at_eof :
    (httpStreambuf.run (rangeServer [10, 20, 30, 40]) "http://host/file" 1 3 3 4).toOption.map
        (fun t => (t.1.map (fun p => p.1), t.2.buffer_index_, t.2.lookback_)) =
      some ([20, 30, 40, eof], 4, 3) := by
  decide

/-- C10, amended: after construction and after every call of `underflow` that
returns a byte, `buffer_index_`, the number of blocks kept behind the current
one, is at least 0 and at most `lookback_`.  A call that returns end-of-file
runs no eviction: it leaves `buffer_index_` one more than it was, with
`lookback_` and the number of blocks unchanged, so that after the first
end-of-file `buffer_index_` is at most `lookback_ + 1`. -/
theorem index_at_most_lookback (get : cpr.Get) :
    (∀ (url : String) (B : Nat) (s : httpStreambuf),
      httpStreambuf.httpStreambuf get url B = .ok s →
        0 ≤ s.buffer_index_ ∧ s.buffer_index_ ≤ s.lookback_) ∧
    (∀ (s s1 : httpStreambuf) (c : Int), httpStreambuf.underflow get s = .ok (c, s1) →
      c ≠ eof → 0 ≤ s1.buffer_index_ ∧ s1.buffer_index_ ≤ s1.lookback_) ∧
    (∀ (s s1 : httpStreambuf), httpStreambuf.underflow get s = .ok (eof, s1) →
      s1.buffer_index_ = s.buffer_index_ + 1 ∧ s1.lookback_ = s.lookback_ ∧
      s1.buffer_.length = s.buffer_.length) ∧
    (∀ (s s1 s2 : httpStreambuf) (c : Int), httpStreambuf.underflow get s = .ok (c, s1) →
      c ≠ eof → httpStreambuf.underflow get s1 = .ok (eof, s2) →
      s2.buffer_index_ ≤ s2.lookback_ + 1) := by
  have hbyte : ∀ (s s1 : httpStreambuf) (c : Int),
      httpStreambuf.underflow get s = .ok (c, s1) → c ≠ eof →
      0 ≤ s1.buffer_index_ ∧ s1.buffer_index_ ≤ s1.lookback_ := by
    intro s s1 c h hc
    rcases underflow_cases get s c s1 h with
      ⟨he, _⟩ | ⟨_, block, s2, r, _, _, _, hev, hadv, hpos, rfl⟩
    · exact absurd he hc
    · obtain ⟨p, _, he, hle⟩ := evict_loop_ok _ _ _ hev
      obtain ⟨hi, hl, _⟩ := advance_fields get s2 r hadv
      have := hle (le_refl _)
      omega
  have heof : ∀ (s s1 : httpStreambuf), httpStreambuf.underflow get s = .ok (eof, s1) →
      s1.buffer_index_ = s.buffer_index_ + 1 ∧ s1.lookback_ = s.lookback_ ∧
      s1.buffer_.length = s.buffer_.length := by
    intro s s1 h
    rcases underflow_cases get s eof s1 h with ⟨_, _, bs, hbs, rfl⟩ | ⟨hc, _⟩
    · exact ⟨rfl, rfl, hbs⟩
    · exact absurd rfl hc
  refine ⟨?_, hbyte, heof, ?_⟩
  · intro url B s h
    by_cases h206 : (get url 0 ((B : Int) - 1)).status_code = 206
    · rw [ctor_ok get url B h206] at h
      simp only [Except.ok.injEq] at h
      subst h
      simp [httpStreambuf.steady]
    · rw [ctor_error get url B h206] at h
      cases h
  · intro s s1 s2 c h hc h2
    obtain ⟨_, h3⟩ := hbyte s s1 c h hc
    obtain ⟨h4, h5, _⟩ := heof s1 s2 h2
    omega

theorem index_at_most_lookback_witness :
    httpStreambuf.httpStreambuf (rangeServer [10, 20]) "http://host/file" 1 =
      .ok (httpStreambuf.steady (rangeServer [10, 20]) "http://host/file" 1 3 3 0 0 2) ∧
    httpStreambuf.underflow (rangeServer [10, 20])
        (httpStreambuf.steady (rangeServer [10, 20]) "http://host/file" 1 3 3 0 0 2) =
      .ok (20, httpStreambuf.steady (rangeServer [10, 20]) "http://host/file" 1 3 3 0 1 2) ∧
    (20 : Int) ≠ eof ∧
    (0 ≤ (httpStreambuf.steady (rangeServer [10, 20]) "http://host/file" 1 3 3 0 0 2).buffer_index_
      ∧ (httpStreambuf.steady (rangeServer [10, 20]) "http://host/file" 1 3 3 0 0 2).buffer_index_
        ≤ (httpStreambuf.steady (rangeServer [10, 20]) "http://host/file" 1 3 3 0 0 2).lookback_)
    ∧ (0 ≤ (httpStreambuf.steady (rangeServer [10, 20]) "http://host/file" 1 3 3 0 1 2).buffer_index_
      ∧ (httpStreambuf.steady (rangeServer [10, 20]) "http://host/file" 1 3 3 0 1 2).buffer_index_
        ≤ (httpStreambuf.steady (rangeServer [10, 20]) "http://host/file" 1 3 3 0 1 2).lookback_) :=
  ⟨by decide, by decide, by decide,
    (index_at_most_lookback (rangeServer [10, 20])).1 "http://host/file" 1 _ (by decide),
    (index_at_most_lookback (rangeServer [10, 20])).2.1
      (httpStreambuf.steady (rangeServer [10, 20]) "http://host/file" 1 3 3 0 0 2) _ 20
      (by decide) (by decide)⟩


theorem toSizeT_neg (i : Int) (h0 : i < 0) (h1 : -9223372036854775808 ≤ i) :
    9223372036854775808 ≤ toSizeT i := by
  unfold toSizeT
  omega

theorem underflow_window_bound (get : cpr.Get) (l : Int) (s s1 : httpStreambuf) (c : Int)
    (hl1 : l < 2147483648) (h : httpStreambuf.underflow get s = .ok (c, s1))
    (hr : s.readahead_ = 3) (hl : s.lookback_ = l)
    (hw : (s.buffer_.length : Int) - s.buffer_index_ ≤ 3)
    (hi : s.buffer_index_ ≤ s.buffer_.length)
    (hb : (s.buffer_.length : Int) ≤ max l 0 + 4) :
    s1.readahead_ = 3 ∧ s1.lookback_ = l ∧
    (s1.buffer_.length : Int) - s1.buffer_index_ ≤ 3 ∧
    s1.buffer_index_ ≤ s1.buffer_.length ∧
    (s1.buffer_.length : Int) ≤ max l 0 + 4 := by
  have hmax : max l 0 < 2147483648 := max_lt hl1 (by decide)
  have hidx0 : toSizeT (s.buffer_index_ + 1) ≤ s.buffer_.length → 0 ≤ s.buffer_index_ + 1 := by
    intro hle
    by_contra hneg
    have := toSizeT_neg (s.buffer_index_ + 1) (by omega) (by omega)
    omega
  rcases underflow_cases get s c s1 h with
    ⟨_, hle, bs, hbs, rfl⟩ | ⟨_, block, s2, r, hblock, _, _, hev, hadv, hpos, rfl⟩
  · have h0 := hidx0 hle
    have hidx : (toSizeT (s.buffer_index_ + 1) : Int) = s.buffer_index_ + 1 :=
      toSizeT_of_nonneg _ h0 (by omega)
    refine ⟨hr, hl, ?_, ?_, ?_⟩
    · simp only [hbs]; omega
    · simp only [hbs]; omega
    · simp only [hbs]; exact hb
  · have hlt : toSizeT (s.buffer_index_ + 1) < s.buffer_.length := by
      by_contra hge
      rw [List.getElem?_eq_none (by omega)] at hblock
      cases hblock
    have h0 := hidx0 (by omega)
    have hidx : (toSizeT (s.buffer_index_ + 1) : Int) = s.buffer_index_ + 1 :=
      toSizeT_of_nonneg _ h0 (by omega)
    obtain ⟨p, hp, he, hle⟩ := evict_loop_ok _ _ _ hev
    have hle' := hle (le_refl _)
    simp only [List.length_set] at hp
    obtain ⟨hi2, hlk, hrd⟩ := advance_fields get s2 r hadv
    have hs2len : s2.buffer_.length = s.buffer_.length - p := by
      rw [he]; simp
    have hs2idx : s2.buffer_index_ = s.buffer_index_ + 1 - p := by rw [he]
    have hs2l : s2.lookback_ = l := by rw [he]; exact hl
    have hs2r : s2.readahead_ = 3 := by rw [he]; exact hr
    have hbound := advance_loop_bound get _ s2 0 r hadv (by omega) (by omega) (by omega)
      (by omega) (by omega)
    rw [hs2r] at hbound
    have h3 : (r.2.buffer_.length : Int) - s2.buffer_index_ ≤ 3 := by
      refine le_trans hbound.2 (max_le ?_ (le_refl _))
      omega
    rw [hs2l] at hle'
    have hml : l ≤ max l 0 := le_max_left _ _
    refine ⟨by rw [hrd, hs2r], by rw [hlk, hs2l], ?_, ?_, ?_⟩
    · rw [hi2]; exact h3
    · rw [hi2]; have := hbound.1; omega
    · omega

theorem calls_window_bound (get : cpr.Get) (l : Int) (hl1 : l < 2147483648) :
    ∀ (n : Nat) (s : httpStreambuf) (t : List (Int × List Int) × httpStreambuf),
      httpStreambuf.calls get n s = .ok t →
      s.readahead_ = 3 → s.lookback_ = l →
      (s.buffer_.length : Int) - s.buffer_index_ ≤ 3 →
      s.buffer_index_ ≤ s.buffer_.length →
      (s.buffer_.length : Int) ≤ max l 0 + 4 →
      t.2.readahead_ = 3 ∧ (t.2.buffer_.length : Int) - t.2.buffer_index_ ≤ 3 := by
  intro n
  induction n with
  | zero =>
    intro s t h hr _ hw _ _
    simp only [httpStreambuf.calls, Except.ok.injEq] at h
    subst h
    exact ⟨hr, hw⟩
  | succ n ih =>
    intro s t h hr hl hw hi hb
    rw [httpStreambuf.calls] at h
    split at h
    · cases h
    · rename_i r hstep
      split at h
      · cases h
      · rename_i t1 hrest
        simp only [Except.ok.injEq] at h
        subst h
        obtain ⟨h1, h2, h3, h4, h5⟩ :=
          underflow_window_bound get l s r.2 r.1 hl1 hstep hr hl hw hi hb
        exact ih r.2 t1 hrest h1 h2 h3 h4 h5

/-- C9: with `readahead_` held at its constructor value, after construction
and after every call of `underflow` (whatever the backend answers, whatever
`int` the caller gave `lookback_`) the number of blocks after the current one,
`buffer_.size() - 1 - buffer_index_`, is at most `readahead_`, and the blocks
at or ahead of the current index are at most `readahead_ + 1`. -/
theorem blocks_ahead_at_most_readahead (get : cpr.Get) (url : String) (B : Nat) (l : Int)
    (n : Nat) (trace : List (Int × List Int)) (s : httpStreambuf) (hl1 : l < 2147483648)
    (hrun : httpStreambuf.run get url B 3 l n = .ok (trace, s)) :
    s.readahead_ = 3 ∧
    (s.buffer_.length : Int) - 1 - s.buffer_index_ ≤ s.readahead_ ∧
    (s.buffer_.length : Int) - s.buffer_index_ ≤ s.readahead_ + 1 := by
  rw [httpStreambuf.run] at hrun
  by_cases h206 : (get url 0 ((B : Int) - 1)).status_code = 206
  · rw [ctor_ok get url B h206] at hrun
    simp only [] at hrun
    have hmax : (0 : Int) ≤ max l 0 := le_max_right _ _
    obtain ⟨h1, h2⟩ := calls_window_bound get l hl1 n _ _ hrun rfl rfl
      (by simp [httpStreambuf.tune, httpStreambuf.steady, window_length])
      (by simp [httpStreambuf.tune, httpStreambuf.steady, window_length])
      (by simp only [httpStreambuf.tune, httpStreambuf.steady, window_length]; push_cast; omega)
    simp only [] at h1 h2
    rw [h1]
    omega
  · rw [ctor_error get url B h206] at hrun
    cases hrun

theorem blocks_ahead_at_most_readahead_witness :
    (3 : Int) < 2147483648 ∧
    httpStreambuf.run (rangeServer [10, 20, 30, 40, 50]) "http://host/file" 1 3 3 2 =
      .ok ([(20, [20]), (30, [30])],
        httpStreambuf.steady (rangeServer [10, 20, 30, 40, 50]) "http://host/file" 1 3 3
          0 2 2) ∧
    (httpStreambuf.steady (rangeServer [10, 20, 30, 40, 50]) "http://host/file" 1 3 3
        0 2 2).readahead_ = 3 ∧
    ((httpStreambuf.steady (rangeServer [10, 20, 30, 40, 50]) "http://host/file" 1 3 3
        0 2 2).buffer_.length : Int) - 1 -
      (httpStreambuf.steady (rangeServer [10, 20, 30, 40, 50]) "http://host/file" 1 3 3
        0 2 2).buffer_index_ ≤
      (httpStreambuf.steady (rangeServer [10, 20, 30, 40, 50]) "http://host/file" 1 3 3
        0 2 2).readahead_ ∧
    ((httpStreambuf.steady (rangeServer [10, 20, 30, 40, 50]) "http://host/file" 1 3 3
        0 2 2).buffer_.length : Int) -
      (httpStreambuf.steady (rangeServer [10, 20, 30, 40, 50]) "http://host/file" 1 3 3
        0 2 2).buffer_index_ ≤
      (httpStreambuf.steady (rangeServer [10, 20, 30, 40, 50]) "http://host/file" 1 3 3
        0 2 2).readahead_ + 1 :=
  ⟨by decide, by decide,
    blocks_ahead_at_most_readahead (rangeServer [10, 20, 30, 40, 50]) "http://host/file" 1 3 2
      [(20, [20]), (30, [30])]
      (httpStreambuf.steady (rangeServer [10, 20, 30, 40, 50]) "http://host/file" 1 3 3 0 2 2)
      (by decide) (by decide)⟩


/-! ## The invariant of the window -/

theorem chain_getElem {α : Type} (f : α → Int × Int) :
    ∀ (bs : List α), List.Chain' (fun a b : Int × Int => b.1 = a.1 + a.2) (bs.map f) →
      ∀ (i : Nat) (a b : α), bs[i]? = some a → bs[i + 1]? = some b →
        (f b).1 = (f a).1 + (f a).2 := by
  intro bs
  induction bs with
  | nil =>
    intro _ i a b h
    simp at h
  | cons x xs ih =>
    intro hc i a b ha hb
    cases xs with
    | nil => simp at hb
    | cons y ys =>
      simp only [List.map_cons, List.chain'_cons] at hc
      cases i with
      | zero =>
        simp only [List.getElem?_cons_zero, Option.some.injEq, zero_add,
          List.getElem?_cons_succ] at ha hb
        subst ha
        subst hb
        exact hc.1
      | succ i =>
        rw [List.getElem?_cons_succ] at ha hb
        exact ih (by simpa using hc.2) i a b ha hb

theorem extents_set (bs : List httpStreambuf.stream_block) (i : Nat)
    (block : httpStreambuf.stream_block) (h : bs[i]? = some block) :
    (bs.set i { block with reader_ := none }).map (fun b => (b.offset_, b.size_)) =
      bs.map (fun b => (b.offset_, b.size_)) := by
  apply List.ext_getElem?
  intro j
  simp only [List.getElem?_map, List.getElem?_set]
  by_cases hij : i = j
  · subst hij
    rw [if_pos rfl, h]
    have hlt : i < bs.length := by
      by_contra hge
      rw [List.getElem?_eq_none (by omega)] at h
      cases h
    simp [hlt]
  · rw [if_neg hij]

theorem getLast?_drop_some {α : Type} (bs : List α) (p : Nat) (back : α)
    (h : (bs.drop p).getLast? = some back) : bs.getLast? = some back := by
  have hne : bs.drop p ≠ [] := by
    intro hnil
    rw [hnil] at h
    cases h
  conv => lhs; rw [← List.take_append_drop p bs]
  rw [List.getLast?_append_of_ne_nil _ hne]
  exact h

theorem getLast?_set_join (bs : List httpStreambuf.stream_block) (i : Nat)
    (block back : httpStreambuf.stream_block) (h : bs[i]? = some block)
    (hb : (bs.set i { block with reader_ := none }).getLast? = some back) :
    ∃ back0, bs.getLast? = some back0 ∧
      back.offset_ = back0.offset_ ∧ back.size_ = back0.size_ := by
  have hm := extents_set bs i block h
  have h1 := congrArg List.getLast? hm
  rw [List.getLast?_map, List.getLast?_map, hb] at h1
  cases hl : bs.getLast? with
  | none =>
    rw [hl] at h1
    cases h1
  | some back0 =>
    rw [hl] at h1
    simp only [Option.map_some', Option.some.injEq, Prod.mk.injEq] at h1
    exact ⟨back0, rfl, h1.1, h1.2⟩

theorem wf_advance_body (get : cpr.Get) (B : Nat) (s s1 : httpStreambuf)
    (hw : httpStreambuf.WellFormed B s) (h : httpStreambuf.advance_body get s = .ok s1) :
    httpStreambuf.WellFormed B s1 := by
  cases hb : s.buffer_.getLast? with
  | none => simp [httpStreambuf.advance_body, hb] at h
  | some back =>
    rw [advance_body_eq get s back hb] at h
    simp only [Except.ok.injEq] at h
    subst h
    obtain ⟨n, hreq, hlast⟩ := hw.requests
    have hend := hlast back hb
    refine ⟨hw.buffersize, ?_, ?_, ⟨n + 1, ?_, ?_⟩, ?_⟩
    · intro b hmem
      simp only [List.mem_append, List.mem_singleton] at hmem
      rcases hmem with hmem | hmem
      · exact hw.sizes b hmem
      · rw [hmem, fresh_size, hw.buffersize]
    · have hc := hw.chain
      unfold httpStreambuf.extents at hc ⊢
      simp only [List.map_append, List.map_cons, List.map_nil]
      rw [List.chain'_append]
      refine ⟨hc, List.chain'_singleton _, ?_⟩
      intro x hx y hy
      rw [List.getLast?_map, hb] at hx
      simp only [Option.map_some', Option.mem_def, Option.some.injEq] at hx
      simp only [List.head?_cons, Option.mem_def, Option.some.injEq] at hy
      subst hx
      subst hy
      simp only [fresh_offset]
    · simp only []
      rw [hreq, List.range_succ, List.map_append, hw.buffersize, hend]
      simp
    · intro back1 hb1
      rw [List.getLast?_concat] at hb1
      simp only [Option.some.injEq] at hb1
      subst hb1
      rw [fresh_offset, fresh_size, hend, hw.buffersize]
      push_cast
      ring
    · intro b hmem
      simp only [List.mem_append, List.mem_singleton] at hmem ⊢
      rcases hmem with hmem | hmem
      · exact Or.inl (hw.asked b hmem)
      · right
        rw [hmem, fresh_offset, fresh_size]

theorem wf_advance_loop (get : cpr.Get) (B : Nat) :
    ∀ (fuel : Nat) (s : httpStreambuf) (n : Int) (r : Int × httpStreambuf),
      httpStreambuf.WellFormed B s → httpStreambuf.advance_loop get fuel s n = .ok r →
      httpStreambuf.WellFormed B r.2 := by
  intro fuel
  induction fuel with
  | zero =>
    intro s n r hw h
    simp only [httpStreambuf.advance_loop, Except.ok.injEq] at h
    subst h
    exact hw
  | succ fuel ih =>
    intro s n r hw h
    rw [httpStreambuf.advance_loop] at h
    split_ifs at h with hc
    · cases hb : httpStreambuf.advance_body get s with
      | error e =>
        rw [hb] at h
        cases h
      | ok s1 =>
        rw [hb] at h
        exact ih s1 _ r (wf_advance_body get B s s1 hw hb) h
    · simp only [Except.ok.injEq] at h
      subst h
      exact hw

theorem wf_advance (get : cpr.Get) (B : Nat) (s : httpStreambuf) (r : Int × httpStreambuf)
    (hw : httpStreambuf.WellFormed B s) (h : httpStreambuf.advance get s = .ok r) :
    httpStreambuf.WellFormed B r.2 :=
  wf_advance_loop get B _ s 0 r hw h

theorem wf_drop (B : Nat) (s : httpStreambuf) (p : Nat) (i : Int)
    (hw : httpStreambuf.WellFormed B s) :
    httpStreambuf.WellFormed B { s with buffer_ := s.buffer_.drop p, buffer_index_ := i } := by
  obtain ⟨n, hreq, hlast⟩ := hw.requests
  refine ⟨hw.buffersize, ?_, ?_, ⟨n, hreq, ?_⟩,
    fun b hmem => hw.asked b (List.mem_of_mem_drop hmem)⟩
  · intro b hmem
    exact hw.sizes b (List.mem_of_mem_drop hmem)
  · have hc := hw.chain
    unfold httpStreambuf.extents at hc ⊢
    simp only [List.map_drop]
    exact hc.drop p
  · intro back hb
    exact hlast back (getLast?_drop_some _ _ _ hb)

theorem wf_join (B : Nat) (s : httpStreambuf) (i : Nat) (block : httpStreambuf.stream_block)
    (idx : Int) (g : List Int) (pos : Nat)
    (hw : httpStreambuf.WellFormed B s) (hblock : s.buffer_[i]? = some block) :
    httpStreambuf.WellFormed B { s with
      buffer_index_ := idx, buffer_ := s.buffer_.set i { block with reader_ := none },
      garea_ := g, gpos_ := pos } := by
  obtain ⟨n, hreq, hlast⟩ := hw.requests
  refine ⟨hw.buffersize, ?_, ?_, ⟨n, hreq, ?_⟩, ?_⟩
  · intro b hmem
    simp only [] at hmem
    rcases List.mem_or_eq_of_mem_set hmem with hmem | hmem
    · exact hw.sizes b hmem
    · rw [hmem]
      exact hw.sizes block (List.getElem?_mem hblock)
  · have hc := hw.chain
    unfold httpStreambuf.extents at hc ⊢
    simp only []
    rw [extents_set _ _ _ hblock]
    exact hc
  · intro back hb
    obtain ⟨back0, h0, ho, hs⟩ := getLast?_set_join _ _ _ _ hblock hb
    rw [ho, hs]
    exact hlast back0 h0
  · intro b hmem
    simp only [] at hmem
    rcases List.mem_or_eq_of_mem_set hmem with hmem | hmem
    · exact hw.asked b hmem
    · rw [hmem]
      exact hw.asked block (List.getElem?_mem hblock)

theorem wf_congr (B : Nat) (s t : httpStreambuf) (h1 : t.buffersize_ = s.buffersize_)
    (h2 : t.buffer_ = s.buffer_) (h3 : t.requests_ = s.requests_)
    (hw : httpStreambuf.WellFormed B s) : httpStreambuf.WellFormed B t := by
  obtain ⟨n, hreq, hlast⟩ := hw.requests
  refine ⟨by rw [h1]; exact hw.buffersize, ?_, ?_, ⟨n, by rw [h3]; exact hreq, ?_⟩,
    by rw [h2, h3]; exact hw.asked⟩
  · rw [h2]
    exact hw.sizes
  · have hc := hw.chain
    unfold httpStreambuf.extents at hc ⊢
    rw [h2]
    exact hc
  · rw [h2]
    exact hlast

theorem window_extents (get : cpr.Get) (url : String) (B lo h a : Nat) :
    (httpStreambuf.window get url B lo h a).map (fun b => (b.offset_, b.size_)) =
      (List.range' lo (h + 1 + a)).map (fun j : Nat => ((j : Int) * B, (B : Int))) := by
  have h1 : (fun b : httpStreambuf.stream_block => (b.offset_, b.size_)) ∘
      httpStreambuf.block_joined get url B = fun j : Nat => ((j : Int) * B, (B : Int)) := by
    funext j
    simp [httpStreambuf.block_joined, block_ahead_eq]
  have h2 : (fun b : httpStreambuf.stream_block => (b.offset_, b.size_)) ∘
      httpStreambuf.block_ahead get url B = fun j : Nat => ((j : Int) * B, (B : Int)) := by
    funext j
    simp [block_ahead_eq]
  have h3 : lo + h + 1 = lo + (h + 1) := by omega
  simp only [httpStreambuf.window, List.map_append, List.map_map, h1, h2]
  rw [← List.map_append, h3, List.range'_append_1, Nat.add_comm a]

theorem chain_range (B : Nat) :
    ∀ (n lo : Nat), List.Chain' (fun a b : Int × Int => b.1 = a.1 + a.2)
      ((List.range' lo n).map (fun j : Nat => ((j : Int) * B, (B : Int)))) := by
  intro n
  induction n with
  | zero =>
    intro lo
    simp
  | succ n ih =>
    intro lo
    cases n with
    | zero => simp
    | succ n =>
      have h := ih (lo + 1)
      rw [List.range'_succ, List.map_cons] at h ⊢
      rw [List.range'_succ, List.map_cons, List.chain'_cons]
      refine ⟨?_, ?_⟩
      · simp only [Nat.cast_add, Nat.cast_one]
        ring
      · exact h

theorem wf_steady (get : cpr.Get) (url : String) (B : Nat) (r l : Int) (lo h a : Nat) :
    httpStreambuf.WellFormed B (httpStreambuf.steady get url B r l lo h a) := by
  refine ⟨rfl, ?_, ?_, ⟨lo + h + 1 + a, rfl, ?_⟩, ?_⟩
  · intro b hmem
    have hm : (b.offset_, b.size_) ∈
        (httpStreambuf.window get url B lo h a).map (fun b => (b.offset_, b.size_)) :=
      List.mem_map_of_mem _ hmem
    rw [window_extents, List.mem_map] at hm
    obtain ⟨j, _, hj⟩ := hm
    simp only [Prod.mk.injEq] at hj
    exact hj.2.symm
  · unfold httpStreambuf.extents
    show List.Chain' _ ((httpStreambuf.window get url B lo h a).map _)
    rw [window_extents]
    exact chain_range B _ _
  · intro back hb
    obtain ⟨back0, h0, he⟩ := window_getLast get url B lo h a
    have hb1 : (httpStreambuf.window get url B lo h a).getLast? = some back := hb
    rw [h0] at hb1
    simp only [Option.some.injEq] at hb1
    rw [← hb1]
    exact he
  · intro b hmem
    have hm : (b.offset_, b.size_) ∈
        (httpStreambuf.window get url B lo h a).map (fun b => (b.offset_, b.size_)) :=
      List.mem_map_of_mem _ hmem
    rw [window_extents, List.mem_map] at hm
    obtain ⟨j, hj0, hj⟩ := hm
    simp only [Prod.mk.injEq] at hj
    rw [List.mem_range'_1] at hj0
    show _ ∈ (List.range (lo + h + 1 + a)).map _
    rw [List.mem_map]
    exact ⟨j, List.mem_range.mpr (by omega), by rw [← hj.1, ← hj.2]⟩

theorem wf_ctor (get : cpr.Get) (url : String) (B : Nat) (s : httpStreambuf)
    (h : httpStreambuf.httpStreambuf get url B = .ok s) :
    httpStreambuf.WellFormed B s ∧ 0 ≤ s.buffer_index_ := by
  by_cases h206 : (get url 0 ((B : Int) - 1)).status_code = 206
  · rw [ctor_ok get url B h206] at h
    simp only [Except.ok.injEq] at h
    subst h
    exact ⟨wf_steady get url B 3 3 0 0 2, by simp [httpStreambuf.steady]⟩
  · rw [ctor_error get url B h206] at h
    cases h

theorem underflow_shape (get : cpr.Get) (s : httpStreambuf) (c : Int) (s1 : httpStreambuf)
    (h : httpStreambuf.underflow get s = .ok (c, s1)) :
    (c = eof ∧ s1 = { s with buffer_index_ := s.buffer_index_ + 1 }) ∨
    (c = eof ∧ ∃ block : httpStreambuf.stream_block,
      s.buffer_[toSizeT (s.buffer_index_ + 1)]? = some block ∧ block.resp_.text = [] ∧
      s1 = { s with buffer_index_ := s.buffer_index_ + 1,
                    buffer_ := s.buffer_.set (toSizeT (s.buffer_index_ + 1))
                      { block with reader_ := none } }) ∨
    (c ≠ eof ∧ ∃ (block : httpStreambuf.stream_block) (s2 : httpStreambuf) (r : Int × httpStreambuf),
      s.buffer_[toSizeT (s.buffer_index_ + 1)]? = some block ∧
      block.resp_.text ≠ [] ∧ c = block.resp_.text.headD 0 % 256 ∧
      httpStreambuf.evict_loop (s.buffer_index_ + 1 - s.lookback_).toNat
        { s with buffer_index_ := s.buffer_index_ + 1,
                 buffer_ := s.buffer_.set (toSizeT (s.buffer_index_ + 1))
                   { block with reader_ := none },
                 garea_ := block.resp_.text, gpos_ := 0 } = .ok s2 ∧
      httpStreambuf.advance get s2 = .ok r ∧ 0 ≤ r.2.buffer_index_ ∧ s1 = r.2) := by
  by_cases hc : c = eof
  · subst hc
    unfold httpStreambuf.underflow at h
    simp only [] at h
    split_ifs at h with h1
    · simp only [Except.ok.injEq, Prod.mk.injEq, true_and] at h
      exact Or.inl ⟨rfl, h.symm⟩
    · split at h
      · cases h
      · rename_i block hblock
        split at h
        · cases h
        · split at h
          · cases h
          · split_ifs at h with h2
            · simp only [Except.ok.injEq, Prod.mk.injEq, true_and] at h
              exact Or.inr (Or.inl ⟨rfl, block, hblock, List.length_eq_zero.mp h2, h.symm⟩)
            · split at h
              · cases h
              · split at h
                · cases h
                · split_ifs at h with h3
                  simp only [Except.ok.injEq, Prod.mk.injEq] at h
                  exact absurd h.1 (byte_ne_eof _)
  · rcases underflow_cases get s c s1 h with h1 | h1
    · exact absurd h1.1 hc
    · exact Or.inr (Or.inr h1)

theorem wf_underflow (get : cpr.Get) (B : Nat) (s : httpStreambuf) (c : Int) (s1 : httpStreambuf)
    (hw : httpStreambuf.WellFormed B s) (hi : 0 ≤ s.buffer_index_)
    (h : httpStreambuf.underflow get s = .ok (c, s1)) :
    httpStreambuf.WellFormed B s1 ∧ 0 ≤ s1.buffer_index_ := by
  rcases underflow_shape get s c s1 h with ⟨_, h1⟩ | ⟨_, block, hblock, _, h1⟩ |
    ⟨_, block, s2, r, hblock, _, _, hev, hadv, h0, h1⟩
  · rw [h1]
    exact ⟨wf_congr B s _ rfl rfl rfl hw, by simp only []; omega⟩
  · rw [h1]
    refine ⟨?_, by simp only []; omega⟩
    exact wf_congr B _ _ rfl rfl rfl (wf_join B s _ block (s.buffer_index_ + 1) s.garea_ s.gpos_
      hw hblock)
  · rw [h1]
    refine ⟨?_, h0⟩
    obtain ⟨p, _, hs2, _⟩ := evict_loop_ok _ _ _ hev
    apply wf_advance get B s2 r _ hadv
    rw [hs2]
    exact wf_drop B _ p _ (wf_join B s _ block (s.buffer_index_ + 1) block.resp_.text 0 hw hblock)

theorem reachable_wf (get : cpr.Get) (url : String) (B : Nat) (s : httpStreambuf)
    (h : httpStreambuf.Reachable get url B s) :
    httpStreambuf.WellFormed B s ∧ 0 ≤ s.buffer_index_ := by
  induction h with
  | ctor s hs => exact wf_ctor get url B s hs
  | tune s r l _ ih => exact ⟨wf_congr B s _ rfl rfl rfl ih.1, ih.2⟩
  | advance s r _ hadv ih =>
    refine ⟨wf_advance get B s r ih.1 hadv, ?_⟩
    rw [(advance_fields get s r hadv).1]
    exact ih.2
  | underflow s c s1 _ hu ih => exact wf_underflow get B s c s1 ih.1 ih.2 hu

/-! ## The invariant for `xrootdStreambuf` -/

theorem xrootd_ctor_cases (xrdfile : XrdCl.File) (url : String) (B : Nat) (s : xrootdStreambuf)
    (h : xrootdStreambuf.xrootdStreambuf xrdfile url B = .ok s) :
    ∃ r, xrootdStreambuf.advance xrdfile
        { url_ := url, buffersize_ := B, readahead_ := 3, lookback_ := 3, buffer_index_ := 0,
          verbose_ := 0,
          buffer_ := [{ offset_ := 0, buf_ := (xrdfile.Read 0 B).data,
                        resp_ := (xrdfile.Read 0 B).status, size_ := B, reader_ := none }],
          garea_ := (xrdfile.Read 0 B).data.take (xrdfile.Read 0 B).data.length,
          gpos_ := 0, requests_ := [(0, (B : Int))] } = .ok r ∧ s = r.2 := by
  obtain ⟨sx, hsx⟩ : ∃ sx : xrootdStreambuf, sx =
      { url_ := url, buffersize_ := B, readahead_ := 3, lookback_ := 3, buffer_index_ := 0,
        verbose_ := 0,
        buffer_ := [{ offset_ := 0, buf_ := (xrdfile.Read 0 B).data,
                      resp_ := (xrdfile.Read 0 B).status, size_ := B, reader_ := none }],
        garea_ := (xrdfile.Read 0 B).data.take (xrdfile.Read 0 B).data.length,
        gpos_ := 0, requests_ := [(0, (B : Int))] } := ⟨_, rfl⟩
  rw [← hsx]
  by_cases hopen : (xrdfile.Open url).IsOK = true
  · cases hadv : xrootdStreambuf.advance xrdfile sx with
    | ok r =>
      have hc := xrootd_ctor_of_advance xrdfile url B hopen r (by rw [← hsx]; exact hadv)
      rw [hc] at h
      simp only [Except.ok.injEq] at h
      exact ⟨r, rfl, h.symm⟩
    | error e =>
      exfalso
      unfold xrootdStreambuf.xrootdStreambuf at h
      conv at h => lhs; zeta
      rw [if_neg (by simp [xrootdStreambuf.stream_block.new, hopen])] at h
      generalize hX : xrootdStreambuf.advance xrdfile _ = res at h
      simp only [xrootdStreambuf.setg, xrootdStreambuf.stream_block.new,
        xrootdStreambuf.stream_block.bytes_read_, List.nil_append] at hX
      rw [← hsx, hadv] at hX
      subst hX
      cases h
  · exfalso
    unfold xrootdStreambuf.xrootdStreambuf at h
    conv at h => lhs; zeta
    rw [if_pos (by simp [xrootdStreambuf.stream_block.new, hopen])] at h
    cases h

theorem xrootd_wf_ctor (xrdfile : XrdCl.File) (url : String) (B : Nat) (s : xrootdStreambuf)
    (h : xrootdStreambuf.xrootdStreambuf xrdfile url B = .ok s) :
    httpStreambuf.WellFormed B s.toHttp ∧ 0 ≤ s.buffer_index_ := by
  obtain ⟨r, hadv, hs⟩ := xrootd_ctor_cases xrdfile url B s h
  obtain ⟨sx, hsx⟩ : ∃ sx : xrootdStreambuf, sx =
      { url_ := url, buffersize_ := B, readahead_ := 3, lookback_ := 3, buffer_index_ := 0,
        verbose_ := 0,
        buffer_ := [{ offset_ := 0, buf_ := (xrdfile.Read 0 B).data,
                      resp_ := (xrdfile.Read 0 B).status, size_ := B, reader_ := none }],
        garea_ := (xrdfile.Read 0 B).data.take (xrdfile.Read 0 B).data.length,
        gpos_ := 0, requests_ := [(0, (B : Int))] } := ⟨_, rfl⟩
  rw [← hsx] at hadv
  have hw0 : httpStreambuf.WellFormed B sx.toHttp := by
    rw [hsx]
    refine ⟨rfl, ?_, ?_, ⟨1, ?_, ?_⟩, ?_⟩
    · intro b hmem
      simp only [xrootdStreambuf.toHttp, List.map_cons, List.map_nil, List.mem_singleton] at hmem
      rw [hmem]
      rfl
    · simp [httpStreambuf.extents, xrootdStreambuf.toHttp]
    · simp [xrootdStreambuf.toHttp, List.range_succ]
    · intro back hb
      simp only [xrootdStreambuf.toHttp, List.map_cons, List.map_nil, List.getLast?_singleton,
        Option.some.injEq] at hb
      rw [← hb]
      simp [xrootdStreambuf.stream_block.toHttp]
    · intro b hmem
      simp only [xrootdStreambuf.toHttp, List.map_cons, List.map_nil, List.mem_singleton] at hmem
      rw [hmem]
      simp [xrootdStreambuf.toHttp, xrootdStreambuf.stream_block.toHttp]
  have hi0 : sx.toHttp.buffer_index_ = 0 := by rw [hsx]; rfl
  have hm := advance_toHttp xrdfile sx
  rw [hadv, matches_ok_left] at hm
  have hw := wf_advance _ B _ _ hw0 hm
  have hf := (advance_fields _ _ _ hm).1
  rw [hs]
  refine ⟨hw, ?_⟩
  have he : r.2.buffer_index_ = (Prod.map id xrootdStreambuf.toHttp r).2.buffer_index_ := rfl
  rw [he, hf, hi0]

theorem xrootd_reachable_wf (xrdfile : XrdCl.File) (url : String) (B : Nat) (s : xrootdStreambuf)
    (h : xrootdStreambuf.Reachable xrdfile url B s) :
    httpStreambuf.WellFormed B s.toHttp ∧ 0 ≤ s.buffer_index_ := by
  induction h with
  | ctor s hs => exact xrootd_wf_ctor xrdfile url B s hs
  | tune s r l _ ih => exact ⟨wf_congr B s.toHttp _ rfl rfl rfl ih.1, ih.2⟩
  | advance s r _ hadv ih =>
    have hm := advance_toHttp xrdfile s
    rw [hadv, matches_ok_left] at hm
    refine ⟨wf_advance _ B _ _ ih.1 hm, ?_⟩
    have he : r.2.buffer_index_ = (Prod.map id xrootdStreambuf.toHttp r).2.buffer_index_ := rfl
    rw [he, (advance_fields _ _ _ hm).1]
    exact ih.2
  | underflow s c s1 _ hu ih =>
    have hm := underflow_toHttp xrdfile s
    rw [hu, matches_ok_left] at hm
    exact wf_underflow _ B _ c s1.toHttp ih.1 ih.2 hm

/-- C11: in every state of an `httpStreambuf` and of an `xrootdStreambuf`
that the constructor, `advance` and `underflow` lead to (whatever the remote
side answers, whatever `readahead_` and `lookback_` are set to, whatever was
evicted), each block of `buffer_` starts where the block before it ends:
`buffer_[i+1].offset_ == buffer_[i].offset_ + buffer_[i].size_`. -/
theorem adjacent_blocks_contiguous :
    (∀ (get : cpr.Get) (url : String) (B : Nat) (s : httpStreambuf),
      httpStreambuf.Reachable get url B s →
      ∀ (i : Nat) (a b : httpStreambuf.stream_block),
        s.buffer_[i]? = some a → s.buffer_[i + 1]? = some b →
        b.offset_ = a.offset_ + a.size_) ∧
    (∀ (xrdfile : XrdCl.File) (url : String) (B : Nat) (s : xrootdStreambuf),
      xrootdStreambuf.Reachable xrdfile url B s →
      ∀ (i : Nat) (a b : xrootdStreambuf.stream_block),
        s.buffer_[i]? = some a → s.buffer_[i + 1]? = some b →
        b.offset_ = a.offset_ + a.size_) := by
  constructor
  · intro get url B s hs i a b ha hb
    have hc := (reachable_wf get url B s hs).1.chain
    exact chain_getElem (fun b : httpStreambuf.stream_block => (b.offset_, b.size_))
      s.buffer_ hc i a b ha hb
  · intro xrdfile url B s hs i a b ha hb
    have hc := (xrootd_reachable_wf xrdfile url B s hs).1.chain
    have he : s.toHttp.extents =
        s.buffer_.map (fun b : xrootdStreambuf.stream_block => (b.offset_, b.size_)) := by
      simp [httpStreambuf.extents, xrootdStreambuf.toHttp, xrootdStreambuf.stream_block.toHttp,
        Function.comp_def]
    rw [he] at hc
    exact chain_getElem (fun b : xrootdStreambuf.stream_block => (b.offset_, b.size_))
      s.buffer_ hc i a b ha hb

theorem adjacent_blocks_contiguous_witness :
    (httpStreambuf.block_ahead (rangeServer [10, 20, 30, 40, 50]) "http://host/file" 1 3).offset_ =
      (httpStreambuf.block_joined (rangeServer [10, 20, 30, 40, 50]) "http://host/file" 1 2).offset_
      + (httpStreambuf.block_joined (rangeServer [10, 20, 30, 40, 50]) "http://host/file" 1 2).size_ :=
  adjacent_blocks_contiguous.1 (rangeServer [10, 20, 30, 40, 50]) "http://host/file" 1
    (httpStreambuf.steady (rangeServer [10, 20, 30, 40, 50]) "http://host/file" 1 3 1 1 1 2)
    (.underflow ((httpStreambuf.steady (rangeServer [10, 20, 30, 40, 50]) "http://host/file" 1
        3 3 0 1 2).tune 3 1) 30 _
      (.tune (httpStreambuf.steady (rangeServer [10, 20, 30, 40, 50]) "http://host/file" 1
          3 3 0 1 2) 3 1
        (.underflow (httpStreambuf.steady (rangeServer [10, 20, 30, 40, 50]) "http://host/file" 1
            3 3 0 0 2) 20 _
          (.ctor _ (by decide)) (by decide)))
      (by decide))
    1 _ _ (by decide) (by decide)

/-- C12: over the life of an `httpStreambuf` of block size `B ≥ 1`, in every
state the constructor, `advance` and `underflow` lead to, the ranges
requested so far (the constructor's request first, then one for each block
that `advance` dispatched) are the ranges `[j*B, j*B + B - 1]` of the blocks
`j = 0, 1, .., n-1`, each once and in this order; every block of the window
asked for the range `[offset_, offset_ + size_ - 1]`; and a request starts
after the last byte of every request before it, so that the offsets are
strictly increasing and no two ranges share a byte, whatever was evicted. -/
theorem requests_increasing_disjoint (get : cpr.Get) (url : String) (B : Nat) (hB : 1 ≤ B)
    (s : httpStreambuf) (hs : httpStreambuf.Reachable get url B s) :
    (∃ n : Nat, s.requests_ =
      (List.range n).map (fun j : Nat => ((j : Int) * B, (j : Int) * B + B - 1))) ∧
    (∀ b ∈ s.buffer_, (b.offset_, b.offset_ + b.size_ - 1) ∈ s.requests_) ∧
    (∀ (i j : Nat) (p q : Int × Int), i < j →
      s.requests_[i]? = some p → s.requests_[j]? = some q →
      p.1 < q.1 ∧ p.1 ≤ p.2 ∧ p.2 < q.1) := by
  have hw := (reachable_wf get url B s hs).1
  obtain ⟨n, hreq, _⟩ := hw.requests
  refine ⟨⟨n, hreq⟩, hw.asked, ?_⟩
  intro i j p q hij hp hq
  rw [hreq] at hp hq
  simp only [List.getElem?_map, List.getElem?_range, Option.map_eq_some'] at hp hq
  obtain ⟨i1, hi1, hp⟩ := hp
  obtain ⟨j1, hj1, hq⟩ := hq
  have hi2 : i1 = i := by
    by_cases hlt : i < n
    · rw [List.getElem?_range hlt] at hi1
      simpa using hi1.symm
    · rw [List.getElem?_eq_none (by simpa using hlt)] at hi1
      cases hi1
  have hj2 : j1 = j := by
    by_cases hlt : j < n
    · rw [List.getElem?_range hlt] at hj1
      simpa using hj1.symm
    · rw [List.getElem?_eq_none (by simpa using hlt)] at hj1
      cases hj1
  subst hi2
  subst hj2
  rw [← hp, ← hq]
  have h1 : ((i1 : Int) + 1) * B ≤ (j1 : Int) * B := by
    exact_mod_cast Nat.mul_le_mul_right B (by omega : i1 + 1 ≤ j1)
  have h2 : (1 : Int) ≤ B := by exact_mod_cast hB
  simp only []
  refine ⟨by linarith, by linarith, by linarith⟩

theorem requests_increasing_disjoint_witness :
    ((0 : Int), (0 : Int)).1 < ((2 : Int), (2 : Int)).1 ∧
      ((0 : Int), (0 : Int)).1 ≤ ((0 : Int), (0 : Int)).2 ∧
      ((0 : Int), (0 : Int)).2 < ((2 : Int), (2 : Int)).1 :=
  (requests_increasing_disjoint (rangeServer [10, 20, 30, 40, 50]) "http://host/file" 1
    (by decide)
    (httpStreambuf.steady (rangeServer [10, 20, 30, 40, 50]) "http://host/file" 1 3 3 0 0 2)
    (.ctor _ (by decide))).2.2 0 2 (0, 0) (2, 2) (by decide) (by decide) (by decide)

/-! ## The block that a call of `underflow` makes current -/

theorem underflow_next_block (get : cpr.Get) (B : Nat) (s : httpStreambuf) (c : Int)
    (s1 : httpStreambuf) (hw : httpStreambuf.WellFormed B s) (hi : 0 ≤ s.buffer_index_)
    (hi2 : s.buffer_index_ < 2147483647)
    (h : httpStreambuf.underflow get s = .ok (c, s1)) (hc : c ≠ eof) :
    ∃ b b1 : httpStreambuf.stream_block, s.current = some b ∧ s1.current = some b1 ∧
      b1.offset_ = b.offset_ + b.size_ ∧ b.size_ = B ∧
      s1.garea_ = b1.resp_.text ∧ s1.gpos_ = 0 ∧ b1.reader_ = none ∧
      c = b1.resp_.text.headD 0 % 256 := by
  rcases underflow_shape get s c s1 h with ⟨h1, _⟩ | ⟨h1, _⟩ |
    ⟨_, block, s2, r, hblock, _, hcv, hev, hadv, h0, h1⟩
  · exact absurd h1 hc
  · exact absurd h1 hc
  have hts : toSizeT (s.buffer_index_ + 1) = s.buffer_index_.toNat + 1 := by
    unfold toSizeT
    omega
  rw [hts] at hblock hev
  have hlt : s.buffer_index_.toNat + 1 < s.buffer_.length := by
    by_contra hge
    rw [List.getElem?_eq_none (by omega)] at hblock
    cases hblock
  have hb : s.buffer_[s.buffer_index_.toNat]? = some (s.buffer_[s.buffer_index_.toNat]) :=
    List.getElem?_eq_getElem (by omega)
  have hoff := chain_getElem (fun b : httpStreambuf.stream_block => (b.offset_, b.size_))
    s.buffer_ hw.chain _ _ _ hb hblock
  obtain ⟨p, hp, hs2, _⟩ := evict_loop_ok _ _ _ hev
  obtain ⟨ext, reqs, hr⟩ := advance_loop_frame get _ s2 0 r hadv
  rw [hr, hs2] at h0
  simp only [] at h0
  refine ⟨s.buffer_[s.buffer_index_.toNat], { block with reader_ := none }, ?_, ?_, hoff,
    hw.sizes _ (List.getElem?_mem hb), ?_, ?_, rfl, hcv⟩
  · unfold httpStreambuf.current
    rw [if_pos hi]
    exact hb
  · rw [h1, hr, hs2]
    unfold httpStreambuf.current
    simp only []
    rw [if_pos h0]
    have hk : (s.buffer_index_ + 1 - (p : Int)).toNat = s.buffer_index_.toNat + 1 - p := by
      omega
    rw [hk, List.getElem?_append_left (by simp only [List.length_drop, List.length_set]; omega),
      List.getElem?_drop]
    have hk2 : p + (s.buffer_index_.toNat + 1 - p) = s.buffer_index_.toNat + 1 := by omega
    rw [hk2, List.getElem?_set_self hlt]
  · rw [h1, hr, hs2]
  · rw [h1, hr, hs2]

theorem current_toHttp (s : xrootdStreambuf) :
    s.toHttp.current = s.current.map (xrootdStreambuf.stream_block.toHttp s.url_) := by
  unfold httpStreambuf.current xrootdStreambuf.current
  by_cases h : 0 ≤ s.buffer_index_
  · have h1 : 0 ≤ s.toHttp.buffer_index_ := h
    rw [if_pos h, if_pos h1]
    simp [xrootdStreambuf.toHttp]
  · have h1 : ¬ 0 ≤ s.toHttp.buffer_index_ := h
    rw [if_neg h, if_neg h1]
    rfl

/-- C14: a call of `underflow` that returns a byte, made in a state that the
constructor, `advance` and `underflow` lead to, makes current the block that
starts where the block that was current ends: its offset is the old
`offset_ + size_`, and `size_` is the block size `B`, so that for `B ≥ 1` the
offset grows by exactly one block with each such call, whatever the eviction
does to `buffer_index_`.  The get area is the payload of the new current
block.  This holds for `httpStreambuf` and for `xrootdStreambuf`; the block
is chosen by its place in `buffer_` alone. -/
theorem underflow_makes_next_block_current :
    (∀ (get : cpr.Get) (url : String) (B : Nat) (s s1 : httpStreambuf) (c : Int),
      httpStreambuf.Reachable get url B s → s.buffer_index_ < 2147483647 →
      httpStreambuf.underflow get s = .ok (c, s1) → c ≠ eof →
      ∃ b b1 : httpStreambuf.stream_block, s.current = some b ∧ s1.current = some b1 ∧
        b1.offset_ = b.offset_ + b.size_ ∧ b.size_ = B ∧ (1 ≤ B → b.offset_ < b1.offset_) ∧
        s1.garea_ = b1.resp_.text ∧ s1.gpos_ = 0) ∧
    (∀ (xrdfile : XrdCl.File) (url : String) (B : Nat) (s s1 : xrootdStreambuf) (c : Int),
      xrootdStreambuf.Reachable xrdfile url B s → s.buffer_index_ < 2147483647 →
      xrootdStreambuf.underflow xrdfile s = .ok (c, s1) → c ≠ eof →
      ∃ b b1 : xrootdStreambuf.stream_block, s.current = some b ∧ s1.current = some b1 ∧
        b1.offset_ = b.offset_ + b.size_ ∧ b.size_ = B ∧ (1 ≤ B → b.offset_ < b1.offset_) ∧
        s1.garea_ = b1.buf_ ∧ s1.gpos_ = 0) := by
  constructor
  · intro get url B s s1 c hs hi2 hu hc
    obtain ⟨hw, hi⟩ := reachable_wf get url B s hs
    obtain ⟨b, b1, h1, h2, h3, h4, h5, h6, _, _⟩ :=
      underflow_next_block get B s c s1 hw hi hi2 hu hc
    refine ⟨b, b1, h1, h2, h3, h4, ?_, h5, h6⟩
    intro hB
    have hB1 : (1 : Int) ≤ B := by exact_mod_cast hB
    omega
  · intro xrdfile url B s s1 c hs hi2 hu hc
    obtain ⟨hw, hi⟩ := xrootd_reachable_wf xrdfile url B s hs
    have hm := underflow_toHttp xrdfile s
    rw [hu, matches_ok_left] at hm
    obtain ⟨bh, bh1, h1, h2, h3, h4, h5, h6, _, _⟩ :=
      underflow_next_block _ B s.toHttp c s1.toHttp hw hi hi2 hm hc
    rw [current_toHttp, Option.map_eq_some'] at h1 h2
    obtain ⟨b, hb, hbh⟩ := h1
    obtain ⟨b1, hb1, hbh1⟩ := h2
    rw [← hbh, ← hbh1] at h3
    rw [← hbh] at h4
    rw [← hbh1] at h5
    have h3x : b1.offset_ = b.offset_ + b.size_ := h3
    have h4x : b.size_ = B := h4
    refine ⟨b, b1, hb, hb1, h3x, h4x, ?_, h5, h6⟩
    intro hB
    have hB1 : (1 : Int) ≤ B := by exact_mod_cast hB
    omega

theorem underflow_makes_next_block_current_witness :
    ∃ b b1 : httpStreambuf.stream_block,
      (httpStreambuf.steady (rangeServer [10, 20, 30, 40, 50]) "http://host/file" 1
        3 3 0 0 2).current = some b ∧
      (httpStreambuf.steady (rangeServer [10, 20, 30, 40, 50]) "http://host/file" 1
        3 3 0 1 2).current = some b1 ∧
      b1.offset_ = b.offset_ + b.size_ ∧ b.size_ = (1 : Nat) ∧
      ((1 : Nat) ≤ 1 → b.offset_ < b1.offset_) ∧
      (httpStreambuf.steady (rangeServer [10, 20, 30, 40, 50]) "http://host/file" 1
        3 3 0 1 2).garea_ = b1.resp_.text ∧
      (httpStreambuf.steady (rangeServer [10, 20, 30, 40, 50]) "http://host/file" 1
        3 3 0 1 2).gpos_ = 0 :=
  underflow_makes_next_block_current.1 (rangeServer [10, 20, 30, 40, 50]) "http://host/file" 1
    (httpStreambuf.steady (rangeServer [10, 20, 30, 40, 50]) "http://host/file" 1 3 3 0 0 2)
    (httpStreambuf.steady (rangeServer [10, 20, 30, 40, 50]) "http://host/file" 1 3 3 0 1 2)
    20 (.ctor _ (by decide)) (by decide) (by decide) (by decide)

/-! ## The window after `k` calls of `underflow` -/

theorem calls_steady_exact (get : cpr.Get) (url : String) (B : Nat) (r l : Int)
    (hr : 2 ≤ r) (hr1 : r < 2147483648) (hl1 : l < 2147483648) :
    ∀ (n lo h a : Nat), (h : Int) ≤ l → 1 ≤ a → (a : Int) ≤ r →
      (∀ j, lo + h < j → j ≤ lo + h + n →
        ((httpStreambuf.answer get url B j).status_code = 206 ∨
          (httpStreambuf.answer get url B j).status_code = 416) ∧
        (httpStreambuf.answer get url B j).text ≠ []) →
      ∃ lo1 h1 : Nat, lo1 + h1 = lo + h + n ∧ (h1 : Int) = min ((h : Int) + n) l ∧
        httpStreambuf.calls get n (httpStreambuf.steady get url B r l lo h a) =
          .ok ((List.range' (lo + h + 1) n).map (fun j =>
                ((httpStreambuf.answer get url B j).text.headD 0 % 256,
                  (httpStreambuf.answer get url B j).text)),
            httpStreambuf.steady get url B r l lo1 h1 (if n = 0 then a else (r - 1).toNat)) := by
  intro n
  induction n with
  | zero =>
    intro lo h a hl ha ha1 _
    exact ⟨lo, h, by omega, by simp; omega, rfl⟩
  | succ n ih =>
    intro lo h a hl ha ha1 hgood
    obtain ⟨a0, rfl⟩ : ∃ a0, a = a0 + 1 := ⟨a - 1, by omega⟩
    obtain ⟨hok, hne⟩ := hgood (lo + h + 1) (by omega) (by omega)
    have hstep := underflow_steady_byte get url B r l lo h a0 (by omega) (by omega) (by omega)
      (by omega) hl hok hne
    have hnew : a0 + (r - ((a0 : Int) + 1)).toNat = (r - 1).toNat := by omega
    rw [hnew] at hstep
    obtain ⟨hidx, hidx1⟩ := steady_step_index l h hl
    have hblk := steady_step_block l lo h
    obtain ⟨lo1, h1, hsum, hh1, hcalls⟩ :=
      ih (if (h : Int) < l then lo else lo + 1) (if (h : Int) < l then h + 1 else h)
        (r - 1).toNat hidx1 (by omega) (by omega)
        (fun j hj1 hj2 => hgood j (by omega) (by omega))
    have hsame : (if n = 0 then (r - 1).toNat else (r - 1).toNat) = (r - 1).toNat := by
      split_ifs <;> rfl
    rw [hsame] at hcalls
    refine ⟨lo1, h1, by omega, ?_, ?_⟩
    · rw [hh1, hidx]
      push_cast
      omega
    · rw [httpStreambuf.calls, hstep]
      simp only []
      rw [hcalls]
      simp only [hblk, httpStreambuf.steady, List.drop_zero, List.range'_succ, List.map_cons,
        Nat.succ_ne_zero, if_false]

theorem run_steady_exact (get : cpr.Get) (url : String) (B : Nat) (r l : Int) (n : Nat)
    (hr : 2 ≤ r) (hr1 : r < 2147483648) (hl : 0 ≤ l) (hl1 : l < 2147483648)
    (h0 : (httpStreambuf.answer get url B 0).status_code = 206)
    (hgood : ∀ j, 1 ≤ j → j ≤ n →
      ((httpStreambuf.answer get url B j).status_code = 206 ∨
        (httpStreambuf.answer get url B j).status_code = 416) ∧
      (httpStreambuf.answer get url B j).text ≠ []) :
    ∃ lo1 h1 : Nat, lo1 + h1 = n ∧ (h1 : Int) = min (n : Int) l ∧
      httpStreambuf.run get url B r l n =
        .ok ((List.range' 1 n).map (fun j =>
              ((httpStreambuf.answer get url B j).text.headD 0 % 256,
                (httpStreambuf.answer get url B j).text)),
          httpStreambuf.steady get url B r l lo1 h1 (if n = 0 then 2 else (r - 1).toNat)) := by
  have h206 : (get url 0 ((B : Int) - 1)).status_code = 206 := by
    simpa [httpStreambuf.answer] using h0
  have htune : (httpStreambuf.steady get url B 3 3 0 0 2).tune r l =
      httpStreambuf.steady get url B r l 0 0 2 := rfl
  obtain ⟨lo1, h1, hsum, hh1, hcalls⟩ :=
    calls_steady_exact get url B r l hr hr1 hl1 n 0 0 2 (by simpa using hl) (by omega)
      (by push_cast; omega) (fun j hj1 hj2 => hgood j (by omega) (by omega))
  refine ⟨lo1, h1, by omega, by simpa using hh1, ?_⟩
  rw [httpStreambuf.run, ctor_ok get url B h206]
  simp only []
  rw [htune, hcalls]

theorem window_getElem_ahead (get : cpr.Get) (url : String) (B lo h a i : Nat)
    (b : httpStreambuf.stream_block) (hi : h < i)
    (hb : (httpStreambuf.window get url B lo h a)[i]? = some b) :
    b = httpStreambuf.block_ahead get url B (lo + i) := by
  simp only [httpStreambuf.window] at hb
  rw [List.getElem?_append_right (by simp; omega)] at hb
  simp only [List.length_map, List.length_range', List.getElem?_map,
    Option.map_eq_some'] at hb
  obtain ⟨j, hj, hjb⟩ := hb
  by_cases hlt : i - (h + 1) < a
  · rw [List.getElem?_range' _ _ hlt] at hj
    simp only [Option.some.injEq] at hj
    rw [← hjb, ← hj]
    congr 1
    omega
  · rw [List.getElem?_eq_none (by simpa using hlt)] at hj
    cases hj

theorem window_getElem_behind (get : cpr.Get) (url : String) (B lo h a i : Nat) (hi : i ≤ h) :
    (httpStreambuf.window get url B lo h a)[i]? =
      some (httpStreambuf.block_joined get url B (lo + i)) := by
  simp only [httpStreambuf.window]
  rw [List.getElem?_append_left (by simp; omega)]
  simp only [List.getElem?_map]
  rw [List.getElem?_range' _ _ (by omega)]
  simp

/-- C13: for every `lookback_` `l ≥ 0` (and `readahead_` `r ≥ 2`) and every
`k`, when the blocks `1 .. k` arrive with a payload, the constructor followed
by `k` calls of `underflow` returns with `buffer_index_ == min(k, l)`, the
current block is block `k` with its payload as the get area, and `buffer_`
is the blocks `k - min(k, l) .. k` (the consumed blocks behind, then the
current one), all joined, followed by the blocks fetched ahead: the first
block offset of the window is `(k - min(k, l)) * B`, so that every block
numbered below `k - l` has been evicted. -/
theorem lookback_window (get : cpr.Get) (url : String) (B : Nat) (r l : Int) (k : Nat)
    (hr : 2 ≤ r) (hr1 : r < 2147483648) (hl : 0 ≤ l) (hl1 : l < 2147483648)
    (h0 : (httpStreambuf.answer get url B 0).status_code = 206)
    (hgood : ∀ j, 1 ≤ j → j ≤ k →
      ((httpStreambuf.answer get url B j).status_code = 206 ∨
        (httpStreambuf.answer get url B j).status_code = 416) ∧
      (httpStreambuf.answer get url B j).text ≠ []) :
    ∃ (trace : List (Int × List Int)) (s : httpStreambuf) (h a : Nat),
      httpStreambuf.run get url B r l k = .ok (trace, s) ∧
      (h : Int) = min (k : Int) l ∧ h ≤ k ∧ s.buffer_index_ = h ∧
      s.current = some (httpStreambuf.block_joined get url B k) ∧
      s.garea_ = (httpStreambuf.answer get url B k).text ∧
      s.buffer_ = httpStreambuf.window get url B (k - h) h a ∧
      (∀ i, i ≤ h → s.buffer_[i]? = some (httpStreambuf.block_joined get url B (k - h + i))) ∧
      s.buffer_.map (fun b => b.offset_) =
        (List.range' (k - h) (h + 1 + a)).map (fun j : Nat => (j : Int) * B) := by
  obtain ⟨lo1, h1, hsum, hh1, hrun⟩ :=
    run_steady_exact get url B r l k hr hr1 hl hl1 h0 hgood
  have hlo : lo1 = k - h1 := by omega
  subst hlo
  refine ⟨_, _, h1, _, hrun, hh1, by omega, rfl, ?_, ?_, rfl, ?_, ?_⟩
  · unfold httpStreambuf.current
    simp only [httpStreambuf.steady]
    rw [if_pos (by omega)]
    simp only [Int.toNat_ofNat]
    rw [window_getElem_current, hsum]
  · simp only [httpStreambuf.steady, hsum]
  · intro i hi
    exact window_getElem_behind get url B _ _ _ i hi
  · exact window_offsets get url B _ _ _

theorem lookback_window_witness :
    ∃ (trace : List (Int × List Int)) (s : httpStreambuf) (h a : Nat),
      httpStreambuf.run (rangeServer [10, 20, 30, 40, 50, 60, 70, 80, 90]) "http://host/file"
        1 3 3 5 = .ok (trace, s) ∧
      (h : Int) = min ((5 : Nat) : Int) 3 ∧ h ≤ 5 ∧ s.buffer_index_ = h ∧
      s.current = some (httpStreambuf.block_joined
        (rangeServer [10, 20, 30, 40, 50, 60, 70, 80, 90]) "http://host/file" 1 5) ∧
      s.garea_ = (httpStreambuf.answer
        (rangeServer [10, 20, 30, 40, 50, 60, 70, 80, 90]) "http://host/file" 1 5).text ∧
      s.buffer_ = httpStreambuf.window
        (rangeServer [10, 20, 30, 40, 50, 60, 70, 80, 90]) "http://host/file" 1 (5 - h) h a ∧
      (∀ i, i ≤ h → s.buffer_[i]? = some (httpStreambuf.block_joined
        (rangeServer [10, 20, 30, 40, 50, 60, 70, 80, 90]) "http://host/file" 1 (5 - h + i))) ∧
      s.buffer_.map (fun b => b.offset_) =
        (List.range' (5 - h) (h + 1 + a)).map (fun j : Nat => (j : Int) * (1 : Nat)) :=
  lookback_window (rangeServer [10, 20, 30, 40, 50, 60, 70, 80, 90]) "http://host/file" 1 3 3 5
    (by decide) (by decide) (by decide) (by decide) (by decide)
    (fun j h1 h2 => by
      have hj : j = 1 ∨ j = 2 ∨ j = 3 ∨ j = 4 ∨ j = 5 := by omega
      rcases hj with rfl | rfl | rfl | rfl | rfl <;> decide)

/-- C15: when the constructor `httpStreambuf(url, B)` returns,
`buffer_index_ == 0`, the get area is the whole payload of block 0 with the
read position at its first char, block 0 is the current block, and `buffer_`
holds three blocks of size `B` at the offsets 0, `B` and `2B`, the last two
each with a thread: besides the constructor's own request for
`[0, B - 1]` exactly two were made, for `[B, 2B - 1]` and `[2B, 3B - 1]`. -/
theorem ctor_window (get : cpr.Get) (url : String) (B : Nat) (s : httpStreambuf)
    (h : httpStreambuf.httpStreambuf get url B = .ok s) :
    s.buffer_index_ = 0 ∧ s.readahead_ = 3 ∧
    s.garea_ = (get url 0 ((B : Int) - 1)).text ∧ s.gpos_ = 0 ∧
    s.current.map (fun b => (b.offset_, b.resp_.text)) =
      some (0, (get url 0 ((B : Int) - 1)).text) ∧
    s.buffer_.map (fun b => (b.offset_, b.size_, b.reader_.isSome)) =
      [(0, (B : Int), false), ((B : Int), (B : Int), true), (2 * (B : Int), (B : Int), true)] ∧
    s.requests_ =
      [(0, (B : Int) - 1), ((B : Int), 2 * (B : Int) - 1), (2 * (B : Int), 3 * (B : Int) - 1)] := by
  by_cases h206 : (get url 0 ((B : Int) - 1)).status_code = 206
  · rw [ctor_ok get url B h206] at h
    simp only [Except.ok.injEq] at h
    subst h
    refine ⟨rfl, rfl, ?_, rfl, ?_, ?_, ?_⟩
    · simp [httpStreambuf.steady, httpStreambuf.answer]
    · simp [httpStreambuf.current, httpStreambuf.steady, httpStreambuf.window,
        httpStreambuf.block_joined, block_ahead_eq, httpStreambuf.answer]
    · simp [httpStreambuf.steady, httpStreambuf.window, httpStreambuf.block_joined,
        block_ahead_eq, List.range'_succ]
    · simp only [httpStreambuf.steady, List.range_succ, List.range_zero, List.nil_append,
        List.map_append, List.map_cons, List.map_nil, List.cons_append]
      simp only [List.cons.injEq, Prod.mk.injEq, and_true]
      push_cast
      refine ⟨⟨by ring, by ring⟩, ⟨by ring, by ring⟩, ⟨by ring, by ring⟩⟩
  · rw [ctor_error get url B h206] at h
    cases h

theorem ctor_window_witness :
    (httpStreambuf.steady (rangeServer [10, 20, 30, 40, 50]) "http://host/file" 2
        3 3 0 0 2).buffer_index_ = 0 ∧
    (httpStreambuf.steady (rangeServer [10, 20, 30, 40, 50]) "http://host/file" 2
        3 3 0 0 2).readahead_ = 3 ∧
    (httpStreambuf.steady (rangeServer [10, 20, 30, 40, 50]) "http://host/file" 2
        3 3 0 0 2).garea_ =
      (rangeServer [10, 20, 30, 40, 50] "http://host/file" 0 (((2 : Nat) : Int) - 1)).text ∧
    (httpStreambuf.steady (rangeServer [10, 20, 30, 40, 50]) "http://host/file" 2
        3 3 0 0 2).gpos_ = 0 ∧
    (httpStreambuf.steady (rangeServer [10, 20, 30, 40, 50]) "http://host/file" 2
        3 3 0 0 2).current.map (fun b => (b.offset_, b.resp_.text)) =
      some (0, (rangeServer [10, 20, 30, 40, 50] "http://host/file" 0
        (((2 : Nat) : Int) - 1)).text) ∧
    (httpStreambuf.steady (rangeServer [10, 20, 30, 40, 50]) "http://host/file" 2
        3 3 0 0 2).buffer_.map (fun b => (b.offset_, b.size_, b.reader_.isSome)) =
      [(0, ((2 : Nat) : Int), false), (((2 : Nat) : Int), ((2 : Nat) : Int), true),
        (2 * ((2 : Nat) : Int), ((2 : Nat) : Int), true)] ∧
    (httpStreambuf.steady (rangeServer [10, 20, 30, 40, 50]) "http://host/file" 2
        3 3 0 0 2).requests_ =
      [(0, ((2 : Nat) : Int) - 1), (((2 : Nat) : Int), 2 * ((2 : Nat) : Int) - 1),
        (2 * ((2 : Nat) : Int), 3 * ((2 : Nat) : Int) - 1)] :=
  ctor_window (rangeServer [10, 20, 30, 40, 50]) "http://host/file" 2
    (httpStreambuf.steady (rangeServer [10, 20, 30, 40, 50]) "http://host/file" 2 3 3 0 0 2)
    (by decide)

/-- C18, counterexample: after the construction of a stream buffer on a
resource of five one-byte blocks, `readahead_` is 3 and the window holds two
blocks after the current one; the loop of `advance` counts the current block
among the `readahead_` blocks it keeps. -/
theorem blocks_ahead_after_ctor :
    (httpStreambuf.httpStreambuf (rangeServer [10, 20, 30, 40, 50]) "http://host/file"
        1).toOption.map (fun s => (s.blocks_ahead, s.readahead_)) = some (2, 3) := by
  decide

/-- C18, amended: after construction (where `readahead_` is 3) and after
every call of `underflow` that returns a byte, with `readahead_ = r ≥ 2` and
`lookback_ ≥ 0`, the number of blocks that the window holds after the
current block is `readahead_ - 1`, and each of them has a non-null
`reader_`. -/
theorem blocks_ahead_eq_readahead_sub_one (get : cpr.Get) (url : String) (B : Nat) (r l : Int)
    (n : Nat) (hr : 2 ≤ r) (hr1 : r < 2147483648) (hl : 0 ≤ l) (hl1 : l < 2147483648)
    (hn : n = 0 → r = 3)
    (h0 : (httpStreambuf.answer get url B 0).status_code = 206)
    (hgood : ∀ j, 1 ≤ j → j ≤ n →
      ((httpStreambuf.answer get url B j).status_code = 206 ∨
        (httpStreambuf.answer get url B j).status_code = 416) ∧
      (httpStreambuf.answer get url B j).text ≠ []) :
    ∃ (trace : List (Int × List Int)) (s : httpStreambuf),
      httpStreambuf.run get url B r l n = .ok (trace, s) ∧ s.readahead_ = r ∧
      s.blocks_ahead = s.readahead_ - 1 ∧
      ∀ (i : Nat) (b : httpStreambuf.stream_block),
        s.buffer_[i]? = some b → s.buffer_index_ < i → b.reader_ ≠ none := by
  obtain ⟨lo1, h1, hsum, hh1, hrun⟩ :=
    run_steady_exact get url B r l n hr hr1 hl hl1 h0 hgood
  refine ⟨_, _, hrun, rfl, ?_, ?_⟩
  · simp only [httpStreambuf.blocks_ahead, httpStreambuf.steady, window_length]
    by_cases h : n = 0
    · rw [if_pos h, hn h]
      push_cast
      omega
    · rw [if_neg h]
      push_cast
      omega
  · intro i b hb hi
    simp only [httpStreambuf.steady] at hb hi
    rw [window_getElem_ahead get url B _ _ _ i b (by omega) hb, block_ahead_eq]
    simp

theorem blocks_ahead_eq_readahead_sub_one_witness :
    ∃ (trace : List (Int × List Int)) (s : httpStreambuf),
      httpStreambuf.run (rangeServer [10, 20, 30, 40, 50]) "http://host/file" 1 4 3 2 =
        .ok (trace, s) ∧ s.readahead_ = 4 ∧
      s.blocks_ahead = s.readahead_ - 1 ∧
      ∀ (i : Nat) (b : httpStreambuf.stream_block),
        s.buffer_[i]? = some b → s.buffer_index_ < i → b.reader_ ≠ none :=
  blocks_ahead_eq_readahead_sub_one (rangeServer [10, 20, 30, 40, 50]) "http://host/file" 1 4 3 2
    (by decide) (by decide) (by decide) (by decide) (by decide) (by decide)
    (fun j h1 h2 => by
      have hj : j = 1 ∨ j = 2 := by omega
      rcases hj with rfl | rfl <;> decide)

/-- C16, counterexample: a server that answers a range past the end of a
two-byte resource with status 416 and the two chars `[60, 33]` as body, block
size 1.  `background_fill` returns for the 416 answer of block 2, and the
second and third calls of `underflow`, which make the blocks 2 and 3 current,
return the char 60 with the body of the 416 answer as get area: `underflow`
tests `len == 0`, not the status. -/
theorem status_416_body_exposed :
    (httpStreambuf.answer (chattyServer [10, 20] [60, 33]) "http://host/file" 1 2).status_code
      = 416 ∧
    (httpStreambuf.stream_block.background_fill (chattyServer [10, 20] [60, 33])
      (httpStreambuf.stream_block.new 2 1) "http://host/file").2 = .ok () ∧
    (httpStreambuf.run (chattyServer [10, 20] [60, 33]) "http://host/file" 1 3 3 3).toOption.map
        (fun t => t.1) = some [(20, [20]), (60, [60, 33]), (60, [60, 33])] := by
  decide

/-- C16, amended: `background_fill` raises nothing for a block answered with
status 416.  The call of `underflow` that makes such a block current returns
end-of-file, with the get area left as it was and nothing evicted or
requested, when the body of the answer is empty; when the body is not empty
the call returns its first char and the body is the get area. -/
theorem status_416_eof_iff_empty_body (get : cpr.Get) (url : String) (B : Nat) (r l : Int)
    (lo h a : Nat) (hh : h < 2147483648) (ha : a < 2147483648)
    (hr0 : 0 ≤ r) (hr : r < 4294967296) (hl : (h : Int) ≤ l)
    (h416 : (httpStreambuf.answer get url B (lo + h + 1)).status_code = 416) :
    (httpStreambuf.stream_block.background_fill get
      (httpStreambuf.stream_block.new (((lo + h + 1 : Nat) : Int) * B) B) url).2 = .ok () ∧
    ((httpStreambuf.answer get url B (lo + h + 1)).text = [] →
      httpStreambuf.underflow get (httpStreambuf.steady get url B r l lo h (a + 1)) =
        .ok (eof, { httpStreambuf.steady get url B r l lo h (a + 1) with
          buffer_index_ := (h : Int) + 1
          buffer_ := httpStreambuf.window get url B lo (h + 1) a })) ∧
    ((httpStreambuf.answer get url B (lo + h + 1)).text ≠ [] →
      ∃ s1 : httpStreambuf,
        httpStreambuf.underflow get (httpStreambuf.steady get url B r l lo h (a + 1)) =
          .ok ((httpStreambuf.answer get url B (lo + h + 1)).text.headD 0 % 256, s1) ∧
        s1.garea_ = (httpStreambuf.answer get url B (lo + h + 1)).text ∧ s1.gpos_ = 0) := by
  refine ⟨fill_outcome_ok get url B (lo + h + 1) (Or.inr h416), ?_, ?_⟩
  · intro hempty
    exact underflow_steady_eof get url B r l lo h a (by omega) (by omega) (Or.inr h416) hempty
  · intro hne
    refine ⟨_, underflow_steady_byte get url B r l lo h a hh ha hr0 hr hl (Or.inr h416) hne,
      ?_, rfl⟩
    simp only [httpStreambuf.steady, steady_step_block]

theorem status_416_eof_iff_empty_body_witness :
    (httpStreambuf.stream_block.background_fill (chattyServer [10, 20] [60, 33])
      (httpStreambuf.stream_block.new (((0 + 1 + 1 : Nat) : Int) * (1 : Nat)) (1 : Nat))
      "http://host/file").2 = .ok () ∧
    ((httpStreambuf.answer (chattyServer [10, 20] [60, 33]) "http://host/file" 1
        (0 + 1 + 1)).text = [] →
      httpStreambuf.underflow (chattyServer [10, 20] [60, 33])
          (httpStreambuf.steady (chattyServer [10, 20] [60, 33]) "http://host/file" 1 3 3
            0 1 (1 + 1)) =
        .ok (eof, { httpStreambuf.steady (chattyServer [10, 20] [60, 33]) "http://host/file" 1
            3 3 0 1 (1 + 1) with
          buffer_index_ := ((1 : Nat) : Int) + 1
          buffer_ := httpStreambuf.window (chattyServer [10, 20] [60, 33]) "http://host/file" 1
            0 (1 + 1) 1 })) ∧
    ((httpStreambuf.answer (chattyServer [10, 20] [60, 33]) "http://host/file" 1
        (0 + 1 + 1)).text ≠ [] →
      ∃ s1 : httpStreambuf,
        httpStreambuf.underflow (chattyServer [10, 20] [60, 33])
            (httpStreambuf.steady (chattyServer [10, 20] [60, 33]) "http://host/file" 1 3 3
              0 1 (1 + 1)) =
          .ok ((httpStreambuf.answer (chattyServer [10, 20] [60, 33]) "http://host/file" 1
            (0 + 1 + 1)).text.headD 0 % 256, s1) ∧
        s1.garea_ = (httpStreambuf.answer (chattyServer [10, 20] [60, 33]) "http://host/file" 1
          (0 + 1 + 1)).text ∧ s1.gpos_ = 0) :=
  status_416_eof_iff_empty_body (chattyServer [10, 20] [60, 33]) "http://host/file" 1 3 3 0 1 1
    (by decide) (by decide) (by decide) (by decide) (by decide) (by decide)

/-- C17, the code at the failing input: the destructor run on a stream
buffer right after its construction on a resource of five one-byte blocks.
It deletes block 0, joins the thread of block 1 and deletes `reader_`, and
then `delete *iter` runs `~stream_block`, which finds `reader_` non-null and
deletes it a second time; the thread of block 2 is not joined before
that. -/
theorem dtor_deletes_reader_twice :
    (httpStreambuf.httpStreambuf (rangeServer [10, 20, 30, 40, 50]) "http://host/file"
        1).toOption.map httpStreambuf.dtor =
      some ([.delete_block 0, .join 1, .delete_reader 1],
        .error (.undefined "delete of a reader_ that was deleted before")) := by
  decide

/-- C19, counterexample: the file name `events.hddm` starts with none of the
four prefixes; `_istream_init` opens it with `std::ifstream`, builds the HDDM
`istream` on it and returns 0 with no error set. -/
theorem local_file_name_is_opened :
    hddm_py._istream_init (hddm_py.localWorld ["events.hddm"]) (some "events.hddm") =
      (0, { fname := some "events.hddm", fstr := some true, tstr := none, rstr := none,
            istr := some .fstr }, none) := by
  decide

/-- C19, amended: for a file name that starts with none of `http://`,
`https://`, `root://` and `xrootd://`, `_istream_init` builds a
`std::ifstream` on the name.  When that stream is not good the call returns
-1 with the IOError `Cannot open input file <name>`; otherwise it builds the
HDDM `istream` on the stream and returns 0, or -1 with a RuntimeError when
that constructor throws.  No `httpIstream` or `xrootdIstream` is built. -/
theorem other_names_open_local_file (w : hddm_py.World) (filename : String)
    (h1 : hddm_py.strncmp_eq filename "http://" = false)
    (h2 : hddm_py.strncmp_eq filename "https://" = false)
    (h3 : hddm_py.strncmp_eq filename "root://" = false)
    (h4 : hddm_py.strncmp_eq filename "xrootd://" = false) :
    hddm_py._istream_init w (some filename) =
      if w.ifstream filename = true then
        match w.istream filename with
        | .error what =>
          (-1, { fname := some filename, fstr := some true, tstr := none, rstr := none,
                 istr := none }, some (.PyExc_RuntimeError what))
        | .ok _ =>
          (0, { fname := some filename, fstr := some true, tstr := none, rstr := none,
                istr := some .fstr }, none)
      else
        (-1, { fname := some filename, fstr := some false, tstr := none, rstr := none,
               istr := none },
          some (.PyExc_IOError ("Cannot open input file " ++ filename))) := by
  unfold hddm_py._istream_init
  simp only [h1, h2, h3, h4, Bool.or_self, Bool.false_eq_true, if_false, hddm_py._istream_new]
  cases hf : w.ifstream filename <;> cases hi : w.istream filename <;>
    simp [hddm_py._istream_init_istr, hi]

theorem other_names_open_local_file_witness :
    hddm_py._istream_init (hddm_py.localWorld ["events.hddm"]) (some "missing.hddm") =
      if (hddm_py.localWorld ["events.hddm"]).ifstream "missing.hddm" = true then
        match (hddm_py.localWorld ["events.hddm"]).istream "missing.hddm" with
        | .error what =>
          (-1, { fname := some "missing.hddm", fstr := some true, tstr := none, rstr := none,
                 istr := none }, some (.PyExc_RuntimeError what))
        | .ok _ =>
          (0, { fname := some "missing.hddm", fstr := some true, tstr := none, rstr := none,
                istr := some .fstr }, none)
      else
        (-1, { fname := some "missing.hddm", fstr := some false, tstr := none, rstr := none,
               istr := none },
          some (.PyExc_IOError ("Cannot open input file " ++ "missing.hddm"))) :=
  other_names_open_local_file (hddm_py.localWorld ["events.hddm"]) "missing.hddm"
    (by decide) (by decide) (by decide) (by decide)

theorem xrootd_advance_fields (xrdfile : XrdCl.File) (s : xrootdStreambuf)
    (r : Int × xrootdStreambuf) (h : xrootdStreambuf.advance xrdfile s = .ok r) :
    r.2.buffersize_ = s.buffersize_ ∧ r.2.readahead_ = s.readahead_ ∧
    r.2.lookback_ = s.lookback_ ∧ r.2.verbose_ = s.verbose_ ∧
    r.2.buffer_index_ = s.buffer_index_ := by
  have hm := advance_toHttp xrdfile s
  rw [h, matches_ok_left] at hm
  obtain ⟨ext, reqs, he⟩ := advance_loop_frame _ _ _ _ _ hm
  have e1 : r.2.buffersize_ = (Prod.map id xrootdStreambuf.toHttp r).2.buffersize_ := rfl
  have e2 : r.2.readahead_ = (Prod.map id xrootdStreambuf.toHttp r).2.readahead_ := rfl
  have e3 : r.2.lookback_ = (Prod.map id xrootdStreambuf.toHttp r).2.lookback_ := rfl
  have e4 : r.2.verbose_ = (Prod.map id xrootdStreambuf.toHttp r).2.verbose_ := rfl
  have e5 : r.2.buffer_index_ = (Prod.map id xrootdStreambuf.toHttp r).2.buffer_index_ := rfl
  rw [e1, e2, e3, e4, e5, he]
  exact ⟨rfl, rfl, rfl, rfl, rfl⟩

/-- C20: when the constructor of an `httpStreambuf` or of an
`xrootdStreambuf` called with a URL alone returns, the object has
`buffersize_ == 10000000`, `readahead_ == 3`, `lookback_ == 3` and
`verbose_ == 0`. -/
theorem ctor_defaults :
    (∀ (get : cpr.Get) (url : String) (s : httpStreambuf),
      httpStreambuf.httpStreambuf_url get url = .ok s →
      s.buffersize_ = 10000000 ∧ s.readahead_ = 3 ∧ s.lookback_ = 3 ∧ s.verbose_ = 0) ∧
    (∀ (xrdfile : XrdCl.File) (url : String) (s : xrootdStreambuf),
      xrootdStreambuf.xrootdStreambuf_url xrdfile url = .ok s →
      s.buffersize_ = 10000000 ∧ s.readahead_ = 3 ∧ s.lookback_ = 3 ∧ s.verbose_ = 0) := by
  have hd : ((default_buffersize : Nat) : Int) = 10000000 := by
    unfold default_buffersize
    norm_num
  constructor
  · intro get url s h
    unfold httpStreambuf.httpStreambuf_url at h
    by_cases h206 : (get url 0 ((default_buffersize : Int) - 1)).status_code = 206
    · rw [ctor_ok get url _ h206] at h
      simp only [Except.ok.injEq] at h
      subst h
      exact ⟨hd, rfl, rfl, rfl⟩
    · rw [ctor_error get url _ h206] at h
      cases h
  · intro xrdfile url s h
    unfold xrootdStreambuf.xrootdStreambuf_url at h
    obtain ⟨r, hadv, hs⟩ := xrootd_ctor_cases xrdfile url _ s h
    obtain ⟨f1, f2, f3, f4, _⟩ := xrootd_advance_fields xrdfile _ r hadv
    rw [hs, f1, f2, f3, f4]
    exact ⟨hd, rfl, rfl, rfl⟩

theorem ctor_defaults_witness :
    (httpStreambuf.steady (rangeServer [10, 20, 30, 40, 50]) "http://host/file"
        default_buffersize 3 3 0 0 2).buffersize_ = 10000000 ∧
    (httpStreambuf.steady (rangeServer [10, 20, 30, 40, 50]) "http://host/file"
        default_buffersize 3 3 0 0 2).readahead_ = 3 ∧
    (httpStreambuf.steady (rangeServer [10, 20, 30, 40, 50]) "http://host/file"
        default_buffersize 3 3 0 0 2).lookback_ = 3 ∧
    (httpStreambuf.steady (rangeServer [10, 20, 30, 40, 50]) "http://host/file"
        default_buffersize 3 3 0 0 2).verbose_ = 0 :=
  ctor_defaults.1 (rangeServer [10, 20, 30, 40, 50]) "http://host/file"
    (httpStreambuf.steady (rangeServer [10, 20, 30, 40, 50]) "http://host/file"
      default_buffersize 3 3 0 0 2)
    (ctor_ok (rangeServer [10, 20, 30, 40, 50]) "http://host/file" default_buffersize
      (by decide))

/-! ## `XtString::plural` -/

theorem subSizeT_of_le (a b : Nat) (h : b ≤ a) (ha : a < 18446744073709551616) :
    subSizeT a b = a - b := by
  unfold subSizeT
  omega

theorem ends_in_ok (p : List Char) (cond : Bool) (pos n : Nat) (lit : List Char)
    (hpos : pos ≤ p.length) : ∃ b, XtString.ends_in p cond pos n lit = .ok b := by
  unfold XtString.ends_in XtString.substr
  cases cond
  · exact ⟨false, rfl⟩
  · rw [if_pos rfl, if_neg (by omega)]
    exact ⟨_, rfl⟩

theorem ends_in_false (p : List Char) (pos n : Nat) (lit : List Char) :
    XtString.ends_in p false pos n lit = .ok false := rfl

theorem ends_in_throws (p : List Char) (pos n : Nat) (lit : List Char) (h : pos > p.length) :
    XtString.ends_in p true pos n lit = .error (.out_of_range "basic_string::substr") := by
  unfold XtString.ends_in XtString.substr
  rw [if_pos rfl, if_pos h]

theorem replace_ok (p : List Char) (pos n : Nat) (str : List Char) (hpos : pos ≤ p.length) :
    ∃ q, XtString.replace p pos n str = .ok q := by
  unfold XtString.replace
  rw [if_neg (by omega)]
  exact ⟨_, rfl⟩

theorem plural_small (p : List Char) (h : p.length ≤ 1) : XtString.plural p = .ok p := by
  unfold XtString.plural
  have h3 : decide (p.length > 3) = false := by simp; omega
  have h2 : decide (p.length > 2) = false := by simp; omega
  have h1 : decide (p.length > 1) = false := by simp; omega
  simp only [h3, h2, h1, ends_in_false]
  rw [if_neg (by omega)]

theorem plural_two (p : List Char) (h : p.length = 2) :
    XtString.plural p = .error (.out_of_range "basic_string::substr") := by
  unfold XtString.plural
  have h3 : decide (p.length > 3) = false := by simp; omega
  have h1 : decide (p.length > 1) = true := by simp; omega
  have hs : subSizeT p.length 3 > p.length := by
    unfold subSizeT
    omega
  simp only [h3, h1, ends_in_false]
  rw [ends_in_throws p _ 3 _ hs]

theorem plural_large (p : List Char) (h3 : 3 ≤ p.length)
    (hlen : p.length < 18446744073709551616) : ∃ q, XtString.plural p = .ok q := by
  unfold XtString.plural
  have e3 := subSizeT_of_le p.length 3 h3 hlen
  have e2 := subSizeT_of_le p.length 2 (by omega) hlen
  have e1 := subSizeT_of_le p.length 1 (by omega) hlen
  simp only [e3, e2, e1]
  obtain ⟨b1, hb1⟩ := ends_in_ok p (decide (p.length > 3)) (p.length - 3) 3 "tum".toList
    (by omega)
  rw [hb1]
  cases b1
  swap
  · exact replace_ok p _ 3 _ (by omega)
  obtain ⟨b2, hb2⟩ := ends_in_ok p (decide (p.length > 1)) (p.length - 3) 3 "ies".toList
    (by omega)
  simp only []
  rw [hb2]
  cases b2
  swap
  · exact replace_ok p _ 3 _ (by omega)
  obtain ⟨b3, hb3⟩ := ends_in_ok p (decide (p.length > 2)) (p.length - 2) 2 "ex".toList
    (by omega)
  simp only []
  rw [hb3]
  cases b3
  swap
  · exact replace_ok p _ 2 _ (by omega)
  obtain ⟨b4, hb4⟩ := ends_in_ok p (decide (p.length > 2)) (p.length - 2) 2 "sh".toList
    (by omega)
  simp only []
  rw [hb4]
  cases b4
  swap
  · exact replace_ok p _ 2 _ (by omega)
  obtain ⟨b5, hb5⟩ := ends_in_ok p (decide (p.length > 1)) (p.length - 1) 1 "s".toList
    (by omega)
  simp only []
  rw [hb5]
  cases b5
  swap
  · exact replace_ok p _ 1 _ (by omega)
  simp only []
  rw [if_pos (by omega)]
  exact ⟨_, rfl⟩

/-- C30: for a string whose length is a `size_type` value, `XtString::plural`
throws if and only if the length is exactly 2, and what it throws is the
`std::out_of_range` of `substr`: the second test evaluates
`p.substr(len - 3, 3)` with `len - 3` wrapped around to `2^64 - 1`.  For
every other length it returns a string. -/
theorem plural_throws_iff_length_two (p : List Char)
    (hlen : p.length < 18446744073709551616) :
    ((∃ e, XtString.plural p = .error e) ↔ p.length = 2) ∧
    (p.length = 2 → XtString.plural p = .error (.out_of_range "basic_string::substr")) ∧
    (p.length ≠ 2 → ∃ q, XtString.plural p = .ok q) := by
  have hok : p.length ≠ 2 → ∃ q, XtString.plural p = .ok q := by
    intro hne
    by_cases h1 : p.length ≤ 1
    · exact ⟨p, plural_small p h1⟩
    · exact plural_large p (by omega) hlen
  refine ⟨⟨?_, ?_⟩, plural_two p, hok⟩
  · rintro ⟨e, he⟩
    by_contra hne
    obtain ⟨q, hq⟩ := hok hne
    rw [hq] at he
    cases he
  · intro h2
    exact ⟨_, plural_two p h2⟩

theorem plural_throws_iff_length_two_witness :
    ((∃ e, XtString.plural "ox".toList = .error e) ↔ "ox".toList.length = 2) ∧
    ("ox".toList.length = 2 →
      XtString.plural "ox".toList = .error (.out_of_range "basic_string::substr")) ∧
    ("ox".toList.length ≠ 2 → ∃ q, XtString.plural "ox".toList = .ok q) :=
  plural_throws_iff_length_two "ox".toList (by decide)

/-! ## The XDR encoding of a 32-bit value and of a string -/

theorem and_ff (x : Nat) : x &&& 0xff = x % 256 :=
  Nat.and_pow_two_sub_one_eq_mod x 8

theorem and_three (x : Nat) : x &&& 3 = x % 4 :=
  Nat.and_pow_two_sub_one_eq_mod x 2

theorem shl_or (v c : Nat) (hc : c < 256) :
    (v <<< 8) % 4294967296 ||| c = (v % 16777216) * 256 + c := by
  have h1 : (v <<< 8) % 4294967296 = 2 ^ 8 * (v % 16777216) := by
    rw [Nat.shiftLeft_eq]
    norm_num
    omega
  have h2 : c < 2 ^ 8 := by norm_num; exact hc
  rw [h1, ← Nat.mul_add_lt_is_or h2]
  norm_num
  ring

theorem put_uint32_eq (sb : xstream.xdr.streambuf) (v : Nat) :
    xstream.xdr.ostream.put_uint32 sb v =
      sb ++ [v / 16777216 % 256, v / 65536 % 256, v / 256 % 256, v % 256] := by
  simp only [xstream.xdr.ostream.put_uint32, xstream.xdr.ostream.split, and_ff,
    Nat.shiftRight_eq_div_pow, List.range_succ, List.range_zero, List.nil_append,
    List.cons_append, List.map_cons, List.map_nil, Nat.mod_mod]
  congr 1
  simp only [List.cons.injEq, and_true]
  refine ⟨?_, ?_, ?_, ?_⟩ <;> simp <;> omega

theorem get_uint32_step (v c : Nat) (rest : xstream.xdr.streambuf) (n : Nat) (hc : c < 256) :
    xstream.xdr.istream.get_uint32_loop (n + 1) v (c :: rest) =
      xstream.xdr.istream.get_uint32_loop n ((v % 16777216) * 256 + c) rest := by
  have h : (((c : Nat) : Int) % 4294967296).toNat = c := by omega
  simp only [xstream.xdr.istream.get_uint32_loop, xstream.xdr.sbumpc, h, shl_or v c hc]

theorem get_put_uint32 (v : Nat) (hv : v < 4294967296) (rest : xstream.xdr.streambuf) :
    xstream.xdr.istream.get_uint32 (xstream.xdr.ostream.put_uint32 [] v ++ rest) = (v, rest) := by
  rw [put_uint32_eq]
  simp only [List.nil_append, List.cons_append, xstream.xdr.istream.get_uint32]
  rw [get_uint32_step _ _ _ _ (by omega), get_uint32_step _ _ _ _ (by omega),
    get_uint32_step _ _ _ _ (by omega), get_uint32_step _ _ _ _ (by omega)]
  simp only [xstream.xdr.istream.get_uint32_loop, Prod.mk.injEq, and_true]
  omega

/-- C28: for every 32-bit unsigned value `v`, `ostream::operator<<(uint32_t)`
appends exactly four chars to the stream buffer, the bytes of `v` with the
most significant first, and `istream::operator>>(uint32_t&)` reading those
four chars stores `v` and leaves what follows them. -/
theorem uint32_roundtrip (v : Nat) (hv : v < 4294967296) (sb rest : xstream.xdr.streambuf) :
    xstream.xdr.ostream.put_uint32 sb v =
      sb ++ [v / 16777216 % 256, v / 65536 % 256, v / 256 % 256, v % 256] ∧
    v = (v / 16777216 % 256) * 16777216 + (v / 65536 % 256) * 65536
      + (v / 256 % 256) * 256 + v % 256 ∧
    xstream.xdr.istream.get_uint32
        ([v / 16777216 % 256, v / 65536 % 256, v / 256 % 256, v % 256] ++ rest) = (v, rest) := by
  refine ⟨put_uint32_eq sb v, by omega, ?_⟩
  have h := get_put_uint32 v hv rest
  rw [put_uint32_eq] at h
  exact h

theorem uint32_roundtrip_witness :
    xstream.xdr.ostream.put_uint32 [7] 305419896 =
      [7] ++ [305419896 / 16777216 % 256, 305419896 / 65536 % 256, 305419896 / 256 % 256,
        305419896 % 256] ∧
    305419896 = (305419896 / 16777216 % 256) * 16777216 + (305419896 / 65536 % 256) * 65536
      + (305419896 / 256 % 256) * 256 + 305419896 % 256 ∧
    xstream.xdr.istream.get_uint32
        ([305419896 / 16777216 % 256, 305419896 / 65536 % 256, 305419896 / 256 % 256,
          305419896 % 256] ++ [9]) = (305419896, [9]) :=
  uint32_roundtrip 305419896 (by decide) [7] [9]

theorem ostream_padlen_eq (len : Nat) :
    xstream.xdr.ostream.padlen len = (4 - len % 4) % 4 := by
  unfold xstream.xdr.ostream.padlen
  rw [and_three]
  omega

theorem istream_padlen_eq (len : Nat) :
    xstream.xdr.istream.padlen len = (4 - len % 4) % 4 := by
  unfold xstream.xdr.istream.padlen xstream.xdr.to_int32
  rw [and_three]
  split_ifs <;> omega

theorem pad_take (n : Nat) (h : n < 4) :
    xstream.xdr.ostream.pad.take n = List.replicate n 0 := by
  interval_cases n <;> rfl

theorem put_string_eq (sb : xstream.xdr.streambuf) (s : List Nat)
    (h : s.length < 4294967296) :
    xstream.xdr.ostream.put_string sb s =
      .ok (sb ++ xstream.xdr.ostream.put_uint32 [] s.length ++ s
        ++ List.replicate ((4 - s.length % 4) % 4) 0) := by
  unfold xstream.xdr.ostream.put_string
  simp only []
  rw [if_neg (by omega), ostream_padlen_eq, Nat.mod_eq_of_lt h, List.take_length,
    pad_take _ (by omega)]
  have hp : xstream.xdr.ostream.put_uint32 sb s.length =
      sb ++ xstream.xdr.ostream.put_uint32 [] s.length := by
    rw [put_uint32_eq, put_uint32_eq, List.nil_append]
  rw [hp]
  split_ifs with h0
  · rfl
  · have hz : (4 - s.length % 4) % 4 = 0 := by omega
    rw [hz]
    simp

theorem get_string_eq (s t rest : List Nat) (h : s.length < 4294967296) :
    xstream.xdr.istream.get_string
        (xstream.xdr.ostream.put_uint32 [] s.length ++ s
          ++ List.replicate ((4 - s.length % 4) % 4) 0 ++ rest) t =
      .ok (rest, if s = [] then t else s) := by
  unfold xstream.xdr.istream.get_string
  rw [List.append_assoc, List.append_assoc, get_put_uint32 _ h]
  simp only []
  by_cases h0 : s = []
  · subst h0
    simp
  · have hpos : s.length > 0 := List.length_pos.mpr h0
    rw [if_pos hpos, if_neg (by simp), if_neg h0, istream_padlen_eq _,
      List.take_left, List.drop_left]
    split_ifs with hz
    · rw [List.drop_left' (List.length_replicate _ _)]
    · have hz0 : (4 - s.length % 4) % 4 = 0 := by omega
      rw [hz0]
      rfl

/-- C27: for every string `s` shorter than `2^32` chars, every previous
content `t` of the destination and every continuation `rest` of the stream,
`istream::operator>>(string&)` reading the chars that
`ostream::operator<<(const string&)` wrote for `s` consumes exactly those
chars, and leaves the destination equal to `s` when `s` is not empty and
holding `t`, untouched, when `s` is empty. -/
theorem string_roundtrip (s t rest : List Nat) (h : s.length < 4294967296) :
    ∃ w : xstream.xdr.streambuf,
      xstream.xdr.ostream.put_string [] s = .ok w ∧
      xstream.xdr.istream.get_string (w ++ rest) t = .ok (rest, if s = [] then t else s) := by
  refine ⟨_, put_string_eq [] s h, ?_⟩
  rw [List.nil_append]
  exact get_string_eq s t rest h

theorem string_roundtrip_witness :
    ∃ w : xstream.xdr.streambuf,
      xstream.xdr.ostream.put_string [] [104, 105, 33] = .ok w ∧
      xstream.xdr.istream.get_string (w ++ [0, 0, 0, 1]) [120] =
        .ok ([0, 0, 0, 1], if ([104, 105, 33] : List Nat) = [] then [120] else [104, 105, 33]) :=
  string_roundtrip [104, 105, 33] [120] [0, 0, 0, 1] (by decide)

/-- C29: for every string of length `len` with `1 ≤ len < 2^32`, the pad that
the writer computes, `(-len) & 3` on `size_t`, and the pad that the reader
computes, `(-(int32_t)len) & 3` with 32-bit wrap-around, are both
`(4 - len mod 4) mod 4`; the writer appends the four chars of `len`, the
chars of the string and that many zero chars, `4 + len + pad` chars in all, a
multiple of 4; and the reader of these chars stops right after the pad. -/
theorem string_padding (s t sb rest : List Nat) (h1 : 1 ≤ s.length)
    (h2 : s.length < 4294967296) :
    xstream.xdr.ostream.padlen s.length = (4 - s.length % 4) % 4 ∧
    xstream.xdr.istream.padlen s.length = (4 - s.length % 4) % 4 ∧
    (4 + s.length + (4 - s.length % 4) % 4) % 4 = 0 ∧
    xstream.xdr.ostream.put_string sb s =
      .ok (sb ++ xstream.xdr.ostream.put_uint32 [] s.length ++ s
        ++ List.replicate ((4 - s.length % 4) % 4) 0) ∧
    (xstream.xdr.ostream.put_uint32 [] s.length ++ s
        ++ List.replicate ((4 - s.length % 4) % 4) 0).length
      = 4 + s.length + (4 - s.length % 4) % 4 ∧
    xstream.xdr.istream.get_string
        (xstream.xdr.ostream.put_uint32 [] s.length ++ s
          ++ List.replicate ((4 - s.length % 4) % 4) 0 ++ rest) t = .ok (rest, s) := by
  refine ⟨ostream_padlen_eq _, istream_padlen_eq _, by omega, put_string_eq sb s h2, ?_, ?_⟩
  · rw [List.length_append, List.length_append, List.length_replicate, put_uint32_eq]
    rfl
  · have hne : s ≠ [] := by
      intro hnil
      rw [hnil] at h1
      simp at h1
    have hg := get_string_eq s t rest h2
    rw [if_neg hne] at hg
    exact hg

theorem string_padding_witness :
    xstream.xdr.ostream.padlen [104, 105, 33, 33, 33].length
      = (4 - [104, 105, 33, 33, 33].length % 4) % 4 ∧
    xstream.xdr.istream.padlen [104, 105, 33, 33, 33].length
      = (4 - [104, 105, 33, 33, 33].length % 4) % 4 ∧
    (4 + [104, 105, 33, 33, 33].length + (4 - [104, 105, 33, 33, 33].length % 4) % 4) % 4 = 0 ∧
    xstream.xdr.ostream.put_string [7] [104, 105, 33, 33, 33] =
      .ok ([7] ++ xstream.xdr.ostream.put_uint32 [] [104, 105, 33, 33, 33].length
        ++ [104, 105, 33, 33, 33]
        ++ List.replicate ((4 - [104, 105, 33, 33, 33].length % 4) % 4) 0) ∧
    (xstream.xdr.ostream.put_uint32 [] [104, 105, 33, 33, 33].length ++ [104, 105, 33, 33, 33]
        ++ List.replicate ((4 - [104, 105, 33, 33, 33].length % 4) % 4) 0).length
      = 4 + [104, 105, 33, 33, 33].length + (4 - [104, 105, 33, 33, 33].length % 4) % 4 ∧
    xstream.xdr.istream.get_string
        (xstream.xdr.ostream.put_uint32 [] [104, 105, 33, 33, 33].length
          ++ [104, 105, 33, 33, 33]
          ++ List.replicate ((4 - [104, 105, 33, 33, 33].length % 4) % 4) 0 ++ [9]) [120]
      = .ok ([9], [104, 105, 33, 33, 33]) :=
  string_padding [104, 105, 33, 33, 33] [120] [7] [9] (by decide) (by decide)

/-! ## The byte that `underflow` returns -/

theorem underflow_ne_eof_of_block (get : cpr.Get) (s s1 : httpStreambuf) (c : Int)
    (block : httpStreambuf.stream_block)
    (hblock : s.buffer_[toSizeT (s.buffer_index_ + 1)]? = some block)
    (hne : block.resp_.text ≠ [])
    (h : httpStreambuf.underflow get s = .ok (c, s1)) : c ≠ eof := by
  intro hc
  subst hc
  unfold httpStreambuf.underflow at h
  simp only [] at h
  split_ifs at h with h1
  · rw [h1, List.getElem?_eq_none (le_refl _)] at hblock
    cases hblock
  · split at h
    · cases h
    · rename_i blk hblk
      rw [hblock] at hblk
      simp only [Option.some.injEq] at hblk
      subst hblk
      split at h
      · cases h
      · split at h
        · cases h
        · split_ifs at h with h2
          · exact hne (List.length_eq_zero.mp h2)
          · split at h
            · cases h
            · split at h
              · cases h
              · split_ifs at h with h3
                simp only [Except.ok.injEq, Prod.mk.injEq] at h
                exact absurd h.1 (byte_ne_eof _)

theorem underflow_of_block (get : cpr.Get) (s s1 : httpStreambuf) (c : Int)
    (block : httpStreambuf.stream_block)
    (hblock : s.buffer_[toSizeT (s.buffer_index_ + 1)]? = some block)
    (hne : block.resp_.text ≠ [])
    (h : httpStreambuf.underflow get s = .ok (c, s1)) :
    c = block.resp_.text.headD 0 % 256 ∧ s1.garea_ = block.resp_.text ∧ s1.gpos_ = 0 := by
  have hc := underflow_ne_eof_of_block get s s1 c block hblock hne h
  rcases underflow_shape get s c s1 h with ⟨h1, _⟩ | ⟨h1, _⟩ |
    ⟨_, blk, s2, r, hblk, _, hcv, hev, hadv, _, h1⟩
  · exact absurd h1 hc
  · exact absurd h1 hc
  rw [hblock] at hblk
  simp only [Option.some.injEq] at hblk
  subst hblk
  obtain ⟨p, _, hs2, _⟩ := evict_loop_ok _ _ _ hev
  obtain ⟨ext, reqs, hr⟩ := advance_loop_frame get _ s2 0 r hadv
  refine ⟨hcv, ?_, ?_⟩
  · rw [h1, hr, hs2]
  · rw [h1, hr, hs2]

theorem byte_range (c : Int) : 0 ≤ c % 256 ∧ c % 256 ≤ 255 := by
  omega

/-- C25: when the block at the incremented `buffer_index_` has a payload
that is not empty, a call of `underflow` that returns, of `httpStreambuf` or
of `xrootdStreambuf`, returns the first char of the payload converted through
`unsigned char`, a value in `0 .. 255` and never the end-of-file value, also
when the char is negative (a byte of `0x80` or more); the get area it leaves
is exactly the payload, with the read position at its first char.  In the
states between construction and the first end-of-file (`readahead_ ≥ 0`,
`buffer_index_ ≤ lookback_`, the thread of the block ended normally) the call
does return. -/
theorem underflow_returns_first_byte :
    (∀ (get : cpr.Get) (s s1 : httpStreambuf) (c : Int) (block : httpStreambuf.stream_block),
      s.buffer_[toSizeT (s.buffer_index_ + 1)]? = some block → block.resp_.text ≠ [] →
      httpStreambuf.underflow get s = .ok (c, s1) →
      c = block.resp_.text.headD 0 % 256 ∧ 0 ≤ c ∧ c ≤ 255 ∧ c ≠ eof ∧
      s1.garea_ = block.resp_.text ∧ s1.gpos_ = 0) ∧
    (∀ (xrdfile : XrdCl.File) (s s1 : xrootdStreambuf) (c : Int)
      (block : xrootdStreambuf.stream_block),
      s.buffer_[toSizeT (s.buffer_index_ + 1)]? = some block → block.buf_ ≠ [] →
      xrootdStreambuf.underflow xrdfile s = .ok (c, s1) →
      c = block.buf_.headD 0 % 256 ∧ 0 ≤ c ∧ c ≤ 255 ∧ c ≠ eof ∧
      s1.garea_ = block.buf_ ∧ s1.gpos_ = 0) ∧
    (∀ (get : cpr.Get) (url : String) (B : Nat) (r l : Int) (lo h a : Nat),
      h < 2147483648 → a < 2147483648 → 0 ≤ r → r < 4294967296 → (h : Int) ≤ l →
      ((httpStreambuf.answer get url B (lo + h + 1)).status_code = 206 ∨
        (httpStreambuf.answer get url B (lo + h + 1)).status_code = 416) →
      (httpStreambuf.answer get url B (lo + h + 1)).text ≠ [] →
      ∃ s1, httpStreambuf.underflow get (httpStreambuf.steady get url B r l lo h (a + 1)) =
        .ok ((httpStreambuf.answer get url B (lo + h + 1)).text.headD 0 % 256, s1)) := by
  refine ⟨?_, ?_, ?_⟩
  · intro get s s1 c block hblock hne h
    obtain ⟨h1, h2, h3⟩ := underflow_of_block get s s1 c block hblock hne h
    have hr := byte_range (block.resp_.text.headD 0)
    exact ⟨h1, by rw [h1]; exact hr.1, by rw [h1]; exact hr.2,
      underflow_ne_eof_of_block get s s1 c block hblock hne h, h2, h3⟩
  · intro xrdfile s s1 c block hblock hne h
    have hm := underflow_toHttp xrdfile s
    rw [h, matches_ok_left] at hm
    have hb : s.toHttp.buffer_[toSizeT (s.toHttp.buffer_index_ + 1)]? =
        some (xrootdStreambuf.stream_block.toHttp s.url_ block) := by
      show (s.buffer_.map _)[toSizeT (s.buffer_index_ + 1)]? = _
      rw [List.getElem?_map, hblock]
      rfl
    obtain ⟨h1, h2, h3⟩ := underflow_of_block _ s.toHttp s1.toHttp c _ hb hne hm
    have hr := byte_range (block.buf_.headD 0)
    have h1x : c = block.buf_.headD 0 % 256 := h1
    exact ⟨h1x, by rw [h1x]; exact hr.1, by rw [h1x]; exact hr.2,
      underflow_ne_eof_of_block _ s.toHttp s1.toHttp c _ hb hne hm, h2, h3⟩
  · intro get url B r l lo h a hh ha hr0 hr hl hok hne
    exact ⟨_, underflow_steady_byte get url B r l lo h a hh ha hr0 hr hl hok hne⟩

theorem underflow_returns_first_byte_witness :
    (200 : Int) = (httpStreambuf.block_ahead (rangeServer [10, -56, 7, 40, 50])
        "http://host/file" 1 1).resp_.text.headD 0 % 256 ∧
      (0 : Int) ≤ 200 ∧ (200 : Int) ≤ 255 ∧ (200 : Int) ≠ eof ∧
      (httpStreambuf.steady (rangeServer [10, -56, 7, 40, 50]) "http://host/file" 1
        3 3 0 1 2).garea_ =
        (httpStreambuf.block_ahead (rangeServer [10, -56, 7, 40, 50])
          "http://host/file" 1 1).resp_.text ∧
      (httpStreambuf.steady (rangeServer [10, -56, 7, 40, 50]) "http://host/file" 1
        3 3 0 1 2).gpos_ = 0 :=
  underflow_returns_first_byte.1 (rangeServer [10, -56, 7, 40, 50])
    (httpStreambuf.steady (rangeServer [10, -56, 7, 40, 50]) "http://host/file" 1 3 3 0 0 2)
    (httpStreambuf.steady (rangeServer [10, -56, 7, 40, 50]) "http://host/file" 1 3 3 0 1 2)
    200
    (httpStreambuf.block_ahead (rangeServer [10, -56, 7, 40, 50]) "http://host/file" 1 1)
    (by decide) (by decide) (by decide)

/-! ## What the eviction loop leaves -/

theorem xrootd_evict_loop_eq :
    ∀ (p : Nat) (s : xrootdStreambuf) (front rest : List xrootdStreambuf.stream_block),
      s.buffer_ = front ++ rest → front.length = p →
      (∀ b ∈ front, b.reader_ = none) → p = (s.buffer_index_ - s.lookback_).toNat →
      xrootdStreambuf.evict_loop p s =
        .ok { s with buffer_ := rest, buffer_index_ := s.buffer_index_ - p } := by
  intro p
  induction p with
  | zero =>
    intro s front rest hb hlen _ _
    have : front = [] := List.length_eq_zero.mp hlen
    subst this
    simp only [List.nil_append] at hb
    simp [xrootdStreambuf.evict_loop, ← hb]
  | succ p ih =>
    intro s front rest hb hlen hnone hp
    match front, hlen with
    | b :: front', hlen =>
      have hgt : s.buffer_index_ > s.lookback_ := by omega
      have hbn : b.reader_ = none := hnone b (List.mem_cons_self _ _)
      rw [xrootdStreambuf.evict_loop, if_pos hgt]
      simp only [hb, List.cons_append, hbn]
      rw [ih _ front' rest rfl (by simpa using hlen)
        (fun b hb' => hnone b (List.mem_cons_of_mem _ hb')) (by simp; omega)]
      simp only [Nat.cast_add, Nat.cast_one, Except.ok.injEq, xrootdStreambuf.mk.injEq, true_and,
        and_true]
      omega

theorem mem_take_getElem {α : Type} (bs : List α) (p : Nat) (b : α) (h : b ∈ bs.take p) :
    ∃ i, i < p ∧ bs[i]? = some b := by
  obtain ⟨i, hi⟩ := List.mem_iff_getElem?.mp h
  have hlt : i < (bs.take p).length := by
    by_contra hge
    rw [List.getElem?_eq_none (by omega)] at hi
    cases hi
  have hip : i < p := by
    rw [List.length_take] at hlt
    omega
  rw [List.getElem?_take_of_lt hip] at hi
  exact ⟨i, hip, hi⟩

theorem mem_take_mono {α : Type} (bs : List α) (p q : Nat) (b : α) (h : p ≤ q)
    (hb : b ∈ bs.take p) : b ∈ bs.take q := by
  obtain ⟨i, hip, hib⟩ := mem_take_getElem bs p b hb
  have hq : (bs.take q)[i]? = some b := by
    rw [List.getElem?_take_of_lt (by omega)]
    exact hib
  exact List.getElem?_mem hq

theorem drop_getElem {α : Type} (bs : List α) (p j : Nat) (h : p ≤ j) :
    (bs.drop p)[j - p]? = bs[j]? := by
  rw [List.getElem?_drop]
  congr 1
  omega

/-- C22: the eviction loop of `underflow`, of `httpStreambuf` and of
`xrootdStreambuf`, entered with `lookback_ ≥ 0` at a current block inside the
window, the blocks before it joined.  It returns, having removed the first
`buffer_index_ - min(buffer_index_, lookback_)` blocks and nothing else:
`buffer_index_` is `min(index before the loop, lookback_)`, the block at
`buffer_index_` is the block that was current before the loop, every block
at or after it is still in the window at its place behind it, and the get
area is untouched. -/
theorem eviction_removes_only_consumed :
    (∀ (s : httpStreambuf), 0 ≤ s.lookback_ → 0 ≤ s.buffer_index_ →
      s.buffer_index_ < s.buffer_.length →
      (∀ b ∈ s.buffer_.take s.buffer_index_.toNat, b.reader_ = none) →
      ∃ p : Nat, (p : Int) = s.buffer_index_ - min s.buffer_index_ s.lookback_ ∧
        httpStreambuf.evict_loop (s.buffer_index_ - s.lookback_).toNat s =
          .ok { s with buffer_ := s.buffer_.drop p,
                       buffer_index_ := min s.buffer_index_ s.lookback_ } ∧
        ({ s with buffer_ := s.buffer_.drop p,
                  buffer_index_ := min s.buffer_index_ s.lookback_ } :
          httpStreambuf).current = s.current ∧
        ∀ j : Nat, s.buffer_index_ ≤ (j : Int) → (s.buffer_.drop p)[j - p]? = s.buffer_[j]?) ∧
    (∀ (s : xrootdStreambuf), 0 ≤ s.lookback_ → 0 ≤ s.buffer_index_ →
      s.buffer_index_ < s.buffer_.length →
      (∀ b ∈ s.buffer_.take s.buffer_index_.toNat, b.reader_ = none) →
      ∃ p : Nat, (p : Int) = s.buffer_index_ - min s.buffer_index_ s.lookback_ ∧
        xrootdStreambuf.evict_loop (s.buffer_index_ - s.lookback_).toNat s =
          .ok { s with buffer_ := s.buffer_.drop p,
                       buffer_index_ := min s.buffer_index_ s.lookback_ } ∧
        ({ s with buffer_ := s.buffer_.drop p,
                  buffer_index_ := min s.buffer_index_ s.lookback_ } :
          xrootdStreambuf).current = s.current ∧
        ∀ j : Nat, s.buffer_index_ ≤ (j : Int) → (s.buffer_.drop p)[j - p]? = s.buffer_[j]?) := by
  constructor
  · intro s hl hi hlt hj
    have hp : ((s.buffer_index_ - s.lookback_).toNat : Int) =
        s.buffer_index_ - min s.buffer_index_ s.lookback_ := by omega
    have hev := evict_loop_eq (s.buffer_index_ - s.lookback_).toNat s
      (s.buffer_.take (s.buffer_index_ - s.lookback_).toNat)
      (s.buffer_.drop (s.buffer_index_ - s.lookback_).toNat)
      (List.take_append_drop _ _).symm (by rw [List.length_take]; omega)
      (fun b hb => hj b (mem_take_mono _ _ _ b (by omega) hb)) rfl
    have hidx : s.buffer_index_ - ((s.buffer_index_ - s.lookback_).toNat : Int) =
        min s.buffer_index_ s.lookback_ := by omega
    rw [hidx] at hev
    refine ⟨_, hp, hev, ?_, ?_⟩
    · unfold httpStreambuf.current
      simp only []
      rw [if_pos (by omega), if_pos hi]
      have hk : (min s.buffer_index_ s.lookback_).toNat =
          s.buffer_index_.toNat - (s.buffer_index_ - s.lookback_).toNat := by omega
      rw [hk]
      exact drop_getElem _ _ _ (by omega)
    · intro j hjge
      exact drop_getElem _ _ _ (by omega)
  · intro s hl hi hlt hj
    have hp : ((s.buffer_index_ - s.lookback_).toNat : Int) =
        s.buffer_index_ - min s.buffer_index_ s.lookback_ := by omega
    have hev := xrootd_evict_loop_eq (s.buffer_index_ - s.lookback_).toNat s
      (s.buffer_.take (s.buffer_index_ - s.lookback_).toNat)
      (s.buffer_.drop (s.buffer_index_ - s.lookback_).toNat)
      (List.take_append_drop _ _).symm (by rw [List.length_take]; omega)
      (fun b hb => hj b (mem_take_mono _ _ _ b (by omega) hb)) rfl
    have hidx : s.buffer_index_ - ((s.buffer_index_ - s.lookback_).toNat : Int) =
        min s.buffer_index_ s.lookback_ := by omega
    rw [hidx] at hev
    refine ⟨_, hp, hev, ?_, ?_⟩
    · unfold xrootdStreambuf.current
      simp only []
      rw [if_pos (by omega), if_pos hi]
      have hk : (min s.buffer_index_ s.lookback_).toNat =
          s.buffer_index_.toNat - (s.buffer_index_ - s.lookback_).toNat := by omega
      rw [hk]
      exact drop_getElem _ _ _ (by omega)
    · intro j hjge
      exact drop_getElem _ _ _ (by omega)

theorem eviction_removes_only_consumed_witness :
    ∃ p : Nat,
      (p : Int) = (httpStreambuf.steady (rangeServer [10, 20, 30, 40, 50]) "http://host/file" 1 3 1 0 2 1).buffer_index_
        - min (httpStreambuf.steady (rangeServer [10, 20, 30, 40, 50]) "http://host/file" 1 3 1 0 2 1).buffer_index_
          (httpStreambuf.steady (rangeServer [10, 20, 30, 40, 50]) "http://host/file" 1 3 1 0 2 1).lookback_ ∧
      httpStreambuf.evict_loop
          ((httpStreambuf.steady (rangeServer [10, 20, 30, 40, 50]) "http://host/file" 1 3 1 0 2 1).buffer_index_
            - (httpStreambuf.steady (rangeServer [10, 20, 30, 40, 50]) "http://host/file" 1 3 1 0 2 1).lookback_).toNat
          (httpStreambuf.steady (rangeServer [10, 20, 30, 40, 50]) "http://host/file" 1 3 1 0 2 1) =
        .ok { (httpStreambuf.steady (rangeServer [10, 20, 30, 40, 50]) "http://host/file" 1 3 1 0 2 1) with
          buffer_ := (httpStreambuf.steady (rangeServer [10, 20, 30, 40, 50]) "http://host/file" 1 3 1 0 2 1).buffer_.drop p,
          buffer_index_ := min (httpStreambuf.steady (rangeServer [10, 20, 30, 40, 50]) "http://host/file" 1 3 1 0 2 1).buffer_index_
            (httpStreambuf.steady (rangeServer [10, 20, 30, 40, 50]) "http://host/file" 1 3 1 0 2 1).lookback_ } ∧
      ({ (httpStreambuf.steady (rangeServer [10, 20, 30, 40, 50]) "http://host/file" 1 3 1 0 2 1) with
          buffer_ := (httpStreambuf.steady (rangeServer [10, 20, 30, 40, 50]) "http://host/file" 1 3 1 0 2 1).buffer_.drop p,
          buffer_index_ := min (httpStreambuf.steady (rangeServer [10, 20, 30, 40, 50]) "http://host/file" 1 3 1 0 2 1).buffer_index_
            (httpStreambuf.steady (rangeServer [10, 20, 30, 40, 50]) "http://host/file" 1 3 1 0 2 1).lookback_ } :
        httpStreambuf).current =
        (httpStreambuf.steady (rangeServer [10, 20, 30, 40, 50]) "http://host/file" 1 3 1 0 2 1).current ∧
      ∀ j : Nat, (httpStreambuf.steady (rangeServer [10, 20, 30, 40, 50]) "http://host/file" 1 3 1 0 2 1).buffer_index_ ≤ (j : Int) →
        ((httpStreambuf.steady (rangeServer [10, 20, 30, 40, 50]) "http://host/file" 1 3 1 0 2 1).buffer_.drop p)[j - p]? =
        (httpStreambuf.steady (rangeServer [10, 20, 30, 40, 50]) "http://host/file" 1 3 1 0 2 1).buffer_[j]? :=
  eviction_removes_only_consumed.1
    (httpStreambuf.steady (rangeServer [10, 20, 30, 40, 50]) "http://host/file" 1 3 1 0 2 1)
    (by decide) (by decide) (by decide) (by decide)

/-! ## The two classes side by side -/

theorem view_toHttp (s : xrootdStreambuf) : s.toHttp.view = s.view := by
  have hf : (fun b : httpStreambuf.stream_block =>
        (b.offset_, b.size_, b.resp_.text, b.reader_.isSome)) ∘
      xrootdStreambuf.stream_block.toHttp s.url_ =
      fun b : xrootdStreambuf.stream_block => (b.offset_, b.size_, b.buf_, b.reader_.isSome) := by
    funext b
    simp only [Function.comp, xrootdStreambuf.stream_block.toHttp, Prod.mk.injEq, true_and]
    cases hb : b.reader_ with
    | none => rfl
    | some t => cases ht : t.outcome <;> simp only [ht, Option.isSome_some]
  simp only [httpStreambuf.view, xrootdStreambuf.view, xrootdStreambuf.toHttp, List.map_map, hf]

theorem steady_view (get get1 : cpr.Get) (url : String) (B : Nat) (r l : Int) (lo h a : Nat)
    (htext : ∀ j, (httpStreambuf.answer get url B j).text =
      (httpStreambuf.answer get1 url B j).text) :
    (httpStreambuf.steady get url B r l lo h a).view =
      (httpStreambuf.steady get1 url B r l lo h a).view := by
  have h1 : ∀ g : cpr.Get, (fun b : httpStreambuf.stream_block =>
        (b.offset_, b.size_, b.resp_.text, b.reader_.isSome)) ∘
      httpStreambuf.block_joined g url B =
      fun j : Nat => ((j : Int) * B, (B : Int), (httpStreambuf.answer g url B j).text, false) := by
    intro g
    funext j
    simp [httpStreambuf.block_joined, block_ahead_eq]
  have h2 : ∀ g : cpr.Get, (fun b : httpStreambuf.stream_block =>
        (b.offset_, b.size_, b.resp_.text, b.reader_.isSome)) ∘
      httpStreambuf.block_ahead g url B =
      fun j : Nat => ((j : Int) * B, (B : Int), (httpStreambuf.answer g url B j).text, true) := by
    intro g
    funext j
    simp [block_ahead_eq]
  simp only [httpStreambuf.view, httpStreambuf.steady, httpStreambuf.window, List.map_append,
    List.map_map, h1, h2, htext]

/-- C23: `httpStreambuf` and `xrootdStreambuf` go through the same window
states.  First, for an XRootD file that opens and whose first read is OK, and
the HTTP server that answers each range with status 206 and the chars the
read of that range gives: for every `readahead_`, `lookback_` and `n`, the
constructor followed by `n` calls of `underflow` either fails for both
classes or returns for both, with the same return values and exposed
payloads and the same view of the final state (`buffer_index_`, the offset,
size, payload and thread of each block, the ranges requested, the get area).
Second, for any HTTP server and any file whose answers carry the same payload
for every block, with block 0 and the blocks `1 .. n` answered successfully
on both sides and the blocks `1 .. n` not empty: both runs return, with the
same values and the same view. -/
theorem http_xrootd_same_window :
    (∀ (xrdfile : XrdCl.File) (url : String) (B : Nat) (r l : Int) (n : Nat),
      (xrdfile.Open url).IsOK = true → (xrdfile.Read 0 B).status.IsOK = true →
      match xrootdStreambuf.run xrdfile url B r l n,
          httpStreambuf.run (xrootdStreambuf.asGet xrdfile) url B r l n with
      | .ok tx, .ok th => tx.1 = th.1 ∧ tx.2.view = th.2.view
      | .error _, .error _ => True
      | _, _ => False) ∧
    (∀ (get : cpr.Get) (xrdfile : XrdCl.File) (url : String) (B : Nat) (r l : Int) (n : Nat),
      2 ≤ r → r < 2147483648 → 0 ≤ l → l < 2147483648 →
      (xrdfile.Open url).IsOK = true →
      (httpStreambuf.answer get url B 0).status_code = 206 →
      (xrdfile.Read 0 B).status.IsOK = true →
      (∀ j : Nat, (httpStreambuf.answer get url B j).text =
        (xrdfile.Read ((j : Int) * B) B).data) →
      (∀ j, 1 ≤ j → j ≤ n →
        ((httpStreambuf.answer get url B j).status_code = 206 ∨
          (httpStreambuf.answer get url B j).status_code = 416) ∧
        (xrdfile.Read ((j : Int) * B) B).status.IsOK = true ∧
        (httpStreambuf.answer get url B j).text ≠ []) →
      ∃ (trace : List (Int × List Int)) (sx : xrootdStreambuf) (sh : httpStreambuf),
        xrootdStreambuf.run xrdfile url B r l n = .ok (trace, sx) ∧
        httpStreambuf.run get url B r l n = .ok (trace, sh) ∧ sx.view = sh.view) := by
  constructor
  · intro xrdfile url B r l n hopen hread
    have hm := xrootd_run_toHttp xrdfile url B r l n hopen hread
    cases hx : xrootdStreambuf.run xrdfile url B r l n with
    | error e =>
      rw [hx, matches_error_left] at hm
      obtain ⟨e1, he1⟩ := hm
      rw [he1]
      trivial
    | ok tx =>
      rw [hx, matches_ok_left] at hm
      rw [hm]
      exact ⟨rfl, (view_toHttp tx.2).symm⟩
  · intro get xrdfile url B r l n hr hr1 hl hl1 hopen h0 hread0 hsame hgood
    have htext : ∀ j, (httpStreambuf.answer get url B j).text =
        (httpStreambuf.answer (xrootdStreambuf.asGet xrdfile) url B j).text := by
      intro j
      rw [answer_asGet]
      exact hsame j
    have hstat0 : (httpStreambuf.answer (xrootdStreambuf.asGet xrdfile) url B 0).status_code
        = 206 := by
      rw [answer_asGet]
      simp [hread0]
    have hstat : ∀ j, 1 ≤ j → j ≤ n →
        (httpStreambuf.answer (xrootdStreambuf.asGet xrdfile) url B j).status_code = 206 := by
      intro j hj1 hj2
      rw [answer_asGet]
      simp [(hgood j hj1 hj2).2.1]
    obtain ⟨lo1, h1, hsum, hh1, hrun⟩ := run_steady_exact get url B r l n hr hr1 hl hl1
      h0 (fun j hj1 hj2 => ⟨(hgood j hj1 hj2).1, (hgood j hj1 hj2).2.2⟩)
    obtain ⟨lo2, h2, hsum2, hh2, hrun2⟩ := run_steady_exact (xrootdStreambuf.asGet xrdfile)
      url B r l n hr hr1 hl hl1 hstat0
      (fun j hj1 hj2 => ⟨Or.inl (hstat j hj1 hj2),
        by rw [← htext j]; exact (hgood j hj1 hj2).2.2⟩)
    have hh : h2 = h1 := by omega
    have hlo : lo2 = lo1 := by omega
    subst hh
    subst hlo
    have hm := xrootd_run_toHttp xrdfile url B r l n hopen hread0
    rw [hrun2, matches_ok_right] at hm
    obtain ⟨tx, htx, heq⟩ := hm
    have htr : (List.range' 1 n).map (fun j =>
          ((httpStreambuf.answer (xrootdStreambuf.asGet xrdfile) url B j).text.headD 0 % 256,
            (httpStreambuf.answer (xrootdStreambuf.asGet xrdfile) url B j).text)) =
        (List.range' 1 n).map (fun j =>
          ((httpStreambuf.answer get url B j).text.headD 0 % 256,
            (httpStreambuf.answer get url B j).text)) := by
      apply List.map_congr_left
      intro j _
      rw [htext j]
    have e1 := congrArg Prod.fst heq
    have e2 := congrArg Prod.snd heq
    simp only [Prod.map_fst, Prod.map_snd, id] at e1 e2
    refine ⟨_, tx.2, _, ?_, hrun, ?_⟩
    · rw [htx, ← htr, e1]
    · rw [← view_toHttp, ← e2]
      exact (steady_view get _ url B r l _ _ _ htext).symm

theorem http_xrootd_same_window_witness :
    match xrootdStreambuf.run (resourceFile [10, 20, 30, 40, 50]) "root://host/file" 2 3 3 4,
        httpStreambuf.run (xrootdStreambuf.asGet (resourceFile [10, 20, 30, 40, 50]))
          "root://host/file" 2 3 3 4 with
    | .ok tx, .ok th => tx.1 = th.1 ∧ tx.2.view = th.2.view
    | .error _, .error _ => True
    | _, _ => False :=
  http_xrootd_same_window.1 (resourceFile [10, 20, 30, 40, 50]) "root://host/file" 2 3 3 4
    (by decide) (by decide)

/-! ## The threads of the window up to the first end-of-file -/

theorem joined_window (get : cpr.Get) (url : String) (B lo h a : Nat) (s : httpStreambuf)
    (hb : s.buffer_ = httpStreambuf.window get url B lo h a) (hi : s.buffer_index_ = h) :
    httpStreambuf.Joined s := by
  constructor
  · intro i b hib hle
    rw [hb, window_getElem_behind get url B lo h a i (by omega)] at hib
    simp only [Option.some.injEq] at hib
    rw [← hib]
    rfl
  · intro i b hib hlt
    rw [hb] at hib
    rw [window_getElem_ahead get url B lo h a i b (by omega) hib, block_ahead_eq]
    simp

theorem underflow_steady_cases (get : cpr.Get) (url : String) (B : Nat) (r l : Int)
    (lo h a : Nat) (hh : h < 2147483648) (ha : a < 2147483648)
    (hr0 : 0 ≤ r) (hr : r < 4294967296) (hl : (h : Int) ≤ l) (c : Int) (s1 : httpStreambuf)
    (hu : httpStreambuf.underflow get (httpStreambuf.steady get url B r l lo h (a + 1)) =
      .ok (c, s1)) :
    (c ≠ eof ∧ s1 = httpStreambuf.steady get url B r l
        (if (h : Int) < l then lo else lo + 1) (if (h : Int) < l then h + 1 else h)
        (a + (r - ((a : Int) + 1)).toNat)) ∨
    (c = eof ∧ s1 = { httpStreambuf.steady get url B r l lo h (a + 1) with
        buffer_index_ := (h : Int) + 1
        buffer_ := httpStreambuf.window get url B lo (h + 1) a }) := by
  by_cases hok : (httpStreambuf.answer get url B (lo + h + 1)).status_code = 206 ∨
      (httpStreambuf.answer get url B (lo + h + 1)).status_code = 416
  · by_cases hne : (httpStreambuf.answer get url B (lo + h + 1)).text = []
    · rw [underflow_steady_eof get url B r l lo h a (by omega) (by omega) hok hne] at hu
      simp only [Except.ok.injEq, Prod.mk.injEq] at hu
      exact Or.inr ⟨hu.1.symm, hu.2.symm⟩
    · rw [underflow_steady_byte get url B r l lo h a hh ha hr0 hr hl hok hne] at hu
      simp only [Except.ok.injEq, Prod.mk.injEq] at hu
      exact Or.inl ⟨by rw [← hu.1]; exact byte_ne_eof _, hu.2.symm⟩
  · rw [underflow_steady_fail get url B r l lo h a (by omega) (by omega)
      (fun h206 => hok (Or.inl h206)) (fun h416 => hok (Or.inr h416))] at hu
    cases hu

theorem consuming_steady (get : cpr.Get) (url : String) (B : Nat) (r l : Int)
    (hr : 2 ≤ r) (hr1 : r < 2147483648) (hl : 0 ≤ l) (hl1 : l < 2147483648)
    (s : httpStreambuf) (hs : httpStreambuf.Consuming get url B r l s) :
    ∃ lo h a : Nat, s = httpStreambuf.steady get url B r l lo h (a + 1) ∧ (h : Int) ≤ l ∧
      (a : Int) + 1 ≤ max 2 r := by
  induction hs with
  | ctor s hs =>
    by_cases h206 : (get url 0 ((B : Int) - 1)).status_code = 206
    · rw [ctor_ok get url B h206] at hs
      simp only [Except.ok.injEq] at hs
      subst hs
      exact ⟨0, 0, 1, rfl, by simpa using hl, by omega⟩
    · rw [ctor_error get url B h206] at hs
      cases hs
  | underflow s c s1 _ hu hc ih =>
    obtain ⟨lo, h, a, rfl, hhl, ha⟩ := ih
    rcases underflow_steady_cases get url B r l lo h a (by omega) (by omega) (by omega)
      (by omega) hhl c s1 hu with ⟨_, h1⟩ | ⟨h1, _⟩
    · obtain ⟨hidx, hidx1⟩ := steady_step_index l h hhl
      obtain ⟨a1, ha1⟩ : ∃ a1, a + (r - ((a : Int) + 1)).toNat = a1 + 1 :=
        ⟨a + (r - ((a : Int) + 1)).toNat - 1, by omega⟩
      rw [ha1] at h1
      exact ⟨_, _, a1, h1, hidx1, by omega⟩
    · exact absurd h1 hc

/-- C24: with `readahead_ = r ≥ 2` and `lookback_ = l ≥ 0`, in every state
from construction up to the first call of `underflow` that returns
end-of-file, that call included, the blocks at positions up to
`buffer_index_` have a null `reader_` and the blocks after it a non-null one;
and in each of these states before the end-of-file the incremented
`buffer_index_` is a position of `buffer_`, whose block has a non-null
`reader_` for `underflow` to join. -/
theorem threads_follow_index (get : cpr.Get) (url : String) (B : Nat) (r l : Int)
    (hr : 2 ≤ r) (hr1 : r < 2147483648) (hl : 0 ≤ l) (hl1 : l < 2147483648)
    (s : httpStreambuf) (hs : httpStreambuf.Consuming get url B r l s) :
    httpStreambuf.Joined s ∧
    (∃ b, s.buffer_[toSizeT (s.buffer_index_ + 1)]? = some b ∧ b.reader_ ≠ none) ∧
    (∀ (c : Int) (s1 : httpStreambuf),
      httpStreambuf.underflow get s = .ok (c, s1) → httpStreambuf.Joined s1) := by
  obtain ⟨lo, h, a, rfl, hhl, ha⟩ := consuming_steady get url B r l hr hr1 hl hl1 s hs
  refine ⟨joined_window get url B lo h (a + 1) _ rfl rfl, ?_, ?_⟩
  · have hidx : toSizeT ((h : Int) + 1) = h + 1 := by
      have := toSizeT_natCast (h + 1) (by omega)
      push_cast at this
      exact this
    refine ⟨httpStreambuf.block_ahead get url B (lo + h + 1), ?_, ?_⟩
    · simp only [httpStreambuf.steady, hidx, window_getElem]
    · rw [block_ahead_eq]
      simp
  · intro c s1 hu
    rcases underflow_steady_cases get url B r l lo h a (by omega) (by omega) (by omega)
      (by omega) hhl c s1 hu with ⟨_, h1⟩ | ⟨_, h1⟩
    · rw [h1]
      exact joined_window get url B _ _ _ _ rfl rfl
    · rw [h1]
      exact joined_window get url B lo (h + 1) a _ rfl (by simp)

theorem threads_follow_index_witness :
    httpStreambuf.Joined
      (httpStreambuf.steady (rangeServer [10, 20, 30, 40, 50]) "http://host/file" 1 2 1 0 1 1) ∧
    (∃ b, (httpStreambuf.steady (rangeServer [10, 20, 30, 40, 50]) "http://host/file" 1
        2 1 0 1 1).buffer_[toSizeT ((httpStreambuf.steady (rangeServer [10, 20, 30, 40, 50])
          "http://host/file" 1 2 1 0 1 1).buffer_index_ + 1)]? = some b ∧ b.reader_ ≠ none) ∧
    (∀ (c : Int) (s1 : httpStreambuf),
      httpStreambuf.underflow (rangeServer [10, 20, 30, 40, 50])
        (httpStreambuf.steady (rangeServer [10, 20, 30, 40, 50]) "http://host/file" 1
          2 1 0 1 1) = .ok (c, s1) → httpStreambuf.Joined s1) :=
  threads_follow_index (rangeServer [10, 20, 30, 40, 50]) "http://host/file" 1 2 1
    (by decide) (by decide) (by decide) (by decide)
    (httpStreambuf.steady (rangeServer [10, 20, 30, 40, 50]) "http://host/file" 1 2 1 0 1 1)
    (.underflow ((httpStreambuf.steady (rangeServer [10, 20, 30, 40, 50]) "http://host/file" 1
        3 3 0 0 2).tune 2 1) 20 _
      (.ctor _ (by decide)) (by decide) (by decide))

/-! ## The number of requests up to the first end-of-file -/

theorem blocks_of_lt (L B j : Nat) (hB : 1 ≤ B) : j < blocks_of L B ↔ j * B < L := by
  unfold blocks_of
  rw [Nat.lt_iff_add_one_le, Nat.le_div_iff_mul_le (by omega), Nat.add_mul]
  omega

theorem block_text_ne_nil (res : List Int) (B j : Nat) (hB : 1 ≤ B) :
    (res.drop (j * B)).take B ≠ [] ↔ j * B < res.length := by
  rw [ne_eq, ← List.length_eq_zero, List.length_take, List.length_drop]
  omega

theorem count_beyond (L B K a : Nat) (hK : ∀ j, j < K ↔ j * B < L) :
    (((List.range (K + a)).map (fun j : Nat => ((j : Int) * B, (j : Int) * B + B - 1))).filter
      (fun q => decide ((L : Int) ≤ q.1))).length = a := by
  rw [← range_map_append, List.filter_append]
  have h1 : ((List.range K).map (fun j : Nat => ((j : Int) * B, (j : Int) * B + B - 1))).filter
      (fun q => decide ((L : Int) ≤ q.1)) = [] := by
    rw [List.filter_eq_nil_iff]
    intro q hq
    rw [List.mem_map] at hq
    obtain ⟨j, hj, rfl⟩ := hq
    have hlt : j * B < L := (hK j).mp (List.mem_range.mp hj)
    have hlt1 : ((j : Int) * B) < L := by exact_mod_cast hlt
    simp only [decide_eq_true_eq, not_le]
    exact hlt1
  have h2 : ((List.range' K a).map (fun j : Nat => ((j : Int) * B, (j : Int) * B + B - 1))).filter
      (fun q => decide ((L : Int) ≤ q.1)) =
      (List.range' K a).map (fun j : Nat => ((j : Int) * B, (j : Int) * B + B - 1)) := by
    rw [List.filter_eq_self]
    intro q hq
    rw [List.mem_map] at hq
    obtain ⟨j, hj, rfl⟩ := hq
    rw [List.mem_range'_1] at hj
    have hge : ¬ j * B < L := fun hlt => by
      have := (hK j).mpr hlt
      omega
    have hge1 : (L : Int) ≤ (j : Int) * B := by
      have : L ≤ j * B := by omega
      exact_mod_cast this
    simp only [decide_eq_true_eq]
    exact hge1
  rw [h1, h2, List.nil_append, List.length_map, List.length_range']

/-- C26, counterexample: a resource of one byte read with block size 1 and
`readahead_` set to 2 after construction.  The first call of `underflow`
returns end-of-file, and three ranges were requested, all by the constructor
with its `readahead_ = 3`; `ceil(L/B) + r - 1` is 2. -/
theorem requests_of_one_block_resource :
    (httpStreambuf.run (rangeServer [10]) "http://host/file" 1 2 3 1).toOption.map
        (fun t => (t.1.map (fun p => p.1), t.2.requests_, blocks_of 1 1 + 2 - 1)) =
      some ([eof], [(0, 0), (1, 1), (2, 2)], 2) := by
  decide

/-- C26, amended: a resource of length `L ≥ 1` read with block size `B ≥ 1`
from a backend that serves it, `readahead_` set to `r ≥ 2` after
construction, where `r` is 3, the value the constructor works with, or the
resource is longer than one block.  The call number `ceil(L/B)` of
`underflow` is the first that returns end-of-file; up to and including it
exactly `ceil(L/B) + r - 1` ranges are requested, those of the blocks at the
offsets `0, B, 2B, ..`, and exactly `r - 1` of them start at or beyond the
end of the resource. -/
theorem requests_up_to_eof (get : cpr.Get) (url : String) (res : List Int) (B : Nat)
    (r l : Int) (hs : Serves get url res B) (hL : 1 ≤ res.length) (hB : 1 ≤ B)
    (hr : 2 ≤ r) (hr1 : r < 2147483648) (hl : 0 ≤ l) (hl1 : l < 2147483648)
    (hone : r = 3 ∨ B < res.length) :
    ∃ (trace : List (Int × List Int)) (s s1 : httpStreambuf),
      httpStreambuf.run get url B r l (blocks_of res.length B - 1) = .ok (trace, s) ∧
      (∀ p ∈ trace, p.1 ≠ eof) ∧
      httpStreambuf.underflow get s = .ok (eof, s1) ∧
      s1.requests_ = (List.range (blocks_of res.length B + (r - 1).toNat)).map
        (fun j : Nat => ((j : Int) * B, (j : Int) * B + B - 1)) ∧
      (s1.requests_.length : Int) = blocks_of res.length B + r - 1 ∧
      ((s1.requests_.filter (fun q => decide ((res.length : Int) ≤ q.1))).length : Int)
        = r - 1 := by
  have hK := fun j => blocks_of_lt res.length B j hB
  have hK1 : 1 ≤ blocks_of res.length B := by
    have := (hK 0).mpr (by omega)
    omega
  have h0 := (serves_answer get url res B hs 0).2.2 (by omega)
  obtain ⟨lo1, h1, hsum, hh1, hrun⟩ := run_steady_exact get url B r l
    (blocks_of res.length B - 1) hr hr1 hl hl1 h0
    (fun j hj1 hj2 => by
      have hlt : j * B < res.length := (hK j).mp (by omega)
      obtain ⟨ht, _, h206⟩ := serves_answer get url res B hs j
      refine ⟨Or.inl (h206 hlt), ?_⟩
      rw [ht]
      exact (block_text_ne_nil res B j hB).mpr hlt)
  have ha : (if blocks_of res.length B - 1 = 0 then 2 else (r - 1).toNat) = (r - 1).toNat := by
    split_ifs with hz
    · have hk : blocks_of res.length B = 1 := by omega
      have hnot : ¬ 1 < blocks_of res.length B := by omega
      rw [hK 1] at hnot
      rcases hone with h3 | hlong
      · rw [h3]
        rfl
      · omega
    · rfl
  rw [ha] at hrun
  obtain ⟨a0, ha0⟩ : ∃ a0, (r - 1).toNat = a0 + 1 := ⟨(r - 1).toNat - 1, by omega⟩
  rw [ha0] at hrun
  have hk : lo1 + h1 + 1 = blocks_of res.length B := by omega
  have hend : ¬ blocks_of res.length B * B < res.length := fun hlt => by
    have := (hK (blocks_of res.length B)).mpr hlt
    omega
  obtain ⟨ht, hok, _⟩ := serves_answer get url res B hs (lo1 + h1 + 1)
  have hempty : (httpStreambuf.answer get url B (lo1 + h1 + 1)).text = [] := by
    rw [ht]
    by_contra hne
    rw [hk] at hne
    exact hend ((block_text_ne_nil res B _ hB).mp hne)
  have hstep := underflow_steady_eof get url B r l lo1 h1 a0 (by omega) (by omega) hok hempty
  have hreq : (List.range (lo1 + h1 + 1 + (a0 + 1))).map
        (fun j : Nat => ((j : Int) * B, (j : Int) * B + B - 1)) =
      (List.range (blocks_of res.length B + (r - 1).toNat)).map
        (fun j : Nat => ((j : Int) * B, (j : Int) * B + B - 1)) := by
    rw [hk, ha0]
  refine ⟨_, _, _, hrun, ?_, hstep, hreq, ?_, ?_⟩
  · intro p hp
    simp only [List.mem_map] at hp
    obtain ⟨j, _, rfl⟩ := hp
    exact byte_ne_eof _
  · show (((List.range (lo1 + h1 + 1 + (a0 + 1))).map _).length : Int) = _
    rw [List.length_map, List.length_range]
    push_cast
    omega
  · show ((((List.range (lo1 + h1 + 1 + (a0 + 1))).map _).filter _).length : Int) = _
    rw [hreq, count_beyond res.length B _ _ hK]
    omega

theorem requests_up_to_eof_witness :
    ∃ (trace : List (Int × List Int)) (s s1 : httpStreambuf),
      httpStreambuf.run (rangeServer [10, 20, 30, 40, 50]) "http://host/file" 2 2 3
        (blocks_of [(10 : Int), 20, 30, 40, 50].length 2 - 1) = .ok (trace, s) ∧
      (∀ p ∈ trace, p.1 ≠ eof) ∧
      httpStreambuf.underflow (rangeServer [10, 20, 30, 40, 50]) s = .ok (eof, s1) ∧
      s1.requests_ = (List.range (blocks_of [(10 : Int), 20, 30, 40, 50].length 2
          + ((2 : Int) - 1).toNat)).map
        (fun j : Nat => ((j : Int) * (2 : Nat), (j : Int) * (2 : Nat) + (2 : Nat) - 1)) ∧
      (s1.requests_.length : Int) = blocks_of [(10 : Int), 20, 30, 40, 50].length 2 + 2 - 1 ∧
      ((s1.requests_.filter (fun q =>
        decide (([(10 : Int), 20, 30, 40, 50].length : Int) ≤ q.1))).length : Int) = 2 - 1 :=
  requests_up_to_eof (rangeServer [10, 20, 30, 40, 50]) "http://host/file" [10, 20, 30, 40, 50]
    2 2 3 (rangeServer_serves _ _ _) (by decide) (by decide) (by decide) (by decide) (by decide)
    (by decide) (by decide)

/-! ## `advance` with a negative `readahead_` -/

theorem advance_loop_end (get : cpr.Get) :
    ∀ (fuel : Nat) (s : httpStreambuf) (n : Int) (r : Int × httpStreambuf),
      httpStreambuf.advance_loop get fuel s n = .ok r →
      httpStreambuf.advance_cond r.2 = false ∨ r.2.buffer_.length = s.buffer_.length + fuel := by
  intro fuel
  induction fuel with
  | zero =>
    intro s n r h
    simp only [httpStreambuf.advance_loop, Except.ok.injEq] at h
    subst h
    exact Or.inr rfl
  | succ fuel ih =>
    intro s n r h
    rw [httpStreambuf.advance_loop] at h
    split_ifs at h with hc
    · cases hb : s.buffer_.getLast? with
      | none => simp [httpStreambuf.advance_body, hb] at h
      | some back =>
        rw [advance_body_eq get s back hb] at h
        rcases ih _ _ _ h with h1 | h1
        · exact Or.inl h1
        · right
          rw [h1]
          simp only [List.length_append, List.length_cons, List.length_nil]
          omega
    · simp only [Except.ok.injEq] at h
      subst h
      left
      simpa using hc

theorem advance_negative (get : cpr.Get) (s : httpStreambuf) (hr : s.readahead_ = -1)
    (hi : s.buffer_index_ = 0) :
    httpStreambuf.leaves_at_least (httpStreambuf.advance get s) 18446744073709551615 := by
  unfold httpStreambuf.leaves_at_least
  split
  · rename_i r h
    obtain ⟨f1, _, f3⟩ := advance_fields get s r h
    rcases advance_loop_end get _ s 0 r h with h1 | h1
    · unfold httpStreambuf.advance_cond at h1
      rw [f1, f3, hr, hi] at h1
      simp only [decide_eq_false_iff_not, not_lt] at h1
      unfold subSizeT toSizeT at h1
      omega
    · rw [h1, hr]
      unfold toSizeT
      omega
  · trivial

/-- C21, the code at the failing input: a window of three blocks with
`buffer_index_ = 0` and `readahead_ = -1`.  The loop guard of `advance`,
`buffer_.size() - buffer_index_ < readahead_`, converts `readahead_` to
`size_t` and is true, and it stays true until the window holds `2^64 - 1`
blocks: after four iterations the loop has appended four blocks and its
guard still holds, and `advance` cannot return before the window holds
`2^64 - 1` blocks, where `max(0, readahead_ - 3)` is zero. -/
theorem advance_negative_readahead :
    (httpStreambuf.steady (rangeServer [10, 20, 30, 40, 50]) "http://host/file" 1
      (-1) 3 0 0 2).buffer_.length = 3 ∧
    httpStreambuf.advance_cond (httpStreambuf.steady (rangeServer [10, 20, 30, 40, 50])
      "http://host/file" 1 (-1) 3 0 0 2) = true ∧
    (httpStreambuf.advance_loop (rangeServer [10, 20, 30, 40, 50]) 4
        (httpStreambuf.steady (rangeServer [10, 20, 30, 40, 50]) "http://host/file" 1
          (-1) 3 0 0 2) 0).toOption.map
      (fun r => (r.1, r.2.buffer_.length, httpStreambuf.advance_cond r.2)) =
      some (4, 7, true) ∧
    httpStreambuf.leaves_at_least
      (httpStreambuf.advance (rangeServer [10, 20, 30, 40, 50])
        (httpStreambuf.steady (rangeServer [10, 20, 30, 40, 50]) "http://host/file" 1
          (-1) 3 0 0 2)) 18446744073709551615 :=
  ⟨by decide, by decide, by decide,
    advance_negative (rangeServer [10, 20, 30, 40, 50])
      (httpStreambuf.steady (rangeServer [10, 20, 30, 40, 50]) "http://host/file" 1
        (-1) 3 0 0 2) rfl rfl⟩

end HDDM
